import Mathlib

/-!
Verification development for the psxfudge asset-packing core.

The definitions below are a shallow embedding of the Python sources:
`util.py` (hashing, alignment), `builders.py` (index hash table, bundle
assembly), `image.py` (image records) and `packer.py` (palette and texture
packers).  Byte strings are modelled as `List Nat` (each element one byte,
callers keep values below 256 where the source guarantees it), machine
integers as `Nat`/`Int` with explicit `% 2^w`, mutation as explicit state
passing, exceptions as `Except`, and Python's seed-randomized builtin
`hash()` (used only for image/palette deduplication keys) as an explicit
function parameter.
-/

/-- Ceiling of log2, computed with structural fuel so the kernel can
evaluate it.  `clog2Aux fuel n` equals `ceil (log2 n)` whenever `n ≤ fuel`
(each step replaces `n` by `ceil (n / 2)`). -/
def clog2Aux : Nat → Nat → Nat
  | 0, _ => 0
  | fuel + 1, n => if n ≤ 1 then 0 else clog2Aux fuel ((n + 1) / 2) + 1

/-- `math.ceil(math.log2 n)` for `n ≥ 1`, as used by `IndexBuilder._buildTable`. -/
def ceilLog2 (n : Nat) : Nat := clog2Aux n n

/-- `util.hash32`: the 32-bit sdbm hash of a code-point sequence.
Python computes `(byte + ((h << 6) & M) + ((h << 16) & M) - h) & M` with
`M = 0xffffffff`; the accumulator always stays below `2^32`, so adding
`2^32` before the truncated subtraction reproduces the two's-complement
wraparound exactly. -/
def hash32 (obj : List Nat) : Nat :=
  obj.foldl
    (fun value byte =>
      (byte + (value <<< 6) % 4294967296 + (value <<< 16) % 4294967296 +
          (4294967296 - value % 4294967296)) % 4294967296)
    0

/-- `util.alignToMultiple`: pad a byte string with zero bytes up to
`ceil (len / length) * length` (Python `ljust`). -/
def alignToMultiple (data : List Nat) (length : Nat) : List Nat :=
  let chunks := (data.length + length - 1) / length
  data ++ List.replicate (chunks * length - data.length) 0

/-- `util.alignMutableToMultiple`: pad in place with zero bytes; computes
`remaining = length - len % length` and extends only when `remaining < length`. -/
def alignMutableToMultiple (obj : List Nat) (length : Nat) : List Nat :=
  let remaining := length - obj.length % length
  if remaining < length then obj ++ List.replicate remaining 0 else obj

/-- Little-endian 16-bit encoding (`struct` format "H"). -/
def le16 (n : Nat) : List Nat := [n % 256, n / 256 % 256]

/-- Little-endian 32-bit encoding (`struct` format "I"). -/
def le32 (n : Nat) : List Nat :=
  [n % 256, n / 256 % 256, n / 65536 % 256, n / 16777216 % 256]

/-- Stable insertion sort used to model Python's `sorted` (which is stable);
`lt y x = true` keeps `y` in front of `x`, so elements whose comparison is
`false` in both directions retain their original relative order. -/
def insertSorted (lt : α → α → Bool) (x : α) : List α → List α
  | [] => [x]
  | y :: ys => if lt y x then y :: insertSorted lt x ys else x :: y :: ys

/-- Stable sort: `sortWithBy lt l` orders `l` so that `y` precedes `x`
whenever `lt y x`, preserving the original order of ties. -/
def sortWithBy (lt : α → α → Bool) : List α → List α
  | [] => []
  | x :: xs => insertSorted lt x (sortWithBy lt xs)

/-- Association-list lookup modelling Python `dict.get` for the packer's
deduplication maps (keys are only ever appended when absent). -/
def lookupAssoc [DecidableEq κ] (m : List (κ × α)) (k : κ) : Option α :=
  (m.find? (fun p => p.1 = k)).map (fun p => p.2)

/-- Python `list.insert(i, a)`. -/
def insertAt (l : List α) (i : Nat) (a : α) : List α :=
  l.take i ++ a :: l.drop i

/-- In-place slice assignment `data[offset : offset + len(bytes)] = bytes`
(the source only uses it with the slice fully in bounds). -/
def writeSlice (data : List Nat) (offset : Nat) (bytes : List Nat) : List Nat :=
  data.take offset ++ bytes ++ data.drop (offset + bytes.length)

/-! ## Index builder (`builders.py`, class `IndexBuilder`) -/

/-- One entry of the extended index: `[hash, offset, length, entryType, next]`
as stored by `IndexBuilder.addEntry` (the `next` slot starts at 0 and is
rewritten by `_buildTable` when a chain is extended). -/
structure IndexEntry where
  hash : Nat
  offset : Nat
  length : Nat
  kind : Nat
  next : Nat
deriving Repr, DecidableEq

/-- The payload fields registered for a name (everything except the mutable
chain link). -/
def IndexEntry.fields (e : IndexEntry) : Nat × Nat × Nat × Nat :=
  (e.hash, e.offset, e.length, e.kind)

/-- `IndexBuilder.addEntry`: reject the name when an entry with the same
32-bit hash is already registered, otherwise append
`[hash, offset, length, entryType, 0]` (insertion order is preserved,
matching the Python dict). -/
def indexAddEntry (entries : List IndexEntry) (name : List Nat)
    (offset length entryType : Nat) : Except String (List IndexEntry) :=
  let h := hash32 name
  if entries.any (fun e => e.hash = h) then
    Except.error "hash table already contains an entry with this name"
  else
    Except.ok (entries ++ [⟨h, offset, length, entryType, 0⟩])

/-- Fold `indexAddEntry` over a list of insertions
`(name, offset, length, entryType)`. -/
def indexAddAll (inserts : List (List Nat × Nat × Nat × Nat)) :
    Except String (List IndexEntry) :=
  inserts.foldlM
    (fun entries ins => indexAddEntry entries ins.1 ins.2.1 ins.2.2.1 ins.2.2.2)
    []

/-- `_buildTable`'s bucket count: the number of entries rounded up to the
next power of two. -/
def numBucketsFor (numEntries : Nat) : Nat := 2 ^ ceilLog2 numEntries

/-- The hash table produced by `IndexBuilder._buildTable`: an array of
buckets (`None` = empty) plus the chained overflow list. -/
structure HashTable where
  buckets : List (Option IndexEntry)
  chained : List IndexEntry
deriving Repr, DecidableEq

/-- A slot of the table: either bucket `i` or chained entry `j`. -/
inductive TableLoc where
  | bkt (i : Nat)
  | chn (j : Nat)
deriving Repr, DecidableEq

/-- Read the entry stored at a slot. -/
def entryAt (st : HashTable) : TableLoc → Option IndexEntry
  | TableLoc.bkt i => st.buckets.getD i none
  | TableLoc.chn j => st.chained[j]?

/-- Overwrite the `next` link of the entry stored at a slot (models the
Python statement `lastEntry[4] = numBuckets + len(self.chained)`, which
mutates a list shared between `buckets` and `chained`). -/
def setNextAt (st : HashTable) (loc : TableLoc) (n : Nat) : HashTable :=
  match loc with
  | TableLoc.bkt i =>
      { st with
        buckets := st.buckets.set i
          ((st.buckets.getD i none).map (fun e => { e with next := n })) }
  | TableLoc.chn j =>
      match st.chained[j]? with
      | none => st
      | some e => { st with chained := st.chained.set j { e with next := n } }

/-- The slot a non-zero `next` link refers to (`link - numBuckets` indexes the
chained region; link 0 is end-of-chain). -/
def nextLoc (numBuckets : Nat) (e : IndexEntry) : Option TableLoc :=
  if e.next = 0 then none else some (TableLoc.chn (e.next - numBuckets))

/-- The `while lastEntry[4]:` loop of `_buildTable`: follow chain links from a
slot until an entry with link 0 (fuelled; chain links strictly increase, so
`chained.length + 1` fuel always suffices on tables built here). -/
def findEnd (st : HashTable) : Nat → TableLoc → TableLoc
  | 0, loc => loc
  | fuel + 1, loc =>
      match entryAt st loc with
      | none => loc
      | some e =>
          if e.next = 0 then loc
          else findEnd st fuel (TableLoc.chn (e.next - st.buckets.length))

/-- One iteration of `_buildTable`'s entry loop: probe `hash % numBuckets`;
occupy the bucket if free, otherwise link the entry at the end of the
bucket's chain and append it to the chained region. -/
def insertTableEntry (st : HashTable) (e : IndexEntry) : HashTable :=
  let n := st.buckets.length
  let i := e.hash % n
  match st.buckets.getD i none with
  | none => { st with buckets := st.buckets.set i (some e) }
  | some _ =>
      let last := findEnd st (st.chained.length + 1) (TableLoc.bkt i)
      let st' := setNextAt st last (n + st.chained.length)
      { st' with chained := st'.chained ++ [e] }

/-- `IndexBuilder._buildTable`: allocate `2 ^ ceil (log2 n)` empty buckets and
insert every registered entry in insertion order. -/
def buildTable (entries : List IndexEntry) : HashTable :=
  entries.foldl insertTableEntry
    ⟨List.replicate (numBucketsFor entries.length) none, []⟩

/-- Collect the slots visited when following chain links from `loc` (fuelled
walk; the runtime lookup described by the specification). -/
def walkLocs (st : HashTable) : Nat → Option TableLoc → List TableLoc
  | 0, _ => []
  | _ + 1, none => []
  | fuel + 1, some loc =>
      match entryAt st loc with
      | none => []
      | some e => loc :: walkLocs st fuel (nextLoc st.buckets.length e)

/-- The slots of bucket `i`'s chain. -/
def chainLocs (st : HashTable) (i : Nat) : List TableLoc :=
  walkLocs st (st.chained.length + 1) (some (TableLoc.bkt i))

/-- The entries of bucket `i`'s chain, in walk order. -/
def chainEntries (st : HashTable) (i : Nat) : List IndexEntry :=
  (chainLocs st i).filterMap (entryAt st)

/-- The runtime lookup: start at bucket `hash % bucketCount`, follow chain
links, and return the first entry whose 32-bit hash matches. -/
def lookupEntry (st : HashTable) (h : Nat) : Option IndexEntry :=
  (chainEntries st (h % st.buckets.length)).find? (fun e => e.hash = h)

/-- One 16-byte extended-index record (`INDEX_EXT_ENTRY_STRUCT`, "< 3I 2H");
empty buckets serialize as zeros. -/
def serializeExtEntry (globalOffset : Nat) : Option IndexEntry → List Nat
  | none => List.replicate 16 0
  | some e =>
      le32 e.hash ++ le32 (e.offset + globalOffset) ++ le32 e.length ++
        le16 e.kind ++ le16 e.next

/-- `IndexBuilder.serialize` in extended mode: a 4-byte header
(bucket count, chained count) followed by all buckets then all chained
entries, 16 bytes each. -/
def serializeIndex (st : HashTable) (globalOffset : Nat) : List Nat :=
  le16 st.buckets.length ++ le16 st.chained.length ++
    ((st.buckets ++ st.chained.map some).map (serializeExtEntry globalOffset)).flatten

/-! ## Image records (`image.py`, class `ImageWrapper`) -/

/-- An `ImageWrapper`: decoded pixel data plus geometry and the placement
fields filled in by the packer.  `data` is the 2D pixel array (row major,
one `Nat` per pixel), `uid` stands in for Python object identity so that
mutations made through one list alias can be replayed onto another.
`py` is stored as clamped `Nat` (the cursor that assigns it only goes
negative in the degenerate `atlasHeight = 0` call, and then immediately
stops). -/
structure ImageWrapper where
  uid : Nat
  data : List (List Nat)
  palette : List Nat
  marginX : Nat
  marginY : Nat
  rightMarginX : Nat
  rightMarginY : Nat
  padding : Nat
  flipModes : List Bool
  interlaceField : Option Nat
  bpp : Nat
  innerWidth : Nat
  innerHeight : Nat
  page : Option Nat
  palettePage : Option Nat
  x : Option Nat
  y : Option Nat
  px : Option Nat
  py : Option Nat
  flip : Bool
deriving Repr, DecidableEq

/-- `self.width`: left margin + inner width + right margin. -/
def ImageWrapper.width (im : ImageWrapper) : Nat :=
  im.marginX + im.innerWidth + im.rightMarginX

/-- `self.height`: top margin + inner height + bottom margin. -/
def ImageWrapper.height (im : ImageWrapper) : Nat :=
  im.marginY + im.innerHeight + im.rightMarginY

/-- `ImageWrapper.getPackedSize`: the atlas footprint in 16-bit columns and
rows for a given flip; the column width is `ceil ((axis + 2 * padding) / (16 / bpp))`. -/
def ImageWrapper.getPackedSize (im : ImageWrapper) (flip : Bool) : Nat × Nat :=
  let scale := 16 / im.bpp
  if flip then
    ((im.innerHeight + im.padding * 2 + scale - 1) / scale,
      im.innerWidth + im.padding * 2)
  else
    ((im.innerWidth + im.padding * 2 + scale - 1) / scale,
      im.innerHeight + im.padding * 2)

/-- `ImageWrapper.getPackedMaxWidth`: the widest footprint over the allowed
flip modes (Python `max` over a nonempty generator; 0 when no flip modes). -/
def ImageWrapper.getPackedMaxWidth (im : ImageWrapper) : Nat :=
  (im.flipModes.map (fun flip => (im.getPackedSize flip).1)).foldr max 0

/-- `ImageWrapper.canBePlaced`: the page-containment test at a proposed
position; the code uses `texpageWidth = TEXPAGE_WIDTH * (bpp // 4)`,
i.e. 64, 128 and 256 columns for 4, 8 and 16 bpp. -/
def ImageWrapper.canBePlaced (im : ImageWrapper) (x y : Nat) (flip : Bool) : Bool :=
  let size := im.getPackedSize flip
  let texpageWidth := 64 * (im.bpp / 4)
  decide (x % texpageWidth + size.1 ≤ texpageWidth) &&
    decide (y % 256 + size.2 ≤ 256)

/-- `ImageWrapper.getPaletteXY`: 0 when no palette was placed, otherwise
`(px // 16) | (py << 6)` (note `px` was already divided by 16 when the
palette packer stored it). -/
def ImageWrapper.getPaletteXY (im : ImageWrapper) : Nat :=
  match im.palettePage with
  | none => 0
  | some _ => (im.px.getD 0) / 16 ||| ((im.py.getD 0) <<< 6)

/-- `ImageWrapper.getFlags`: bpp in bits 0-1, interlace field in bits 2-3,
margin-present in bit 4, flip in bit 5. -/
def ImageWrapper.getFlags (im : ImageWrapper) : Nat :=
  let base : Nat := if im.bpp = 4 then 0 else if im.bpp = 8 then 1 else 2
  let fieldBits : Nat :=
    match im.interlaceField with
    | none => 0
    | some fld => if fld ≠ 0 then 8 else 4
  let marginBit : Nat :=
    if im.innerWidth < im.width ∨ im.innerHeight < im.height then 16 else 0
  let flipBit : Nat := if im.flip then 32 else 0
  base ||| fieldBits ||| marginBit ||| flipBit

/-- The palette bytes fed to `hash()` by `ImageWrapper.getPaletteHash`: each
16-bit entry is masked with `0xfbde` unless `preserveLSB` is set. -/
def ImageWrapper.maskedPalette (im : ImageWrapper) (preserveLSB : Bool) : List Nat :=
  if preserveLSB then im.palette else im.palette.map (fun c => c &&& 0xfbde)

/-! ## Palette packer (`packer.py`, `packPalettes`) -/

/-- The running state of `packPalettes`: the processed images (in the sorted
processing order), the hash-to-image deduplication map, the packed counter,
the cursor `(px, py)` (`py : Int`, it may step to -1), and the break flag. -/
structure PaletteState where
  images : List ImageWrapper
  hashes : List (Nat × ImageWrapper)
  packed : Nat
  px : Nat
  py : Int
  stopped : Bool
deriving Repr, DecidableEq

/-- The record assignment of the deduplication branch of `packPalettes`:
inherit `(px, py)` from the already-placed palette. -/
def paletteInherited (im prev : ImageWrapper) (page : Nat) : ImageWrapper :=
  { im with px := prev.px, py := prev.py, palettePage := some page }

/-- The record assignment of the placement branch of `packPalettes`: store
the cursor as `(px // 16, py)`. -/
def palettePlaced (im : ImageWrapper) (page cursorPx : Nat) (cursorPy : Int) :
    ImageWrapper :=
  { im with px := some (cursorPx / 16), py := some cursorPy.toNat,
            palettePage := some page }

/-- One iteration of the `for image in sorted(...)` loop of `packPalettes`:
skip palettes wider than the atlas, inherit the placement of an
already-seen palette hash, or place the palette at the cursor
(`px // 16`, `py`) and advance the cursor, breaking once `py < 0`.
`hp` models the Python builtin `hash` applied to the (masked) palette bytes. -/
def packPalettesStep (hp : List Nat → Nat) (atlasWidth : Nat) (page : Nat)
    (preserveLSB : Bool) (st : PaletteState) (im : ImageWrapper) : PaletteState :=
  if st.stopped then { st with images := st.images ++ [im] }
  else
    let width := 2 ^ im.bpp
    if width > atlasWidth then { st with images := st.images ++ [im] }
    else
      let h := hp (im.maskedPalette preserveLSB)
      match lookupAssoc st.hashes h with
      | some prev =>
          { st with images := st.images ++ [paletteInherited im prev page],
                    packed := st.packed + 1 }
      | none =>
          let im' := palettePlaced im page st.px st.py
          let px1 := st.px + width
          let py1 := st.py - (px1 / atlasWidth : Nat)
          { images := st.images ++ [im'], hashes := st.hashes ++ [(h, im')],
            packed := st.packed + 1, px := px1 % atlasWidth, py := py1,
            stopped := decide (py1 < 0) }

/-- Run `packPalettes`' loop: sort by color depth descending (stable, like
Python's `sorted(..., reverse = True)`) and fold the step over the images,
starting from the cursor `(0, atlasHeight - 1)`. -/
def packPalettesRun (hp : List Nat → Nat) (images : List ImageWrapper)
    (atlasWidth atlasHeight page : Nat) (preserveLSB : Bool) : PaletteState :=
  (sortWithBy (fun a b => decide (a.bpp > b.bpp)) images).foldl
    (packPalettesStep hp atlasWidth page preserveLSB)
    ⟨[], [], 0, 0, (atlasHeight : Int) - 1, false⟩

/-- `packPalettes`: returns `(freeHeight, numPackedPalettes)` together with
the updated image records; `freeHeight = py + (0 if px else 1)`. -/
def packPalettes (hp : List Nat → Nat) (images : List ImageWrapper)
    (atlasWidth atlasHeight page : Nat) (preserveLSB : Bool) :
    (Int × Nat) × List ImageWrapper :=
  let st := packPalettesRun hp images atlasWidth atlasHeight page preserveLSB
  ((st.py + (if st.px ≠ 0 then 0 else 1), st.packed), st.images)

/-! ## Image packer (`packer.py`, `_attemptPacking`) -/

/-- A free rectangle `(x, y, maxWidth, maxHeight)` of the atlas. -/
structure FreeSpace where
  x : Nat
  y : Nat
  w : Nat
  h : Nat
deriving Repr, DecidableEq

/-- The inner loop over `enumerate(spaces)`: find the free rectangle large
enough for the `width × height` footprint that admits a page-respecting
corner anchor and leaves the smallest slack area.  Returns
`(index, (offsetX, offsetY), margin)`; corners are tried in the order
top-left, top-right, bottom-left, bottom-right and a strictly smaller
margin is required to replace the current best (so the first of equal
margins wins, as in the source). -/
def scanSpaces (im : ImageWrapper) (flip : Bool) (width height : Nat)
    (spaces : List FreeSpace) : Option (Nat × (Nat × Nat) × Nat) :=
  (spaces.enum).foldl
    (fun best entry =>
      let index := entry.1
      let sp := entry.2
      if width > sp.w ∨ height > sp.h then best
      else
        let marginX := sp.w - width
        let marginY := sp.h - height
        match
          [(0, 0), (marginX, 0), (0, marginY), (marginX, marginY)].find?
            (fun c => im.canBePlaced (sp.x + c.1) (sp.y + c.2) flip)
        with
        | none => best
        | some off =>
            let margin := sp.w * sp.h - width * height
            let better :=
              match best with
              | none => true
              | some prev => decide (margin < prev.2.2)
            if better then some (index, off, margin) else best)
    none

/-- Split the chosen free rectangle after placing a `width × height` image at
corner offset `(offsetX, offsetY)`: remove it and insert up to two
sub-rectangles at its former index, splitting horizontally when
`altSplit != (maxWidth * marginY < maxHeight * marginX)`. -/
def splitSpace (spaces : List FreeSpace) (index : Nat) (sp : FreeSpace)
    (width height offsetX offsetY : Nat) (altSplit : Bool) : List FreeSpace :=
  let spaces0 := spaces.eraseIdx index
  let marginX := sp.w - width
  let marginY := sp.h - height
  let padLeft := if offsetX ≠ 0 then 0 else width
  let padTop := if offsetY ≠ 0 then 0 else height
  if altSplit != decide (sp.w * marginY < sp.h * marginX) then
    let s1 :=
      if marginY ≠ 0 then
        insertAt spaces0 index ⟨sp.x, sp.y + padTop, sp.w, marginY⟩
      else spaces0
    if marginX ≠ 0 then
      insertAt s1 index ⟨sp.x + padLeft, sp.y + offsetY, marginX, height⟩
    else s1
  else
    let s1 :=
      if marginX ≠ 0 then
        insertAt spaces0 index ⟨sp.x + padLeft, sp.y, marginX, sp.h⟩
      else spaces0
    if marginY ≠ 0 then
      insertAt s1 index ⟨sp.x + offsetX, sp.y + padTop, width, marginY⟩
    else s1

/-- The `for flip in image.flipModes` loop: try each allowed orientation in
preference order and place the image into the best free rectangle found;
returns the placed image and the updated free-space list, or `none` when no
orientation fits. -/
def tryFlips (im : ImageWrapper) (page : Nat) (altSplit : Bool)
    (spaces : List FreeSpace) : List Bool → Option (ImageWrapper × List FreeSpace)
  | [] => none
  | flip :: rest =>
      let size := im.getPackedSize flip
      match scanSpaces im flip size.1 size.2 spaces with
      | none => tryFlips im page altSplit spaces rest
      | some found =>
          let index := found.1
          let offsetX := found.2.1.1
          let offsetY := found.2.1.2
          let sp := spaces.getD index ⟨0, 0, 0, 0⟩
          let spaces' := splitSpace spaces index sp size.1 size.2 offsetX offsetY altSplit
          some
            ({ im with x := some (sp.x + offsetX), y := some (sp.y + offsetY),
                       page := some page, flip := flip },
              spaces')

/-- The running state of `_attemptPacking`: processed images (same order as
the input), the free-space list, the pixel-hash deduplication map, and the
`(area, packed)` counters. -/
structure PackState where
  images : List ImageWrapper
  spaces : List FreeSpace
  hashes : List (Nat × ImageWrapper)
  area : Nat
  packed : Nat
deriving Repr, DecidableEq

/-- The record assignment of the deduplication branch of `_attemptPacking`:
inherit `(x, y, page, flip)` from the already-placed image. -/
def dupPlaced (im prev : ImageWrapper) : ImageWrapper :=
  { im with x := prev.x, y := prev.y, page := prev.page, flip := prev.flip }

/-- The placement-field reset performed at the top of `_attemptPacking`'s
image loop. -/
def resetImage (im : ImageWrapper) : ImageWrapper :=
  { im with x := none, y := none, page := none }

/-- One iteration of `_attemptPacking`'s image loop:  an image whose pixel
hash was already placed inherits `(x, y, page, flip)` from the stored image
without consuming space; otherwise the placement fields are reset and each
allowed flip is attempted. `h` models the Python builtin `hash` applied to
the raw pixel buffer. -/
def attemptPackStep (h : List (List Nat) → Nat) (page : Nat) (altSplit : Bool)
    (st : PackState) (im : ImageWrapper) : PackState :=
  let hv := h im.data
  match lookupAssoc st.hashes hv with
  | some prev =>
      { st with images := st.images ++ [dupPlaced im prev],
                packed := st.packed + 1 }
  | none =>
      match tryFlips (resetImage im) page altSplit st.spaces
          (resetImage im).flipModes with
      | none => { st with images := st.images ++ [resetImage im] }
      | some placed =>
          let im' := placed.1
          let size := im'.getPackedSize im'.flip
          { images := st.images ++ [im'], spaces := placed.2,
            hashes := st.hashes ++ [(hv, im')],
            area := st.area + size.1 * size.2, packed := st.packed + 1 }

/-- `_attemptPacking`: fold the image loop over the input starting from a
single free rectangle spanning the whole atlas. -/
def attemptPack (h : List (List Nat) → Nat) (images : List ImageWrapper)
    (atlasWidth atlasHeight page : Nat) (altSplit : Bool) : PackState :=
  images.foldl (attemptPackStep h page altSplit)
    ⟨[], [⟨0, 0, atlasWidth, atlasHeight⟩], [], 0, 0⟩

/-! ## Bundle builder (`builders.py`, class `BundleBuilder`) -/

/-- `DATA_SIZE`: main data section budget. -/
def DATA_SIZE : Nat := 0x180000

/-- `VRAM_DATA_SIZE`: texture memory budget (32 pages). -/
def VRAM_DATA_SIZE : Nat := 0x100000

/-- `SPU_DATA_SIZE`: audio memory budget. -/
def SPU_DATA_SIZE : Nat := 0x7d000

/-- `SECTOR_SIZE`: section alignment unit. -/
def SECTOR_SIZE : Nat := 0x800

/-- The `EntryType` enumeration tags. -/
def typeFILE : Nat := 0x0000

/-- Tag for progressive animated textures. -/
def typeTEXTURE : Nat := 0x0010

/-- Tag for interlaced animated textures. -/
def typeITEXTURE : Nat := 0x0011

/-- Tag for progressive backgrounds. -/
def typeBG : Nat := 0x0020

/-- Tag for interlaced backgrounds. -/
def typeIBG : Nat := 0x0021

/-- Tag for sounds. -/
def typeSOUND : Nat := 0x0030

/-- Tag for string tables. -/
def typeSTRINGTABLE : Nat := 0x0040

/-- A converted sound (`audio.py`, class `SoundWrapper`): one list of ADPCM
bytes per channel (the rows of the 2D NumPy array) and the source sample
rate. -/
structure SoundData where
  channels : List (List Nat)
  sampleRate : Nat
deriving Repr, DecidableEq

/-- `SoundWrapper.getSPUSampleRate`: `round(rate * 0x1000 / 44100)`.  The
quotient `rate * 4096 / 44100` can never land exactly on a half-integer
(`2 * 4096 * rate` is even while odd multiples of `44100 / 2 = 22050`'s
numerator `11025 * odd` is odd), so round-half-even and round-half-up
coincide and the value is `floor ((2 * rate * 4096 + 44100) / (2 * 44100))`. -/
def getSPUSampleRate (sampleRate : Nat) : Nat :=
  (2 * (sampleRate * 4096) + 44100) / (2 * 44100)

/-- The mutable state of a `BundleBuilder`: the index entries, the texture
back-reference map (`offset into data → image records reserved there`), the
flat list of images handed to the packer, and the three byte sinks. -/
structure BundleState where
  entries : List IndexEntry
  textures : List (Nat × List ImageWrapper)
  textureList : List ImageWrapper
  vramData : List Nat
  spuData : List Nat
  data : List Nat
deriving Repr, DecidableEq

/-- The empty builder. -/
def emptyBundle : BundleState := ⟨[], [], [], [], [], []⟩

/-- `BundleBuilder.addEntry`: fail when the payload would overflow the main
data budget, register the name in the index (offset = current length of the
main data section), then append the payload padded to a multiple of 4. -/
def bundleAddEntry (st : BundleState) (name : List Nat) (payload : List Nat)
    (entryType : Nat) : Except String BundleState :=
  if st.data.length + payload.length > DATA_SIZE then
    Except.error "main RAM size limit exceeded"
  else
    match indexAddEntry st.entries name st.data.length payload.length entryType with
    | Except.error e => Except.error e
    | Except.ok entries' =>
        Except.ok { st with entries := entries',
                            data := st.data ++ alignToMultiple payload 4 }

/-- `BundleBuilder.addFile`. -/
def bundleAddFile (st : BundleState) (name : List Nat) (payload : List Nat) :
    Except String BundleState :=
  bundleAddEntry st name payload typeFILE

/-- `BundleBuilder.addSound`: at most two channels; for stereo the right
channel follows the left in audio memory (`rightOffset = leftOffset + len`),
for mono `rightOffset = leftOffset`; fail when `rightOffset + len` exceeds
the audio budget; the 8-byte header `(left/8, right/8, len/8, spuRate)` goes
into main data, the ADPCM bytes into the audio sink. -/
def bundleAddSound (st : BundleState) (name : List Nat) (sound : SoundData) :
    Except String BundleState :=
  if sound.channels.length > 2 then Except.error "sounds must be mono or stereo"
  else
    let length := (sound.channels.headD []).length
    let leftOffset := st.spuData.length
    let rightOffset := leftOffset + (if sound.channels.length = 2 then length else 0)
    if rightOffset + length > SPU_DATA_SIZE then
      Except.error "SPU RAM size limit exceeded"
    else
      let header :=
        le16 (leftOffset / 8) ++ le16 (rightOffset / 8) ++ le16 (length / 8) ++
          le16 (getSPUSampleRate sound.sampleRate)
      match bundleAddEntry st name header typeSOUND with
      | Except.error e => Except.error e
      | Except.ok st' =>
          Except.ok { st' with spuData := st'.spuData ++ sound.channels.flatten }

/-- Every second row starting from the first (`data[0::2]` after an optional
initial drop). -/
def strideTwo : List α → List α
  | [] => []
  | [a] => [a]
  | a :: _ :: rest => a :: strideTwo rest

/-- `ImageWrapper.toInterlaced`: keep every second pixel row starting at
`field` and reset the packing attributes.  (The source forwards its
arguments positionally into a constructor slot off by one, which would
raise on first use; this models the documented intent of the method.) -/
def ImageWrapper.toInterlaced (im : ImageWrapper) (field : Nat) : ImageWrapper :=
  let rows := strideTwo (im.data.drop field)
  { im with data := rows, innerHeight := rows.length,
            interlaceField := some field,
            page := none, palettePage := none, x := none, y := none,
            px := none, py := none, flip := false }

/-- `TEXTURE_FRAME_STRUCT.pack` with the argument order used by
`_buildVRAM`: format "< 2H 6B H I", so `x` and `y` are single bytes. -/
def packTextureFrame (imagePage palettePage x y marginX marginY innerW innerH
    paletteXY flags : Nat) : List Nat :=
  le16 imagePage ++ le16 palettePage ++
    [x % 256, y % 256, marginX % 256, marginY % 256, innerW % 256, innerH % 256] ++
    le16 paletteXY ++ le32 flags

/-- The frame-record layout as worded by the specification (uint16 `x` and
`y`): written only to compare against `packTextureFrame`, which follows the
source. -/
def packTextureFrameClaim (imagePage palettePage x y marginX marginY innerW innerH
    paletteXY flags : Nat) : List Nat :=
  le16 imagePage ++ le16 palettePage ++ le16 x ++ le16 y ++
    [marginX % 256, marginY % 256, innerW % 256, innerH % 256] ++
    le16 paletteXY ++ le32 flags

/-- The byte string `_buildVRAM` patches over one reserved frame slot:
`(page, palettePage or 0, x, y, *margin, innerWidth, innerHeight,
getPaletteXY(), getFlags())`. -/
def frameRecordFor (im : ImageWrapper) : List Nat :=
  packTextureFrame (im.page.getD 0) (im.palettePage.getD 0) (im.x.getD 0)
    (im.y.getD 0) im.marginX im.marginY im.innerWidth im.innerHeight
    im.getPaletteXY im.getFlags

/-- `BundleBuilder.addTexture`: emit the 8-byte texture header, then for
each frame and mip level remember where its (zero-filled) frame records
live inside the payload and push the records' images onto the shared
packer list; finally register the whole payload through `addEntry`. -/
def bundleAddTexture (st : BundleState) (name : List Nat)
    (images : List (List ImageWrapper)) (interlaced : Bool) :
    Except String BundleState :=
  let first := (images.headD []).headD
    { uid := 0, data := [], palette := [], marginX := 0, marginY := 0,
      rightMarginX := 0, rightMarginY := 0, padding := 0, flipModes := [false],
      interlaceField := none, bpp := 16, innerWidth := 0, innerHeight := 0,
      page := none, palettePage := none, x := none, y := none, px := none,
      py := none, flip := false }
  let header0 :=
    le16 first.width ++ le16 first.height ++ le16 images.length ++
      le16 (images.headD []).length
  let start :=
    images.flatten.foldlM
      (fun (acc : List Nat × List (Nat × List ImageWrapper) × List ImageWrapper)
          (mipLevel : ImageWrapper) =>
        if mipLevel.innerWidth > 255 ∨ mipLevel.innerHeight > 255 then
          Except.error "all frames must be 255x255 or smaller"
        else
          let fields :=
            if interlaced then [mipLevel.toInterlaced 0, mipLevel.toInterlaced 1]
            else [mipLevel]
          Except.ok
            (acc.1 ++ List.replicate (16 * fields.length) 0,
              acc.2.1 ++ [(st.data.length + acc.1.length, fields)],
              acc.2.2 ++ fields))
      (header0, [], [])
  match start with
  | Except.error e => Except.error e
  | Except.ok acc =>
      match bundleAddEntry st name acc.1
          (if interlaced then typeITEXTURE else typeTEXTURE) with
      | Except.error e => Except.error e
      | Except.ok st' =>
          Except.ok { st' with textures := st'.textures ++ acc.2.1,
                               textureList := st'.textureList ++ acc.2.2 }

/-- `BundleBuilder.addBG`: a `4 × uint16` header `(x, y, innerW, innerH)`
followed by the raw pixel bytes (both fields in sequence when interlaced). -/
def bundleAddBG (st : BundleState) (name : List Nat) (im : ImageWrapper)
    (x y : Nat) (interlaced : Bool) : Except String BundleState :=
  let payload :=
    le16 x ++ le16 y ++ le16 im.innerWidth ++ le16 im.innerHeight ++
      (if interlaced then
        (im.toInterlaced 0).data.flatten ++ (im.toInterlaced 1).data.flatten
      else im.data.flatten)
  bundleAddEntry st name payload (if interlaced then typeIBG else typeBG)

/-- `BUNDLE_HEADER_STRUCT.pack` ("< 7s B 4I 4B"): magic `"fudgebn"`,
version 2, the four sector-aligned section lengths, and the four per-bucket
atlas counts. -/
def bundleHeaderBytes (headerLength vramLength spuLength dataLength : Nat)
    (atlasCounts : List Nat) : List Nat :=
  [102, 117, 100, 103, 101, 98, 110] ++ [2] ++
    le32 headerLength ++ le32 vramLength ++ le32 spuLength ++ le32 dataLength ++
    [atlasCounts.getD 0 0 % 256, atlasCounts.getD 1 0 % 256,
      atlasCounts.getD 2 0 % 256, atlasCounts.getD 3 0 % 256]

/-- The tail of `BundleBuilder.generate`: prepend a dummy header of
`BUNDLE_HEADER_STRUCT.size = 28` zero bytes to the serialized index, pad
each of the four sections to the sector size, then overwrite the dummy
header with the final one recording the post-alignment lengths.  Returns
the four sections in the order yielded by `serialize`. -/
def finalizeSections (idxBytes vram spu data : List Nat) (atlasCounts : List Nat) :
    List Nat × List Nat × List Nat × List Nat :=
  let header0 := List.replicate 28 0 ++ idxBytes
  let header1 := alignMutableToMultiple header0 SECTOR_SIZE
  let vram1 := alignMutableToMultiple vram SECTOR_SIZE
  let spu1 := alignMutableToMultiple spu SECTOR_SIZE
  let data1 := alignMutableToMultiple data SECTOR_SIZE
  let packed :=
    bundleHeaderBytes header1.length vram1.length spu1.length data1.length atlasCounts
  (writeSlice header1 0 packed, vram1, spu1, data1)

/-! ## Blitting (`util.blitArray`, `ImageWrapper.getPackedData` / `blit`) -/

/-- Overwrite `dst` from column `col` with `src`, clipped to `dst`'s length
(the slice-view write of `util.blitArray`). -/
def overwriteFrom (dst : List Nat) (col : Nat) (src : List Nat) : List Nat :=
  dst.take col ++ src.take (dst.length - col) ++ dst.drop (col + src.length)

/-- `util.blitArray` for 2D byte arrays at a non-negative position: copy the
source rows into the destination starting at `(row, col)`, clipped. -/
def blit2D (dest src : List (List Nat)) (row col : Nat) : List (List Nat) :=
  dest.enum.map
    (fun p =>
      if p.1 ≥ row ∧ p.1 - row < src.length then
        overwriteFrom p.2 col (src.getD (p.1 - row) [])
      else p.2)

/-- `numpy.rot90`: rotate a matrix 90 degrees counterclockwise. -/
def rot90 (m : List (List α)) : List (List α) := m.transpose.reverse

/-- One row viewed as bytes: a 16bpp row holds one 16-bit word per pixel and
`view(uint8)` splits each into two little-endian bytes; 4/8bpp rows are
bytes already. -/
def rowBytes (bpp : Nat) (row : List Nat) : List Nat :=
  if bpp = 16 then (row.map le16).flatten else row

/-- Pack pairs of 4-bit pixels into single bytes
(`data[:, 0::2] | data[:, 1::2] << 4`; callers pad to even length first). -/
def nibblePairs : List Nat → List Nat
  | a :: b :: rest => (a ||| (b <<< 4)) :: nibblePairs rest
  | [a] => [a]
  | [] => []

/-- `ImageWrapper.getPackedData`: rotate when flipped, prepend the left
padding, view as bytes, and for 4bpp pad the width to a multiple of 4 and
pack two pixels per byte. -/
def ImageWrapper.getPackedData (im : ImageWrapper) : List (List Nat) :=
  let d0 := if im.flip then rot90 im.data else im.data
  let d1 := d0.map (fun row => List.replicate im.padding 0 ++ row)
  let d2 := d1.map (rowBytes im.bpp)
  if im.bpp = 4 then
    d2.map (fun row =>
      nibblePairs (row ++ List.replicate ((4 - row.length % 4) % 4) 0))
  else d2

/-- `ImageWrapper.blit`: write the packed data at `(y + padding, x * 2)`. -/
def ImageWrapper.blit (im : ImageWrapper) (dest : List (List Nat)) :
    List (List Nat) :=
  blit2D dest im.getPackedData (im.y.getD 0 + im.padding) (im.x.getD 0 * 2)

/-- `ImageWrapper.blitPalette`: write the palette bytes (one row of
`2 ^ (bpp + 1)` bytes) at `(py, px * 32)`. -/
def ImageWrapper.blitPalette (im : ImageWrapper) (dest : List (List Nat)) :
    List (List Nat) :=
  blit2D dest [(im.palette.map le16).flatten] (im.py.getD 0) (im.px.getD 0 * 32)

/-! ## Search wrapper (`packer.py`, `packImages`) -/

/-- Strict comparison of the sort key of `SORT_ORDERS[idx]`; index 5 is the
"pathological" key `area * max(w, h) / min(w, h)`, compared here as exact
rationals by cross-multiplying (Python compares float64 approximations). -/
def orderKeyLt (idx : Nat) (a b : ImageWrapper) : Bool :=
  match idx with
  | 0 => decide (a.innerWidth * a.innerHeight < b.innerWidth * b.innerHeight)
  | 1 => decide ((a.innerWidth + a.innerHeight) * 2 < (b.innerWidth + b.innerHeight) * 2)
  | 2 => decide (max a.innerWidth a.innerHeight < max b.innerWidth b.innerHeight)
  | 3 => decide (a.innerWidth < b.innerWidth)
  | 4 => decide (a.innerHeight < b.innerHeight)
  | _ =>
      decide (a.innerWidth * a.innerHeight * max a.innerWidth a.innerHeight *
          min b.innerWidth b.innerHeight <
        b.innerWidth * b.innerHeight * max b.innerWidth b.innerHeight *
          min a.innerWidth a.innerHeight)

/-- `sorted(images, key = SORT_ORDERS[idx], reverse = reverse)`:
stable ascending, or stable descending when `reverse`. -/
def sortImagesBy (idx : Nat) (reverse : Bool) (images : List ImageWrapper) :
    List ImageWrapper :=
  if reverse then sortWithBy (fun a b => orderKeyLt idx b a) images
  else sortWithBy (fun a b => orderKeyLt idx a b) images

/-- Python `max` over a nonempty list of `(area, packed)` tuples
(lexicographic; the first of several maxima is kept). -/
def maxPair : List (Nat × Nat) → Nat × Nat
  | [] => (0, 0)
  | x :: xs =>
      xs.foldl
        (fun acc p =>
          if acc.1 < p.1 ∨ (acc.1 = p.1 ∧ acc.2 < p.2) then p else acc)
        x

/-- Python `list.index`: position of the first occurrence. -/
def indexOfPair (l : List (Nat × Nat)) (v : Nat × Nat) : Nat :=
  (l.findIdx? (fun p => p = v)).getD 0

/-- The loop state of `packImages`' shrink search.  `newWidth`/`newHeight`
are kept as `Int` because a shrunk candidate can go negative; `area` and
`bestIndex` deliberately persist across sort orders, mirroring how the
Python locals leak from one loop iteration into the next. -/
structure SearchState where
  newWidth : Int
  newHeight : Int
  packed : Option Nat
  area : Nat
  bestIndex : Nat
deriving Repr, DecidableEq

/-- The `while step >= discardStep` shrink loop: try shrinking the width,
height or both by `step` for every split mode, keep the candidate with the
highest `(area, packed)`, grow by `step` when no shrink won (stopping when
everything is packed or the original atlas size would be exceeded), then
halve the step.  The fuel argument dominates the number of halvings;
negative candidate sizes are clamped to 0 at the `attemptPack` call, which
rejects every image just as the Python comparison against a negative width
does. -/
def shrinkLoop (h : List (List Nat) → Nat) (images : List ImageWrapper)
    (page : Nat) (splitModes : List Bool) (atlasWidth atlasHeight numImages
    discardStep : Nat) : Nat → Nat → SearchState → SearchState
  | 0, _, st => st
  | fuel + 1, step, st =>
      if step < discardStep then st
      else
        let altW := st.newWidth - step
        let altH := st.newHeight - step
        let candidates := [(altW, altH), (altW, st.newHeight),
          (st.newWidth, altH), (st.newWidth, st.newHeight)]
        let packResults :=
          (splitModes.map
            (fun altSplit =>
              candidates.map
                (fun c =>
                  let r := attemptPack h images c.1.toNat c.2.toNat page altSplit
                  (r.area, r.packed)))).flatten
        let best := maxPair packResults
        let bestIndex := indexOfPair packResults best % 4
        let st1 := { st with area := best.1, packed := some best.2,
                             bestIndex := bestIndex }
        if bestIndex = 3 ∨ bestIndex = 7 then
          if best.2 = numImages then st1
          else if st.newWidth + step > atlasWidth ∨ st.newHeight + step > atlasHeight then
            st1
          else
            shrinkLoop h images page splitModes atlasWidth atlasHeight numImages
              discardStep fuel (step / 2)
              { st1 with newWidth := st.newWidth + step,
                         newHeight := st.newHeight + step }
        else
          let adopted := candidates.getD bestIndex (st.newWidth, st.newHeight)
          shrinkLoop h images page splitModes atlasWidth atlasHeight numImages
            discardStep fuel (step / 2)
            { st1 with newWidth := adopted.1, newHeight := adopted.2 }

/-- The accumulated state of the two outer loops of `packImages`. -/
structure OrderLoopState where
  highestArgs : Option (List ImageWrapper × Int × Int × Nat × Bool)
  highestArea : Nat
  area : Nat
  bestIndex : Nat
deriving Repr, DecidableEq

/-- The `for orderIndex, order in enumerate(SORT_ORDERS)` loop for one value
of `reverse`: run the shrink search on the stably sorted list and record the
globally best arguments, stopping early once a sort order packs every
image. -/
def packImagesOrders (h : List (List Nat) → Nat) (images : List ImageWrapper)
    (atlasWidth atlasHeight page discardStep : Nat) (splitModes : List Bool)
    (reverse : Bool) : List Nat → OrderLoopState → OrderLoopState
  | [], st => st
  | idx :: rest, st =>
      let sortedImages := sortImagesBy idx reverse images
      let step0 := min atlasWidth atlasHeight / 2
      let s1 := shrinkLoop h sortedImages page splitModes atlasWidth atlasHeight
        images.length discardStep (step0 + 1) step0
        { newWidth := atlasWidth, newHeight := atlasHeight, packed := none,
          area := st.area, bestIndex := st.bestIndex }
      let st1 := { st with area := s1.area, bestIndex := s1.bestIndex }
      if s1.area > st.highestArea then
        let st2 :=
          { st1 with
            highestArgs := some (sortedImages, s1.newWidth, s1.newHeight, page,
              decide (s1.bestIndex > 3)),
            highestArea := s1.area }
        if s1.packed = some images.length then st2
        else
          packImagesOrders h images atlasWidth atlasHeight page discardStep
            splitModes reverse rest st2
      else
        packImagesOrders h images atlasWidth atlasHeight page discardStep
          splitModes reverse rest st1

/-- `packImages`: try all six sort keys in both directions (and both split
modes when `trySplits`), then replay the winning configuration with a final
`attemptPack` for the authoritative placement.  Returns
`(area, packed, images)`; on total failure the images are returned
unplaced. -/
def packImages (h : List (List Nat) → Nat) (images : List ImageWrapper)
    (atlasWidth atlasHeight page discardStep : Nat) (trySplits : Bool) :
    Nat × Nat × List ImageWrapper :=
  let splitModes := if trySplits then [false, true] else [false]
  let st0 : OrderLoopState := ⟨none, 0, 0, 3⟩
  let st1 := packImagesOrders h images atlasWidth atlasHeight page discardStep
    splitModes true [0, 1, 2, 3, 4, 5] st0
  let st2 := packImagesOrders h images atlasWidth atlasHeight page discardStep
    splitModes false [0, 1, 2, 3, 4, 5] st1
  match st2.highestArgs with
  | none => (0, 0, images)
  | some args =>
      let final := attemptPack h args.1 args.2.1.toNat args.2.2.1.toNat
        args.2.2.2.1 args.2.2.2.2
      (final.area, final.packed, final.images)

/-! ## Atlas builder (`packer.py`, `buildAtlases` / `buildTexturePages`) -/

/-- The `while atlasWidth < image.getPackedMaxWidth()` widening loop of
`buildAtlases` (the loop breaks as soon as the width reaches 256, but a
later image can still push past it; fuel dominates the iteration count). -/
def growWidth : Nat → Nat → Nat → Nat
  | 0, aw, _ => aw
  | fuel + 1, aw, maxW =>
      if aw < maxW then
        let aw' := aw + 64
        if aw' = 256 then aw' else growWidth fuel aw' maxW
      else aw

/-- Replay mutations made through one list alias onto another: replace each
record by the updated record with the same `uid`, if any (Python mutates
shared objects, so updates made through a sorted copy are visible through
every other list holding the same image). -/
def syncByUid (orig upd : List ImageWrapper) : List ImageWrapper :=
  orig.map (fun im => ((upd.find? (fun u => u.uid = im.uid)).getD im))

/-- One produced atlas: its width in 16-bit columns and its
256-row pixel-byte matrix. -/
structure AtlasData where
  atlasWidth : Nat
  rows : List (List Nat)
deriving Repr, DecidableEq

/-- The iteration of `buildAtlases`: choose a width heuristically, pack
palettes along the bottom, pack images into the remaining height, fail when
nothing was placed, blit everything placed onto a fresh atlas and carry the
rest to the next round.  `master` mirrors the caller's image list (all
records, in insertion order); the fuel is bounded by the total number of
records, which strictly decreases on every successful round. -/
def buildAtlasesGo (h : List (List Nat) → Nat) (hp : List Nat → Nat)
    (discardStep : Nat) (trySplits preservePalettes : Bool) :
    Nat → List ImageWrapper → List ImageWrapper → List ImageWrapper → Nat →
    Except String (List AtlasData × List ImageWrapper)
  | 0, master, imagesCur, palettesCur, _ =>
      if imagesCur.isEmpty ∧ palettesCur.isEmpty then Except.ok ([], master)
      else Except.error "packing stalled"
  | fuel + 1, master, imagesCur, palettesCur, index =>
      if imagesCur.isEmpty ∧ palettesCur.isEmpty then Except.ok ([], master)
      else
        let aw1 := if palettesCur.any (fun im => im.bpp = 8) then 256 else 64
        let aw2 :=
          if aw1 < 256 then
            imagesCur.foldl
              (fun aw im =>
                growWidth (im.getPackedMaxWidth + 64) aw im.getPackedMaxWidth)
              aw1
          else aw1
        let palRes := packPalettes hp palettesCur aw2 256 index preservePalettes
        let freeHeight := palRes.1.1
        let packedPalettes := palRes.1.2
        let master1 := syncByUid master palRes.2
        let imagesCur1 := syncByUid imagesCur palRes.2
        let palettesCur1 := syncByUid palettesCur palRes.2
        let imgRes := packImages h imagesCur1 aw2 freeHeight.toNat index
          discardStep trySplits
        let packedImages := imgRes.2.1
        let master2 := syncByUid master1 imgRes.2.2
        let imagesCur2 := syncByUid imagesCur1 imgRes.2.2
        let palettesCur2 := syncByUid palettesCur1 imgRes.2.2
        if packedPalettes = 0 ∧ packedImages = 0 then
          Except.error "packing failed, attempted to generate an empty atlas"
        else
          let atlas0 := List.replicate 256 (List.replicate (aw2 * 2) 0)
          let atlas1 := imagesCur2.foldl
            (fun acc im => if im.page = none then acc else im.blit acc) atlas0
          let unpackedImages := imagesCur2.filter (fun im => im.page = none)
          let atlas2 := palettesCur2.foldl
            (fun acc im => if im.palettePage = none then acc else im.blitPalette acc)
            atlas1
          let unpackedPalettes :=
            palettesCur2.filter (fun im => im.palettePage = none)
          match buildAtlasesGo h hp discardStep trySplits preservePalettes fuel
              master2 unpackedImages unpackedPalettes (index + 1) with
          | Except.error e => Except.error e
          | Except.ok rest => Except.ok (⟨aw2, atlas2⟩ :: rest.1, rest.2)

/-- `buildAtlases`: run the loop on all images, with the palette set being
the non-16bpp subset of the same records. -/
def buildAtlases (h : List (List Nat) → Nat) (hp : List Nat → Nat)
    (images : List ImageWrapper) (discardStep : Nat)
    (trySplits preservePalettes : Bool) :
    Except String (List AtlasData × List ImageWrapper) :=
  let palettes := images.filter (fun im => im.bpp ≠ 16)
  buildAtlasesGo h hp discardStep trySplits preservePalettes
    (images.length + palettes.length + 1) images images palettes 0

/-- A 64-column (128-byte) texture page. -/
def atlasPages (a : AtlasData) : List (List (List Nat)) :=
  (List.range (a.atlasWidth * 2 / 128)).map
    (fun k => a.rows.map (fun row => (row.drop (k * 128)).take 128))

/-- The bucket an atlas lands in: `numTypes - width // 128`, taken modulo 4
to mirror Python's negative indexing for (pathological) atlases wider than
256 columns. -/
def bucketIndexFor (atlasWidth : Nat) : Nat :=
  (((4 : Int) - (atlasWidth * 2 / 128 : Nat)) % 4).toNat

/-- `buildTexturePages`: sort the atlases into the four width buckets,
split each into 64-column pages, and remap every image's `page` and
`palettePage` from atlas indices to absolute texture-page offsets. -/
def buildTexturePages (h : List (List Nat) → Nat) (hp : List Nat → Nat)
    (images : List ImageWrapper) (discardStep : Nat)
    (trySplits preservePalettes : Bool) :
    Except String (List (List (List (List Nat))) × List ImageWrapper) :=
  match buildAtlases h hp images discardStep trySplits preservePalettes with
  | Except.error e => Except.error e
  | Except.ok res =>
      let folded := res.1.enum.foldl
        (fun (acc : List (List (List (List Nat))) × List (Nat × Nat × Nat)) p =>
          let bucketIndex := bucketIndexFor p.2.atlasWidth
          let bucket := acc.1.getD bucketIndex []
          let buckets' := acc.1.set bucketIndex (bucket ++ atlasPages p.2)
          (buckets', acc.2 ++ [(p.1, bucketIndex, bucket.length)]))
        ([[], [], [], []], [])
      let buckets := folded.1
      let indexMap := folded.2
      let bucketOffsets :=
        [0, (buckets.getD 0 []).length,
          (buckets.getD 0 []).length + (buckets.getD 1 []).length,
          (buckets.getD 0 []).length + (buckets.getD 1 []).length +
            (buckets.getD 2 []).length]
      let remap := fun (pg : Nat) =>
        let bo := (lookupAssoc indexMap pg).getD (0, 0)
        bucketOffsets.getD bo.1 0 + bo.2
      let images' := res.2.map
        (fun im =>
          let im1 := { im with page := some (remap (im.page.getD 0)) }
          match im.palettePage with
          | none => im1
          | some pp => { im1 with palettePage := some (remap pp) })
      Except.ok (buckets, images')

/-! ## Finalization (`builders.py`, `_buildVRAM` / `generate` / `serialize`) -/

/-- `BundleBuilder._buildVRAM`: build the texture pages, append them to the
texture-memory sink (in bucket order), enforce the texture budget, then
overwrite every reserved frame slot with the final 16-byte record of its
(now placed) image, located through the shared records. -/
def buildVRAM (h : List (List Nat) → Nat) (hp : List Nat → Nat)
    (st : BundleState) (discardStep : Nat) (trySplits preservePalettes : Bool) :
    Except String (BundleState × List (List (List (List Nat)))) :=
  match buildTexturePages h hp st.textureList discardStep trySplits
      preservePalettes with
  | Except.error e => Except.error e
  | Except.ok res =>
      let buckets := res.1
      let master := res.2
      let vram' := st.vramData ++
        ((buckets.flatten.map (fun page => page.flatten)).flatten)
      if vram'.length > VRAM_DATA_SIZE then Except.error "VRAM size limit exceeded"
      else
        let data' := st.textures.foldl
          (fun d entry =>
            (entry.2.enum).foldl
              (fun d2 p =>
                let placed := (master.find? (fun u => u.uid = p.2.uid)).getD p.2
                writeSlice d2 (entry.1 + 16 * p.1) (frameRecordFor placed))
              d)
          st.data
        Except.ok ({ st with vramData := vram', data := data' }, buckets)

/-- `BundleBuilder.generate`: build the index hash table, finish the texture
memory image and patch the frame records, serialize the extended index
behind a 32-byte header slot, sector-align all four sections, and write the
final header.  Returns the four sections in `serialize` order. -/
def bundleGenerate (h : List (List Nat) → Nat) (hp : List Nat → Nat)
    (st : BundleState) (discardStep : Nat) (trySplits preservePalettes : Bool) :
    Except String (List Nat × List Nat × List Nat × List Nat) :=
  let table := buildTable st.entries
  match buildVRAM h hp st discardStep trySplits preservePalettes with
  | Except.error e => Except.error e
  | Except.ok res =>
      let st1 := res.1
      Except.ok (finalizeSections (serializeIndex table 0) st1.vramData
        st1.spuData st1.data (res.2.map List.length))

/-- One 8-byte record of a non-extended index (`INDEX_ENTRY_STRUCT`,
"< I 2H": hash, offset, next). -/
def serializeShortEntry (globalOffset : Nat) : Option IndexEntry → List Nat
  | none => List.replicate 8 0
  | some e => le32 e.hash ++ le16 (e.offset + globalOffset) ++ le16 e.next

/-- `IndexBuilder.serialize` in non-extended mode. -/
def serializeIndexShort (st : HashTable) (globalOffset : Nat) : List Nat :=
  le16 st.buckets.length ++ le16 st.chained.length ++
    ((st.buckets ++ st.chained.map some).map (serializeShortEntry globalOffset)).flatten

/-- `BundleBuilder.addStringTable`: build a nested non-extended index keying
each entry to the offset of its (deduplicated) null-terminated value in the
blob, then register index-plus-blob as one STRING_TABLE entry. -/
def bundleAddStringTable (st : BundleState) (name : List Nat)
    (tableEntries : List (List Nat × List Nat)) (align : Nat) :
    Except String BundleState :=
  let folded := tableEntries.foldlM
    (fun (acc : List IndexEntry × List Nat × List (List Nat × Nat)) entry =>
      match lookupAssoc acc.2.2 entry.2 with
      | some offset =>
          match indexAddEntry acc.1 entry.1 offset 0 0 with
          | Except.error e => Except.error e
          | Except.ok tbl => Except.ok (tbl, acc.2.1, acc.2.2)
      | none =>
          let offset := acc.2.1.length
          let blob1 := acc.2.1 ++ entry.2 ++ [0]
          let blob2 := if align ≠ 0 then alignMutableToMultiple blob1 align else blob1
          match indexAddEntry acc.1 entry.1 offset 0 0 with
          | Except.error e => Except.error e
          | Except.ok tbl => Except.ok (tbl, blob2, acc.2.2 ++ [(entry.2, offset)]))
    ([], [], [])
  match folded with
  | Except.error e => Except.error e
  | Except.ok acc =>
      let table := buildTable acc.1
      let headerLength := 4 + 8 * (table.buckets.length + table.chained.length)
      bundleAddEntry st name (serializeIndexShort table headerLength ++ acc.2.1)
        typeSTRINGTABLE

/-- One call against the bundle builder. -/
inductive AddCall where
  | addFile (name payload : List Nat)
  | addEntry (name payload : List Nat) (entryType : Nat)
  | addTexture (name : List Nat) (frames : List (List ImageWrapper))
      (interlaced : Bool)
  | addBG (name : List Nat) (im : ImageWrapper) (x y : Nat) (interlaced : Bool)
  | addSound (name : List Nat) (sound : SoundData)
  | addStringTable (name : List Nat) (tableEntries : List (List Nat × List Nat))
      (align : Nat)
deriving Repr

/-- Dispatch one builder call. -/
def applyCall (st : BundleState) : AddCall → Except String BundleState
  | AddCall.addFile name payload => bundleAddFile st name payload
  | AddCall.addEntry name payload entryType => bundleAddEntry st name payload entryType
  | AddCall.addTexture name frames interlaced => bundleAddTexture st name frames interlaced
  | AddCall.addBG name im x y interlaced => bundleAddBG st name im x y interlaced
  | AddCall.addSound name sound => bundleAddSound st name sound
  | AddCall.addStringTable name tableEntries align =>
      bundleAddStringTable st name tableEntries align

/-- A complete build: apply the `add*` calls to an empty builder, run
`generate`, and emit the four sections back to back (`serialize`).  The two
hash-function parameters model the process-specific builtin `hash` used for
image and palette deduplication; everything else is pure. -/
def bundleRun (h : List (List Nat) → Nat) (hp : List Nat → Nat)
    (calls : List AddCall) (discardStep : Nat)
    (trySplits preservePalettes : Bool) : Except String (List Nat) :=
  match calls.foldlM applyCall emptyBundle with
  | Except.error e => Except.error e
  | Except.ok st =>
      match bundleGenerate h hp st discardStep trySplits preservePalettes with
      | Except.error e => Except.error e
      | Except.ok sections =>
          Except.ok (sections.1 ++ sections.2.1 ++ sections.2.2.1 ++ sections.2.2.2)

/-! ## Statement-level helpers and concrete fixtures -/

/-- Read back a little-endian 32-bit value from a byte string. -/
def decodeLE32 (bytes : List Nat) (offset : Nat) : Nat :=
  bytes.getD offset 0 + 256 * bytes.getD (offset + 1) 0 +
    65536 * bytes.getD (offset + 2) 0 + 16777216 * bytes.getD (offset + 3) 0

/-- The chain reachable from a slot: `TableChain st o locs` holds when
following `next` links from `o` visits exactly the slots `locs` and
terminates (the inductive structure forces termination, so this is the
fuel-free specification of `walkLocs`). -/
inductive TableChain (st : HashTable) : Option TableLoc → List TableLoc → Prop where
  | nil : TableChain st none []
  | stop (loc : TableLoc) : entryAt st loc = none → TableChain st (some loc) []
  | step (loc : TableLoc) (e : IndexEntry) (rest : List TableLoc) :
      entryAt st loc = some e →
      TableChain st (nextLoc st.buckets.length e) rest →
      TableChain st (some loc) (loc :: rest)

/-- A chain that ends properly: every visited slot holds an entry and the
last entry's link is 0.  This is the shape of every chain rooted at an
occupied bucket of a table built by `_buildTable`. -/
inductive ProperChain (st : HashTable) : TableLoc → List TableLoc → Prop where
  | last (loc : TableLoc) (e : IndexEntry) :
      entryAt st loc = some e → e.next = 0 → ProperChain st loc [loc]
  | cons (loc : TableLoc) (e : IndexEntry) (rest : List TableLoc) :
      entryAt st loc = some e → e.next ≠ 0 →
      ProperChain st (TableLoc.chn (e.next - st.buckets.length)) rest →
      ProperChain st loc (loc :: rest)

/-- Well-formedness of the chain links of a table: a chained entry links
only forward into the chained region, a bucket entry links only into the
chained region. -/
def linksWF (st : HashTable) : Prop :=
  (∀ (j : Nat) (e : IndexEntry), st.chained[j]? = some e →
    e.next = 0 ∨ (st.buckets.length + j < e.next ∧
      e.next < st.buckets.length + st.chained.length)) ∧
  (∀ (i : Nat) (e : IndexEntry), st.buckets.getD i none = some e →
    e.next = 0 ∨ (st.buckets.length ≤ e.next ∧
      e.next < st.buckets.length + st.chained.length))

/-- The invariant of `_buildTable`'s entry loop: links are well formed and
the chain of each bucket `i` carries exactly the processed entries whose
hash is congruent to `i`, in order, up to the mutable `next` slot. -/
def tableInv (processed : List IndexEntry) (st : HashTable) : Prop :=
  linksWF st ∧
  ∀ i, i < st.buckets.length →
    (chainEntries st i).map IndexEntry.fields =
      (processed.filter
        (fun e => e.hash % st.buckets.length = i)).map IndexEntry.fields

/-- The position of a slot in the serialized record array (buckets first,
then the chained region). -/
def slotIndex (numBuckets : Nat) : TableLoc → Nat
  | TableLoc.bkt i => i
  | TableLoc.chn j => numBuckets + j

/-- A fresh (unplaced) image record with no margins or padding. -/
def freshImage (uid : Nat) (d : List (List Nat)) (pal : List Nat)
    (bpp iw ih : Nat) : ImageWrapper :=
  { uid := uid, data := d, palette := pal, marginX := 0, marginY := 0,
    rightMarginX := 0, rightMarginY := 0, padding := 0, flipModes := [false],
    interlaceField := none, bpp := bpp, innerWidth := iw, innerHeight := ih,
    page := none, palettePage := none, x := none, y := none, px := none,
    py := none, flip := false }

/-- A 16bpp image whose packed footprint is 100 columns wide. -/
def egWide16 : ImageWrapper := freshImage 1 [[1]] [] 16 100 50

/-- 4bpp image with a 30-column footprint (first filler). -/
def egB1 : ImageWrapper := freshImage 1 [[1]] (List.replicate 16 0) 4 120 100

/-- 4bpp image with a 40-column footprint. -/
def egA : ImageWrapper := freshImage 2 [[2]] (List.replicate 16 0) 4 160 50

/-- 4bpp image with a 34-column footprint (second filler). -/
def egB2 : ImageWrapper := freshImage 3 [[3]] (List.replicate 16 0) 4 136 100

/-- A second image with the same pixel buffer as `egA`. -/
def egA2 : ImageWrapper := freshImage 4 [[2]] (List.replicate 16 0) 4 160 50

/-- A small 4bpp image with a 16-entry palette. -/
def egPal4 : ImageWrapper := freshImage 1 [[1]] (List.replicate 16 0) 4 8 8

/-- The vertical budget encoded by the palette cursor: the first fully
unoccupied row index plus one, `py + 1` on a fresh row (`px = 0`) and `py`
on a partially filled one. -/
def palCursorFree (st : PaletteState) : Int :=
  st.py + (if st.px = 0 then 1 else 0)

/-- Fold invariant for `packPalettes`: every placed palette sits on a row at
or below the cursor's free boundary, and the cursor column stays inside the
atlas. -/
def palRowInv (atlasWidth : Nat) (st : PaletteState) : Prop :=
  (∀ im ∈ st.images, im.palettePage ≠ none → ∀ r, im.py = some r →
    palCursorFree st ≤ (r : Int)) ∧
  (∀ p ∈ st.hashes, ∀ r, p.2.py = some r → palCursorFree st ≤ (r : Int)) ∧
  (st.px = 0 ∨ st.px < atlasWidth)

/-- Fold invariant for the stored palette `px` attribute: every placed
palette has `px < 16` (the cursor column, below the atlas width of at most
256, divided by 16). -/
def palPxInv (atlasWidth : Nat) (st : PaletteState) : Prop :=
  (∀ im ∈ st.images, im.palettePage ≠ none → ∃ v, im.px = some v ∧ v < 16) ∧
  (∀ p ∈ st.hashes, ∃ v, p.2.px = some v ∧ v < 16) ∧
  (st.px = 0 ∨ st.px < atlasWidth)

/-- The page-containment property the packer is supposed to guarantee for a
placed image: its position, chosen flip, and own footprint satisfy the
`canBePlaced` inequalities (`texpageWidth = 64 * (bpp // 4)`). -/
def placedLegal (im : ImageWrapper) : Prop :=
  im.page ≠ none → ∃ xv yv, im.x = some xv ∧ im.y = some yv ∧
    xv % (64 * (im.bpp / 4)) + (im.getPackedSize im.flip).1 ≤ 64 * (im.bpp / 4) ∧
    yv % 256 + (im.getPackedSize im.flip).2 ≤ 256

/-- Two image records agree on every field that determines their packed
footprint and page constraints. -/
def coreEq (a b : ImageWrapper) : Prop :=
  a.data = b.data ∧ a.bpp = b.bpp ∧ a.innerWidth = b.innerWidth ∧
    a.innerHeight = b.innerHeight ∧ a.padding = b.padding

/-- Fold invariant for placement legality: every processed image and every
deduplication-map entry is legally placed, map entries are placed images
keyed by their pixel hash, with the footprint fields of some input image. -/
def packLegalInv (h : List (List Nat) → Nat) (inputs : List ImageWrapper)
    (st : PackState) : Prop :=
  (∀ im ∈ st.images, placedLegal im) ∧
  (∀ p ∈ st.hashes, placedLegal p.2 ∧ p.2.page ≠ none ∧ p.1 = h p.2.data ∧
    ∃ b ∈ inputs, coreEq p.2 b)

/-- Fold invariant for deduplication: map entries are placed and keyed by
their own hash; every placed processed image agrees with the map entry
stored under its pixel hash. -/
def packDedupInv (h : List (List Nat) → Nat) (st : PackState) : Prop :=
  (∀ p ∈ st.hashes, p.1 = h p.2.data ∧ p.2.page ≠ none) ∧
  (∀ oi ∈ st.images, oi.page ≠ none →
    ∃ q, lookupAssoc st.hashes (h oi.data) = some q ∧
      oi.x = q.x ∧ oi.y = q.y ∧ oi.page = q.page ∧ oi.flip = q.flip)

/-- Pairwise consequence of deduplication: once some image with a given
pixel buffer is placed, every later identical image carries the same
placement. -/
def packPairInv (st : PackState) : Prop :=
  ∀ (i j : Nat), i < j → ∀ (oi oj : ImageWrapper),
    st.images[i]? = some oi → st.images[j]? = some oj →
    oi.data = oj.data → oi.page ≠ none →
    oj.x = oi.x ∧ oj.y = oi.y ∧ oj.page = oi.page ∧ oj.flip = oi.flip

/-- Positional data correspondence between the processed prefix and the
state's image list (placement updates never change pixel data). -/
def packDataAligned (processed : List ImageWrapper) (st : PackState) : Prop :=
  st.images.length = processed.length ∧
  ∀ k : Nat, (st.images[k]?).map ImageWrapper.data =
    (processed[k]?).map ImageWrapper.data

/-! # Theorems -/

/-! ## General helper lemmas -/

theorem mem_insertSorted {lt : α → α → Bool} {x a : α} {l : List α} :
    a ∈ insertSorted lt x l ↔ a = x ∨ a ∈ l := by
  induction l with
  | nil => simp [insertSorted]
  | cons y ys ih =>
      by_cases hlt : lt y x
      · unfold insertSorted
        rw [if_pos hlt]
        simp only [List.mem_cons, ih]
        tauto
      · unfold insertSorted
        rw [if_neg hlt]
        simp only [List.mem_cons]

theorem mem_sortWithBy {lt : α → α → Bool} {a : α} {l : List α} :
    a ∈ sortWithBy lt l ↔ a ∈ l := by
  induction l with
  | nil => simp [sortWithBy]
  | cons x xs ih => simp [sortWithBy, mem_insertSorted, ih]

theorem lookupAssoc_append_left [DecidableEq κ] {m₁ m₂ : List (κ × α)} {k : κ}
    (hsome : (lookupAssoc m₁ k).isSome) :
    lookupAssoc (m₁ ++ m₂) k = lookupAssoc m₁ k := by
  unfold lookupAssoc at *
  induction m₁ with
  | nil => simp at hsome
  | cons p ps ih =>
      by_cases hk : p.1 = k
      · rw [List.cons_append, List.find?_cons_of_pos, List.find?_cons_of_pos] <;>
          simp [hk]
      · rw [List.cons_append, List.find?_cons_of_neg _ (by simp [hk]),
          List.find?_cons_of_neg _ (by simp [hk])]
        rw [List.find?_cons_of_neg _ (by simp [hk])] at hsome
        exact ih hsome

theorem lookupAssoc_append_singleton [DecidableEq κ] {m : List (κ × α)} {k k' : κ}
    {v : α} (hnone : lookupAssoc m k' = none) :
    lookupAssoc (m ++ [(k, v)]) k' = if k = k' then some v else none := by
  unfold lookupAssoc at *
  induction m with
  | nil =>
      by_cases hk : k = k'
      · rw [List.nil_append, List.find?_cons_of_pos _ (by simp [hk])]
        simp [hk]
      · rw [List.nil_append, List.find?_cons_of_neg _ (by simp [hk])]
        simp [hk]
  | cons p ps ih =>
      by_cases hp : p.1 = k'
      · rw [List.find?_cons_of_pos _ (by simp [hp])] at hnone
        simp at hnone
      · rw [List.find?_cons_of_neg _ (by simp [hp])] at hnone
        rw [List.cons_append, List.find?_cons_of_neg _ (by simp [hp])]
        exact ih hnone

theorem alignMutable_length_mod (l : List Nat) (n : Nat) (hn : 0 < n) :
    (alignMutableToMultiple l n).length % n = 0 := by
  unfold alignMutableToMultiple
  by_cases h : n - l.length % n < n
  · simp only [h, if_true, List.length_append, List.length_replicate]
    have hr : l.length % n < n := Nat.mod_lt l.length hn
    have hd := Nat.div_add_mod l.length n
    have h2 : l.length + (n - l.length % n) = n * (l.length / n) + n := by omega
    rw [h2, Nat.add_mod, Nat.mul_mod_right, Nat.mod_self]
    simp
  · simp only [h, if_false]
    have hr : l.length % n < n := Nat.mod_lt l.length hn
    omega

theorem alignMutable_length_ge (l : List Nat) (n : Nat) :
    l.length ≤ (alignMutableToMultiple l n).length := by
  unfold alignMutableToMultiple
  by_cases h : n - l.length % n < n <;> simp [h]

/-! ## C3: texture frame record layout -/

/-- Claim C3, counterexample: the frame records written by the source are 16
bytes with single-byte `x` and `y` fields, while the layout worded in the
claim (uint16 `x` and `y`) occupies 18 bytes and produces different bytes. -/
theorem textureFrame_claim_counterexample :
    (packTextureFrameClaim 1 2 3 4 5 6 7 8 9 10).length = 18 ∧
    (packTextureFrame 1 2 3 4 5 6 7 8 9 10).length = 16 ∧
    packTextureFrameClaim 1 2 3 4 5 6 7 8 9 10 ≠
      packTextureFrame 1 2 3 4 5 6 7 8 9 10 := by
  refine ⟨rfl, rfl, ?_⟩
  decide

/-- Claim C3, amended: every texture frame record patched into the main data
section is exactly 16 bytes, laid out little-endian as imagePage (uint16),
palettePage (uint16), x (uint8), y (uint8), marginX (uint8), marginY
(uint8), innerW (uint8), innerH (uint8), paletteXY (uint16), flags
(uint32); `_buildVRAM` writes exactly `packTextureFrame` over each
reserved 16-byte slot. -/
theorem textureFrame_layout (imagePage palettePage x y marginX marginY innerW
    innerH paletteXY flags : Nat) (hpg : imagePage < 65536)
    (hpp : palettePage < 65536) (hx : x < 256) (hy : y < 256)
    (hmx : marginX < 256) (hmy : marginY < 256) (hiw : innerW < 256)
    (hih : innerH < 256) (hpxy : paletteXY < 65536) (hfl : flags < 4294967296) :
    packTextureFrame imagePage palettePage x y marginX marginY innerW innerH
        paletteXY flags =
      [imagePage % 256, imagePage / 256, palettePage % 256, palettePage / 256,
        x, y, marginX, marginY, innerW, innerH, paletteXY % 256, paletteXY / 256,
        flags % 256, flags / 256 % 256, flags / 65536 % 256, flags / 16777216] ∧
    (packTextureFrame imagePage palettePage x y marginX marginY innerW innerH
        paletteXY flags).length = 16 := by
  constructor
  · have h1 : imagePage / 256 % 256 = imagePage / 256 := by omega
    have h2 : palettePage / 256 % 256 = palettePage / 256 := by omega
    have h3 : x % 256 = x := by omega
    have h4 : y % 256 = y := by omega
    have h5 : marginX % 256 = marginX := by omega
    have h6 : marginY % 256 = marginY := by omega
    have h7 : innerW % 256 = innerW := by omega
    have h8 : innerH % 256 = innerH := by omega
    have h9 : paletteXY / 256 % 256 = paletteXY / 256 := by omega
    have h10 : flags / 16777216 % 256 = flags / 16777216 := by omega
    simp only [packTextureFrame, le16, le32, List.cons_append, List.nil_append,
      h1, h2, h3, h4, h5, h6, h7, h8, h9, h10]
  · rfl

/-- Witness for `textureFrame_layout` at concrete field values. -/
theorem textureFrame_layout_witness :
    packTextureFrame 513 2 3 4 5 6 7 8 9 70000 =
      [513 % 256, 513 / 256, 2 % 256, 2 / 256, 3, 4, 5, 6, 7, 8, 9 % 256,
        9 / 256, 70000 % 256, 70000 / 256 % 256, 70000 / 65536 % 256,
        70000 / 16777216] ∧
    (packTextureFrame 513 2 3 4 5 6 7 8 9 70000).length = 16 :=
  textureFrame_layout 513 2 3 4 5 6 7 8 9 70000 (by decide) (by decide)
    (by decide) (by decide) (by decide) (by decide) (by decide) (by decide)
    (by decide) (by decide)

/-! ## C6 and C7: entry and sound registration -/

theorem alignToMultiple_four (payload : List Nat) :
    alignToMultiple payload 4 =
      payload ++ List.replicate ((payload.length + 3) / 4 * 4 - payload.length) 0 :=
  rfl

theorem bundleAddEntry_ok (st : BundleState) (name payload : List Nat)
    (entryType : Nat) (h1 : st.data.length + payload.length ≤ DATA_SIZE)
    (h2 : ∀ e ∈ st.entries, e.hash ≠ hash32 name) :
    bundleAddEntry st name payload entryType =
      Except.ok { st with
        entries := st.entries ++
          [⟨hash32 name, st.data.length, payload.length, entryType, 0⟩],
        data := st.data ++ alignToMultiple payload 4 } := by
  unfold bundleAddEntry indexAddEntry
  rw [if_neg (by omega)]
  have hany : ¬(st.entries.any (fun e => e.hash = hash32 name) = true) := by
    simp only [List.any_eq_true, decide_eq_true_eq, not_exists]
    intro e
    intro hcontra
    exact absurd hcontra.2 (h2 e hcontra.1)
  rw [if_neg hany]

/-- Claim C6: `addEntry(name, payload, kind)` fails exactly when the current
main-data length plus the payload length exceeds the 0x180000 budget or
`hash32 name` collides with an already-registered name; on success the entry
is registered with offset equal to the previous main-data length and length
`len(payload)`, and the payload is appended zero-padded to a multiple of 4.
(The Python `raise` happens before any mutation, so the all-or-nothing
`Except` model is faithful to the on-failure-unchanged wording.) -/
theorem bundleAddEntry_spec (st : BundleState) (name payload : List Nat)
    (entryType : Nat) :
    ((∃ msg, bundleAddEntry st name payload entryType = Except.error msg) ↔
      st.data.length + payload.length > DATA_SIZE ∨
        ∃ e ∈ st.entries, e.hash = hash32 name) ∧
    (st.data.length + payload.length ≤ DATA_SIZE →
      (∀ e ∈ st.entries, e.hash ≠ hash32 name) →
      bundleAddEntry st name payload entryType =
        Except.ok { st with
          entries := st.entries ++
            [⟨hash32 name, st.data.length, payload.length, entryType, 0⟩],
          data := st.data ++ payload ++
            List.replicate ((payload.length + 3) / 4 * 4 - payload.length) 0 }) ∧
    (payload ++
      List.replicate ((payload.length + 3) / 4 * 4 - payload.length) 0).length % 4
        = 0 := by
  refine ⟨?_, ?_, ?_⟩
  · constructor
    · intro hmsg
      obtain ⟨msg, hmsg⟩ := hmsg
      by_cases hover : st.data.length + payload.length > DATA_SIZE
      · exact Or.inl hover
      · by_cases hdup : ∃ e ∈ st.entries, e.hash = hash32 name
        · exact Or.inr hdup
        · have := bundleAddEntry_ok st name payload entryType (by omega)
            (by intro e he hc; exact hdup ⟨e, he, hc⟩)
          rw [this] at hmsg
          exact absurd hmsg (by simp)
    · intro hfail
      unfold bundleAddEntry indexAddEntry
      rcases hfail with hover | hdup
      · rw [if_pos hover]
        exact ⟨_, rfl⟩
      · by_cases hover : st.data.length + payload.length > DATA_SIZE
        · rw [if_pos hover]
          exact ⟨_, rfl⟩
        · rw [if_neg hover]
          have hany : st.entries.any (fun e => e.hash = hash32 name) = true := by
            simp only [List.any_eq_true, decide_eq_true_eq]
            exact hdup
          rw [if_pos hany]
          exact ⟨_, rfl⟩
  · intro h1 h2
    rw [bundleAddEntry_ok st name payload entryType h1 h2, alignToMultiple_four,
      List.append_assoc]
  · simp only [List.length_append, List.length_replicate]
    omega

/-- Witness for `bundleAddEntry_spec`: adding a 3-byte file entry to the
empty builder succeeds with offset 0 and one byte of padding. -/
theorem bundleAddEntry_spec_witness :
    bundleAddEntry emptyBundle [1] [5, 6, 7] 0 =
      Except.ok { emptyBundle with
        entries := [⟨hash32 [1], 0, 3, 0, 0⟩],
        data := [5, 6, 7, 0] } :=
  ((bundleAddEntry_spec emptyBundle [1] [5, 6, 7] 0).2.1 (by decide)
    (by intro e he; simp [emptyBundle] at he)).trans
    (congrArg Except.ok (by decide))

/-- Claim C7: for mono or stereo sounds, `rightOffset` is `leftOffset + n`
for stereo and `leftOffset` for mono; the call fails exactly when
`leftOffset + n` or `rightOffset + n` exceeds the 0x7D000 audio budget
(the code checks only `rightOffset + n`, which is equivalent because
`rightOffset ≥ leftOffset`); otherwise it registers the main-data header
`(leftOffset/8, rightOffset/8, n/8, round(rate * 4096 / 44100))` and
appends the sample data to the audio section.  The two side conditions make
the `addEntry` sub-call (main-data budget, fresh name) succeed, as the
claim presupposes. -/
theorem bundleAddSound_spec (st : BundleState) (name : List Nat)
    (sound : SoundData) (hch : sound.channels.length = 1 ∨ sound.channels.length = 2)
    (hroom : st.data.length + 8 ≤ DATA_SIZE)
    (hfresh : ∀ e ∈ st.entries, e.hash ≠ hash32 name)
    (n lO rO : Nat) (hn : n = (sound.channels.headD []).length)
    (hlO : lO = st.spuData.length)
    (hrO : rO = lO + (if sound.channels.length = 2 then n else 0)) :
    (sound.channels.length = 2 → rO = lO + n) ∧
    (sound.channels.length = 1 → rO = lO) ∧
    ((∃ msg, bundleAddSound st name sound = Except.error msg) ↔
      lO + n > SPU_DATA_SIZE ∨ rO + n > SPU_DATA_SIZE) ∧
    (rO + n ≤ SPU_DATA_SIZE →
      bundleAddSound st name sound = Except.ok { st with
        entries := st.entries ++ [⟨hash32 name, st.data.length, 8, typeSOUND, 0⟩],
        data := st.data ++
          (le16 (lO / 8) ++ le16 (rO / 8) ++ le16 (n / 8) ++
            le16 (getSPUSampleRate sound.sampleRate)),
        spuData := st.spuData ++ sound.channels.flatten }) := by
  subst hn hlO hrO
  have hok : ∀ _ : st.spuData.length +
        (if sound.channels.length = 2 then (sound.channels.headD []).length else 0) +
        (sound.channels.headD []).length ≤ SPU_DATA_SIZE,
      bundleAddSound st name sound = Except.ok { st with
        entries := st.entries ++ [⟨hash32 name, st.data.length, 8, typeSOUND, 0⟩],
        data := st.data ++
          (le16 (st.spuData.length / 8) ++
            le16 ((st.spuData.length +
              (if sound.channels.length = 2 then (sound.channels.headD []).length
                else 0)) / 8) ++
            le16 ((sound.channels.headD []).length / 8) ++
            le16 (getSPUSampleRate sound.sampleRate)),
        spuData := st.spuData ++ sound.channels.flatten } := by
    intro hspu
    simp only [bundleAddSound]
    rw [if_neg (by omega), if_neg (by omega)]
    rw [bundleAddEntry_ok st name _ typeSOUND (by simp [le16]; omega) hfresh]
    have halign : ∀ a b c d : Nat,
        alignToMultiple (le16 a ++ le16 b ++ le16 c ++ le16 d) 4 =
          le16 a ++ le16 b ++ le16 c ++ le16 d := by
      intro a b c d
      rw [alignToMultiple_four]
      simp [le16]
    rw [halign]
    simp [le16]
  refine ⟨fun h2 => by rw [if_pos h2], fun h1 => by rw [h1]; simp, ?_, ?_⟩
  · constructor
    · intro hmsg
      obtain ⟨msg, hmsg⟩ := hmsg
      by_cases hspu : st.spuData.length +
          (if sound.channels.length = 2 then (sound.channels.headD []).length else 0) +
          (sound.channels.headD []).length > SPU_DATA_SIZE
      · omega
      · rw [hok (by omega)] at hmsg
        exact absurd hmsg (by simp)
    · intro hfail
      have hspu : st.spuData.length +
          (if sound.channels.length = 2 then (sound.channels.headD []).length else 0) +
          (sound.channels.headD []).length > SPU_DATA_SIZE := by
        rcases hfail with h | h
        · by_cases h2 : sound.channels.length = 2
          · rw [if_pos h2]
            omega
          · rw [if_neg h2]
            omega
        · exact h
      simp only [bundleAddSound]
      rw [if_neg (by omega), if_pos (by omega)]
      exact ⟨_, rfl⟩
  · intro hspu
    exact hok (by omega)

/-- Witness for `bundleAddSound_spec`: a stereo 16-byte sound at 44100 Hz on
the empty builder gets header `(0, 2, 2, 4096)`. -/
theorem bundleAddSound_spec_witness :
    bundleAddSound emptyBundle [1]
        ⟨[List.replicate 16 0, List.replicate 16 0], 44100⟩ =
      Except.ok { emptyBundle with
        entries := [⟨hash32 [1], 0, 8, typeSOUND, 0⟩],
        data := le16 0 ++ le16 2 ++ le16 2 ++ le16 4096,
        spuData := List.replicate 16 0 ++ List.replicate 16 0 } :=
  ((bundleAddSound_spec emptyBundle [1]
      ⟨[List.replicate 16 0, List.replicate 16 0], 44100⟩ (Or.inr (by decide))
      (by decide) (by intro e he; simp [emptyBundle] at he) 16 0 16 (by decide)
      (by decide) (by decide)).2.2.2 (by decide)).trans
    (congrArg Except.ok (by decide))

/-! ## C5: sector alignment of the bundle sections -/

theorem getD_append_shift (l1 l2 : List Nat) (i : Nat) :
    (l1 ++ l2).getD (l1.length + i) 0 = l2.getD i 0 := by
  rw [List.getD_append_right l1 l2 0 (l1.length + i) (by omega)]
  congr 1
  omega

theorem decodeLE32_at_append (l1 l2 : List Nat) (x : Nat) (hx : x < 4294967296) :
    decodeLE32 (l1 ++ (le32 x ++ l2)) l1.length = x := by
  unfold decodeLE32
  have g : ∀ i, (l1 ++ (le32 x ++ l2)).getD (l1.length + i) 0 =
      (le32 x ++ l2).getD i 0 := fun i => getD_append_shift l1 _ i
  have h0 := g 0
  rw [Nat.add_zero] at h0
  rw [h0, g 1, g 2, g 3]
  simp only [le32, List.cons_append, List.getD_cons_zero, List.getD_cons_succ]
  omega

theorem decode_bundleHeaderBytes (a b c d : Nat) (cnt rest : List Nat)
    (ha : a < 4294967296) (hb : b < 4294967296) (hc : c < 4294967296)
    (hd : d < 4294967296) :
    decodeLE32 (bundleHeaderBytes a b c d cnt ++ rest) 8 = a ∧
    decodeLE32 (bundleHeaderBytes a b c d cnt ++ rest) 12 = b ∧
    decodeLE32 (bundleHeaderBytes a b c d cnt ++ rest) 16 = c ∧
    decodeLE32 (bundleHeaderBytes a b c d cnt ++ rest) 20 = d := by
  refine ⟨?_, ?_, ?_, ?_⟩
  · have h := decodeLE32_at_append [102, 117, 100, 103, 101, 98, 110, 2]
      (le32 b ++ (le32 c ++ (le32 d ++ ([cnt.getD 0 0 % 256, cnt.getD 1 0 % 256,
        cnt.getD 2 0 % 256, cnt.getD 3 0 % 256] ++ rest)))) a ha
    have base : bundleHeaderBytes a b c d cnt ++ rest =
        [102, 117, 100, 103, 101, 98, 110, 2] ++ (le32 a ++
          (le32 b ++ (le32 c ++ (le32 d ++ ([cnt.getD 0 0 % 256,
            cnt.getD 1 0 % 256, cnt.getD 2 0 % 256, cnt.getD 3 0 % 256] ++
              rest))))) := by
      simp [bundleHeaderBytes, List.append_assoc]
    rw [base]
    simpa using h
  · have h := decodeLE32_at_append ([102, 117, 100, 103, 101, 98, 110, 2] ++ le32 a)
      (le32 c ++ (le32 d ++ ([cnt.getD 0 0 % 256, cnt.getD 1 0 % 256,
        cnt.getD 2 0 % 256, cnt.getD 3 0 % 256] ++ rest))) b hb
    have base : bundleHeaderBytes a b c d cnt ++ rest =
        ([102, 117, 100, 103, 101, 98, 110, 2] ++ le32 a) ++ (le32 b ++
          (le32 c ++ (le32 d ++ ([cnt.getD 0 0 % 256,
            cnt.getD 1 0 % 256, cnt.getD 2 0 % 256, cnt.getD 3 0 % 256] ++
              rest)))) := by
      simp [bundleHeaderBytes, List.append_assoc]
    rw [base]
    have hl : ([102, 117, 100, 103, 101, 98, 110, 2] ++ le32 a).length = 12 := by
      simp [le32]
    rw [hl] at h
    exact h
  · have h := decodeLE32_at_append
      ([102, 117, 100, 103, 101, 98, 110, 2] ++ le32 a ++ le32 b)
      (le32 d ++ ([cnt.getD 0 0 % 256, cnt.getD 1 0 % 256,
        cnt.getD 2 0 % 256, cnt.getD 3 0 % 256] ++ rest)) c hc
    have base : bundleHeaderBytes a b c d cnt ++ rest =
        ([102, 117, 100, 103, 101, 98, 110, 2] ++ le32 a ++ le32 b) ++ (le32 c ++
          (le32 d ++ ([cnt.getD 0 0 % 256,
            cnt.getD 1 0 % 256, cnt.getD 2 0 % 256, cnt.getD 3 0 % 256] ++
              rest))) := by
      simp [bundleHeaderBytes, List.append_assoc]
    rw [base]
    have hl : ([102, 117, 100, 103, 101, 98, 110, 2] ++ le32 a ++ le32 b).length = 16 := by
      simp [le32]
    rw [hl] at h
    exact h
  · have h := decodeLE32_at_append
      ([102, 117, 100, 103, 101, 98, 110, 2] ++ le32 a ++ le32 b ++ le32 c)
      ([cnt.getD 0 0 % 256, cnt.getD 1 0 % 256,
        cnt.getD 2 0 % 256, cnt.getD 3 0 % 256] ++ rest) d hd
    have base : bundleHeaderBytes a b c d cnt ++ rest =
        ([102, 117, 100, 103, 101, 98, 110, 2] ++ le32 a ++ le32 b ++ le32 c) ++
          (le32 d ++ ([cnt.getD 0 0 % 256,
            cnt.getD 1 0 % 256, cnt.getD 2 0 % 256, cnt.getD 3 0 % 256] ++
              rest)) := by
      simp [bundleHeaderBytes, List.append_assoc]
    rw [base]
    have hl : ([102, 117, 100, 103, 101, 98, 110, 2] ++ le32 a ++ le32 b ++
        le32 c).length = 20 := by
      simp [le32]
    rw [hl] at h
    exact h

theorem writeSlice_zero (l b : List Nat) :
    writeSlice l 0 b = b ++ l.drop b.length := by
  unfold writeSlice
  simp

/-- Claim C5: after `generate`, each of the four section lengths recorded in
the bundle header (the header length at byte offset 8, then the texture,
audio and main-data lengths at offsets 12, 16, 20, all little-endian
uint32) is divisible by 0x800 and equals the byte length of the
corresponding section as actually emitted by `serialize`. -/
theorem generate_sector_alignment (idxBytes vram spu data counts : List Nat)
    (hOut vOut sOut dOut : List Nat)
    (hfin : finalizeSections idxBytes vram spu data counts =
      (hOut, vOut, sOut, dOut))
    (hh : hOut.length < 4294967296) (hv : vOut.length < 4294967296)
    (hs : sOut.length < 4294967296) (hd : dOut.length < 4294967296) :
    hOut.length % 0x800 = 0 ∧ vOut.length % 0x800 = 0 ∧
    sOut.length % 0x800 = 0 ∧ dOut.length % 0x800 = 0 ∧
    decodeLE32 hOut 8 = hOut.length ∧ decodeLE32 hOut 12 = vOut.length ∧
    decodeLE32 hOut 16 = sOut.length ∧ decodeLE32 hOut 20 = dOut.length := by
  unfold finalizeSections at hfin
  simp only [Prod.mk.injEq] at hfin
  obtain ⟨h1, h2, h3, h4⟩ := hfin
  have hblen : ∀ a b c d cnt, (bundleHeaderBytes a b c d cnt).length = 28 := by
    intro a b c d cnt
    simp [bundleHeaderBytes, le32]
  have hHlen : 28 ≤ (alignMutableToMultiple (List.replicate 28 0 ++ idxBytes)
      SECTOR_SIZE).length := by
    have := alignMutable_length_ge (List.replicate 28 0 ++ idxBytes) SECTOR_SIZE
    simp only [List.length_append, List.length_replicate] at this
    omega
  have hsplit : hOut = bundleHeaderBytes
      (alignMutableToMultiple (List.replicate 28 0 ++ idxBytes) SECTOR_SIZE).length
      (alignMutableToMultiple vram SECTOR_SIZE).length
      (alignMutableToMultiple spu SECTOR_SIZE).length
      (alignMutableToMultiple data SECTOR_SIZE).length counts ++
      (alignMutableToMultiple (List.replicate 28 0 ++ idxBytes) SECTOR_SIZE).drop 28 := by
    rw [← h1, writeSlice_zero, hblen]
  have hOutLen : hOut.length = (alignMutableToMultiple
      (List.replicate 28 0 ++ idxBytes) SECTOR_SIZE).length := by
    rw [hsplit]
    simp only [List.length_append, List.length_drop, hblen]
    omega
  have hdec := decode_bundleHeaderBytes
    (alignMutableToMultiple (List.replicate 28 0 ++ idxBytes) SECTOR_SIZE).length
    (alignMutableToMultiple vram SECTOR_SIZE).length
    (alignMutableToMultiple spu SECTOR_SIZE).length
    (alignMutableToMultiple data SECTOR_SIZE).length counts
    ((alignMutableToMultiple (List.replicate 28 0 ++ idxBytes) SECTOR_SIZE).drop 28)
    (by rw [← hOutLen]; exact hh) (by rw [h2]; exact hv) (by rw [h3]; exact hs)
    (by rw [h4]; exact hd)
  refine ⟨?_, ?_, ?_, ?_, ?_, ?_, ?_, ?_⟩
  · rw [hOutLen]
    exact alignMutable_length_mod _ _ (by norm_num [SECTOR_SIZE])
  · rw [← h2]
    exact alignMutable_length_mod _ _ (by norm_num [SECTOR_SIZE])
  · rw [← h3]
    exact alignMutable_length_mod _ _ (by norm_num [SECTOR_SIZE])
  · rw [← h4]
    exact alignMutable_length_mod _ _ (by norm_num [SECTOR_SIZE])
  · rw [hOutLen, hsplit]
    exact hdec.1
  · rw [← h2, hsplit]
    exact hdec.2.1
  · rw [← h3, hsplit]
    exact hdec.2.2.1
  · rw [← h4, hsplit]
    exact hdec.2.2.2

theorem alignMutable_length_le (l : List Nat) (n : Nat) :
    (alignMutableToMultiple l n).length ≤ l.length + n := by
  unfold alignMutableToMultiple
  by_cases h : n - l.length % n < n <;> simp [h]

theorem finalizeSections_length_bounds (idxBytes vram spu data counts : List Nat) :
    (finalizeSections idxBytes vram spu data counts).1.length ≤
      idxBytes.length + 56 + SECTOR_SIZE ∧
    (finalizeSections idxBytes vram spu data counts).2.1.length ≤
      vram.length + SECTOR_SIZE ∧
    (finalizeSections idxBytes vram spu data counts).2.2.1.length ≤
      spu.length + SECTOR_SIZE ∧
    (finalizeSections idxBytes vram spu data counts).2.2.2.length ≤
      data.length + SECTOR_SIZE := by
  simp only [finalizeSections]
  refine ⟨?_, ?_, ?_, ?_⟩
  · rw [writeSlice_zero]
    have h1 := alignMutable_length_le (List.replicate 28 0 ++ idxBytes) SECTOR_SIZE
    have h2 : ∀ a b c d cnt, (bundleHeaderBytes a b c d cnt).length = 28 := by
      intro a b c d cnt
      simp [bundleHeaderBytes, le32]
    simp only [List.length_append, List.length_drop, List.length_replicate, h2] at *
    omega
  · exact alignMutable_length_le vram SECTOR_SIZE
  · exact alignMutable_length_le spu SECTOR_SIZE
  · exact alignMutable_length_le data SECTOR_SIZE

/-- Witness for `generate_sector_alignment` on an empty builder state. -/
theorem generate_sector_alignment_witness :
    (finalizeSections [] [] [] [] []).1.length % 0x800 = 0 ∧
    (finalizeSections [] [] [] [] []).2.1.length % 0x800 = 0 ∧
    (finalizeSections [] [] [] [] []).2.2.1.length % 0x800 = 0 ∧
    (finalizeSections [] [] [] [] []).2.2.2.length % 0x800 = 0 ∧
    decodeLE32 (finalizeSections [] [] [] [] []).1 8 =
      (finalizeSections [] [] [] [] []).1.length ∧
    decodeLE32 (finalizeSections [] [] [] [] []).1 12 =
      (finalizeSections [] [] [] [] []).2.1.length ∧
    decodeLE32 (finalizeSections [] [] [] [] []).1 16 =
      (finalizeSections [] [] [] [] []).2.2.1.length ∧
    decodeLE32 (finalizeSections [] [] [] [] []).1 20 =
      (finalizeSections [] [] [] [] []).2.2.2.length :=
  generate_sector_alignment [] [] [] [] []
    (finalizeSections [] [] [] [] []).1 (finalizeSections [] [] [] [] []).2.1
    (finalizeSections [] [] [] [] []).2.2.1 (finalizeSections [] [] [] [] []).2.2.2
    rfl
    (by have hB := (finalizeSections_length_bounds [] [] [] [] []).1
        have hS : SECTOR_SIZE = 2048 := rfl
        simp only [List.length_nil] at hB
        omega)
    (by have hB := (finalizeSections_length_bounds [] [] [] [] []).2.1
        have hS : SECTOR_SIZE = 2048 := rfl
        simp only [List.length_nil] at hB
        omega)
    (by have hB := (finalizeSections_length_bounds [] [] [] [] []).2.2.1
        have hS : SECTOR_SIZE = 2048 := rfl
        simp only [List.length_nil] at hB
        omega)
    (by have hB := (finalizeSections_length_bounds [] [] [] [] []).2.2.2
        have hS : SECTOR_SIZE = 2048 := rfl
        simp only [List.length_nil] at hB
        omega)

/-! ## C4 and C10: palette packer -/

theorem lookupAssoc_some_mem [DecidableEq κ] {m : List (κ × α)} {k : κ} {v : α}
    (h : lookupAssoc m k = some v) : ∃ p ∈ m, p.1 = k ∧ p.2 = v := by
  unfold lookupAssoc at h
  cases hf : m.find? (fun p => p.1 = k) with
  | none => rw [hf] at h; simp at h
  | some p =>
      rw [hf] at h
      simp only [Option.map_some', Option.some.injEq] at h
      have hm := List.mem_of_find?_eq_some hf
      have hp := List.find?_some hf
      simp only [decide_eq_true_eq] at hp
      exact ⟨p, hm, hp, h⟩

theorem packPalettesStep_cases (hp : List Nat → Nat) (aw page : Nat) (pres : Bool)
    (st : PaletteState) (im : ImageWrapper) :
    (packPalettesStep hp aw page pres st im =
      { st with images := st.images ++ [im] }) ∨
    (∃ prev, lookupAssoc st.hashes (hp (im.maskedPalette pres)) = some prev ∧
      packPalettesStep hp aw page pres st im =
        { st with images := st.images ++ [paletteInherited im prev page],
                  packed := st.packed + 1 }) ∨
    (st.stopped = false ∧ 2 ^ im.bpp ≤ aw ∧
      lookupAssoc st.hashes (hp (im.maskedPalette pres)) = none ∧
      packPalettesStep hp aw page pres st im =
        ⟨st.images ++ [palettePlaced im page st.px st.py],
          st.hashes ++ [(hp (im.maskedPalette pres), palettePlaced im page st.px st.py)],
          st.packed + 1,
          (st.px + 2 ^ im.bpp) % aw,
          st.py - ((st.px + 2 ^ im.bpp) / aw : Nat),
          decide (st.py - (((st.px + 2 ^ im.bpp) / aw : Nat) : Int) < 0)⟩) := by
  unfold packPalettesStep
  by_cases hstop : st.stopped
  · rw [if_pos hstop]
    exact Or.inl rfl
  · rw [if_neg hstop]
    by_cases hwide : 2 ^ im.bpp > aw
    · rw [if_pos hwide]
      exact Or.inl rfl
    · rw [if_neg hwide]
      dsimp only
      cases hqu : lookupAssoc st.hashes (hp (im.maskedPalette pres)) with
      | some prev => exact Or.inr (Or.inl ⟨prev, rfl, rfl⟩)
      | none =>
          exact Or.inr (Or.inr ⟨by simpa using hstop, by omega, rfl, rfl⟩)

theorem palRowInv_step (hp : List Nat → Nat) (aw page : Nat) (pres : Bool)
    (st : PaletteState) (im : ImageWrapper) (him : im.palettePage = none)
    (hInv : palRowInv aw st) :
    palRowInv aw (packPalettesStep hp aw page pres st im) := by
  obtain ⟨hImgs, hMap, hPx⟩ := hInv
  rcases packPalettesStep_cases hp aw page pres st im with heq |
    ⟨prev, hqu, heq⟩ | ⟨hs, hw, hqu, heq⟩
  · rw [heq]
    refine ⟨?_, hMap, hPx⟩
    intro a ha hpp r hr
    rcases List.mem_append.mp ha with h | h
    · exact hImgs a h hpp r hr
    · simp only [List.mem_singleton] at h
      subst h
      exact absurd him hpp
  · rw [heq]
    refine ⟨?_, hMap, hPx⟩
    intro a ha hpp r hr
    rcases List.mem_append.mp ha with h | h
    · exact hImgs a h hpp r hr
    · simp only [List.mem_singleton] at h
      subst h
      simp only [paletteInherited] at hr
      obtain ⟨p, hpm, _, hpv⟩ := lookupAssoc_some_mem hqu
      refine hMap p hpm r ?_
      rw [hpv]
      exact hr
  · rw [heq]
    have hw1 : 1 ≤ 2 ^ im.bpp := Nat.one_le_two_pow
    have haw : 0 < aw := by omega
    have hpxlt : st.px < aw := by
      rcases hPx with h0 | h
      · omega
      · exact h
    have hq2 : (st.px + 2 ^ im.bpp) / aw < 2 :=
      (Nat.div_lt_iff_lt_mul haw).mpr (by omega)
    have hmono : palCursorFree
        ⟨st.images ++ [palettePlaced im page st.px st.py],
          st.hashes ++ [(hp (im.maskedPalette pres), palettePlaced im page st.px st.py)],
          st.packed + 1,
          (st.px + 2 ^ im.bpp) % aw,
          st.py - ((st.px + 2 ^ im.bpp) / aw : Nat),
          decide (st.py - (((st.px + 2 ^ im.bpp) / aw : Nat) : Int) < 0)⟩ ≤
        st.py := by
      unfold palCursorFree
      simp only
      rcases Nat.le_one_iff_eq_zero_or_eq_one.mp (Nat.le_of_lt_succ hq2) with h0 | h1
      · have hlt : st.px + 2 ^ im.bpp < aw := (Nat.div_eq_zero_iff haw).mp h0
        have hmod : (st.px + 2 ^ im.bpp) % aw = st.px + 2 ^ im.bpp :=
          Nat.mod_eq_of_lt hlt
        rw [h0, hmod, if_neg (by omega)]
        simp
      · rw [h1]
        split <;> omega
    have hcur : palCursorFree st ≥ st.py := by
      unfold palCursorFree
      split <;> omega
    refine ⟨?_, ?_, Or.inr (Nat.mod_lt _ haw)⟩
    · intro a ha hpp r hr
      rcases List.mem_append.mp ha with h | h
      · exact le_trans (le_trans hmono (by omega)) (hImgs a h hpp r hr)
      · simp only [List.mem_singleton] at h
        subst h
        simp only [palettePlaced, Option.some.injEq] at hr
        subst hr
        exact le_trans hmono (Int.self_le_toNat st.py)
    · intro p hpm r hr
      rcases List.mem_append.mp hpm with h | h
      · exact le_trans (le_trans hmono (by omega)) (hMap p h r hr)
      · simp only [List.mem_singleton] at h
        subst h
        simp only [palettePlaced, Option.some.injEq] at hr
        subst hr
        exact le_trans hmono (Int.self_le_toNat st.py)

theorem palRowInv_foldl (hp : List Nat → Nat) (aw page : Nat) (pres : Bool)
    (l : List ImageWrapper) (hl : ∀ im ∈ l, im.palettePage = none)
    (st : PaletteState) (hInv : palRowInv aw st) :
    palRowInv aw (l.foldl (packPalettesStep hp aw page pres) st) := by
  induction l generalizing st with
  | nil => exact hInv
  | cons x xs ih =>
      exact ih (fun im hm => hl im (List.mem_cons_of_mem x hm)) _
        (palRowInv_step hp aw page pres st x (hl x (List.mem_cons_self x xs)) hInv)

/-- Claim C4, counterexample: for a single 4bpp palette in a 64-column,
256-row atlas the code returns `freeHeight = 255` while the claimed formula
`py + (0 if px == 0 else 1)` evaluates to 256 at the final cursor
`(px, py) = (16, 255)`. -/
theorem packPalettes_claim_counterexample :
    (packPalettes (fun _ => 7) [egPal4] 64 256 0 false).1.1 = 255 ∧
    (packPalettesRun (fun _ => 7) [egPal4] 64 256 0 false).px = 16 ∧
    (packPalettesRun (fun _ => 7) [egPal4] 64 256 0 false).py = 255 ∧
    (packPalettes (fun _ => 7) [egPal4] 64 256 0 false).1.1 ≠
      (packPalettesRun (fun _ => 7) [egPal4] 64 256 0 false).py +
        (if (packPalettesRun (fun _ => 7) [egPal4] 64 256 0 false).px = 0 then 0
          else 1) := by
  refine ⟨by decide, by decide, by decide, by decide⟩

/-- Claim C4, amended: `packPalettes` returns a free-height equal to
`py + (1 if px == 0 else 0)` at the final cursor (the converse of the
claimed conditional), and this value is a lower bound on the row of every
palette placed in this call — i.e. rows `0 .. freeHeight - 1` are left
unoccupied for the image packer. -/
theorem packPalettes_freeHeight (hp : List Nat → Nat)
    (images : List ImageWrapper) (atlasWidth atlasHeight page : Nat)
    (preserveLSB : Bool) (hfresh : ∀ im ∈ images, im.palettePage = none) :
    (packPalettes hp images atlasWidth atlasHeight page preserveLSB).1.1 =
      (packPalettesRun hp images atlasWidth atlasHeight page preserveLSB).py +
        (if (packPalettesRun hp images atlasWidth atlasHeight page
          preserveLSB).px = 0 then 1 else 0) ∧
    ∀ im ∈ (packPalettes hp images atlasWidth atlasHeight page preserveLSB).2,
      im.palettePage ≠ none → ∀ r, im.py = some r →
        (packPalettes hp images atlasWidth atlasHeight page preserveLSB).1.1 ≤
          (r : Int) := by
  have hIff : ∀ px : Nat, (if px ≠ 0 then (0 : Int) else 1) =
      (if px = 0 then 1 else 0) := by
    intro px
    by_cases h : px = 0 <;> simp [h]
  have hInv := palRowInv_foldl hp atlasWidth page preserveLSB
    (sortWithBy (fun a b => decide (a.bpp > b.bpp)) images)
    (fun im hm => hfresh im (mem_sortWithBy.mp hm))
    ⟨[], [], 0, 0, (atlasHeight : Int) - 1, false⟩
    ⟨by intro a ha; simp at ha, by intro p hpm; simp at hpm, Or.inl rfl⟩
  constructor
  · unfold packPalettes
    simp only
    rw [hIff]
  · intro im hm hpp r hr
    have hb := hInv.1 im hm hpp r hr
    unfold packPalettes
    simp only
    rw [hIff]
    unfold palCursorFree at hb
    exact hb

/-- Witness for `packPalettes_freeHeight` at a concrete single-palette
call. -/
theorem packPalettes_freeHeight_witness :
    (packPalettes (fun _ => 7) [egPal4] 64 256 0 false).1.1 =
      (packPalettesRun (fun _ => 7) [egPal4] 64 256 0 false).py +
        (if (packPalettesRun (fun _ => 7) [egPal4] 64 256 0 false).px = 0
          then 1 else 0) ∧
    ∀ im ∈ (packPalettes (fun _ => 7) [egPal4] 64 256 0 false).2,
      im.palettePage ≠ none → ∀ r, im.py = some r →
        (packPalettes (fun _ => 7) [egPal4] 64 256 0 false).1.1 ≤ (r : Int) :=
  packPalettes_freeHeight (fun _ => 7) [egPal4] 64 256 0 false (by decide)

theorem palPxInv_step (hp : List Nat → Nat) (aw page : Nat) (pres : Bool)
    (st : PaletteState) (im : ImageWrapper) (hwidth : aw ≤ 256)
    (him : im.palettePage = none) (hInv : palPxInv aw st) :
    palPxInv aw (packPalettesStep hp aw page pres st im) := by
  obtain ⟨hImgs, hMap, hPx⟩ := hInv
  rcases packPalettesStep_cases hp aw page pres st im with heq |
    ⟨prev, hqu, heq⟩ | ⟨hs, hw, hqu, heq⟩
  · rw [heq]
    refine ⟨?_, hMap, hPx⟩
    intro a ha hpp
    rcases List.mem_append.mp ha with h | h
    · exact hImgs a h hpp
    · simp only [List.mem_singleton] at h
      subst h
      exact absurd him hpp
  · rw [heq]
    refine ⟨?_, hMap, hPx⟩
    intro a ha hpp
    rcases List.mem_append.mp ha with h | h
    · exact hImgs a h hpp
    · simp only [List.mem_singleton] at h
      subst h
      obtain ⟨p, hpm, _, hpv⟩ := lookupAssoc_some_mem hqu
      obtain ⟨v, hv, hv16⟩ := hMap p hpm
      refine ⟨v, ?_, hv16⟩
      simp only [paletteInherited]
      rw [← hpv]
      exact hv
  · rw [heq]
    have hw1 : 1 ≤ 2 ^ im.bpp := Nat.one_le_two_pow
    have haw : 0 < aw := by omega
    have hpxlt : st.px < aw := by
      rcases hPx with h0 | h
      · omega
      · exact h
    have hnew : ∃ v, (palettePlaced im page st.px st.py).px = some v ∧ v < 16 := by
      refine ⟨st.px / 16, rfl, ?_⟩
      omega
    refine ⟨?_, ?_, Or.inr (Nat.mod_lt _ haw)⟩
    · intro a ha hpp
      rcases List.mem_append.mp ha with h | h
      · exact hImgs a h hpp
      · simp only [List.mem_singleton] at h
        subst h
        exact hnew
    · intro p hpm
      rcases List.mem_append.mp hpm with h | h
      · exact hMap p h
      · simp only [List.mem_singleton] at h
        subst h
        exact hnew

theorem palPxInv_foldl (hp : List Nat → Nat) (aw page : Nat) (pres : Bool)
    (hwidth : aw ≤ 256) (l : List ImageWrapper)
    (hl : ∀ im ∈ l, im.palettePage = none) (st : PaletteState)
    (hInv : palPxInv aw st) :
    palPxInv aw (l.foldl (packPalettesStep hp aw page pres) st) := by
  induction l generalizing st with
  | nil => exact hInv
  | cons x xs ih =>
      exact ih (fun im hm => hl im (List.mem_cons_of_mem x hm)) _
        (palPxInv_step hp aw page pres st x hwidth (hl x (List.mem_cons_self x xs))
          hInv)

theorem frameRecord_byte10 (im : ImageWrapper) :
    (frameRecordFor im).getD 10 0 = im.getPaletteXY % 256 := by
  simp only [frameRecordFor, packTextureFrame, le16, le32, List.cons_append,
    List.nil_append, List.getD_cons_succ, List.getD_cons_zero]

/-- Claim C10: in an atlas at most 256 columns wide, every palette placed by
`packPalettes` gets a stored `px` attribute below 16, so `getPaletteXY`
returns `py << 6`; consequently the low 6 bits of the 16-bit paletteXY
field of the texture frame record (its byte at offset 10) are zero. -/
theorem packPalettes_paletteXY (hp : List Nat → Nat)
    (images : List ImageWrapper) (atlasWidth atlasHeight page : Nat)
    (preserveLSB : Bool) (hwidth : atlasWidth ≤ 256)
    (hfresh : ∀ im ∈ images, im.palettePage = none) :
    ∀ im ∈ (packPalettes hp images atlasWidth atlasHeight page preserveLSB).2,
      im.palettePage ≠ none →
        (∃ v, im.px = some v ∧ v < 16) ∧
        im.getPaletteXY = (im.py.getD 0) <<< 6 ∧
        im.getPaletteXY % 64 = 0 ∧
        (frameRecordFor im).getD 10 0 % 64 = 0 := by
  have hInv := palPxInv_foldl hp atlasWidth page preserveLSB hwidth
    (sortWithBy (fun a b => decide (a.bpp > b.bpp)) images)
    (fun im hm => hfresh im (mem_sortWithBy.mp hm))
    ⟨[], [], 0, 0, (atlasHeight : Int) - 1, false⟩
    ⟨by intro a ha; simp at ha, by intro p hpm; simp at hpm, Or.inl rfl⟩
  intro im hm hpp
  obtain ⟨v, hv, hv16⟩ := hInv.1 im hm hpp
  have hxy : im.getPaletteXY = (im.py.getD 0) <<< 6 := by
    unfold ImageWrapper.getPaletteXY
    cases hpg : im.palettePage with
    | none => exact absurd hpg hpp
    | some pg =>
        simp only
        rw [hv]
        simp only [Option.getD_some]
        have : v / 16 = 0 := by omega
        rw [this]
        exact Nat.zero_or _
  have hmod : im.getPaletteXY % 64 = 0 := by
    rw [hxy, Nat.shiftLeft_eq]
    simp only [show (2 : Nat) ^ 6 = 64 from rfl]
    exact Nat.mul_mod_left _ _
  refine ⟨⟨v, hv, hv16⟩, hxy, hmod, ?_⟩
  rw [frameRecord_byte10, Nat.mod_mod_of_dvd _ (by norm_num), hmod]

/-- Witness for `packPalettes_paletteXY` at a concrete single-palette call. -/
theorem packPalettes_paletteXY_witness :
    (∃ v, ((packPalettes (fun _ => 7) [egPal4] 64 256 0 false).2.getD 0
        egPal4).px = some v ∧ v < 16) ∧
      ((packPalettes (fun _ => 7) [egPal4] 64 256 0 false).2.getD 0
        egPal4).getPaletteXY =
        (((packPalettes (fun _ => 7) [egPal4] 64 256 0 false).2.getD 0
          egPal4).py.getD 0) <<< 6 ∧
      ((packPalettes (fun _ => 7) [egPal4] 64 256 0 false).2.getD 0
        egPal4).getPaletteXY % 64 = 0 ∧
      (frameRecordFor ((packPalettes (fun _ => 7) [egPal4] 64 256 0
        false).2.getD 0 egPal4)).getD 10 0 % 64 = 0 :=
  packPalettes_paletteXY (fun _ => 7) [egPal4] 64 256 0 false (by decide)
    (by decide) _ (by decide) (by decide)

/-! ## C2 and C9: the rectangle packer -/

theorem scanSpaces_sound (im : ImageWrapper) (flip : Bool) (w hgt : Nat)
    (spaces : List FreeSpace) (found : Nat × (Nat × Nat) × Nat)
    (heq : scanSpaces im flip w hgt spaces = some found) :
    ∃ sp, spaces[found.1]? = some sp ∧
      im.canBePlaced (sp.x + found.2.1.1) (sp.y + found.2.1.2) flip = true := by
  unfold scanSpaces at heq
  suffices hgen : ∀ (l : List (Nat × FreeSpace)),
      (∀ e ∈ l, spaces[e.1]? = some e.2) →
      ∀ acc : Option (Nat × (Nat × Nat) × Nat),
        (∀ f, acc = some f → ∃ sp, spaces[f.1]? = some sp ∧
          im.canBePlaced (sp.x + f.2.1.1) (sp.y + f.2.1.2) flip = true) →
        ∀ f, l.foldl
          (fun best entry =>
            let index := entry.1
            let sp := entry.2
            if w > sp.w ∨ hgt > sp.h then best
            else
              match
                [(0, 0), (sp.w - w, 0), (0, sp.h - hgt),
                  (sp.w - w, sp.h - hgt)].find?
                  (fun c => im.canBePlaced (sp.x + c.1) (sp.y + c.2) flip)
              with
              | none => best
              | some off =>
                  let margin := sp.w * sp.h - w * hgt
                  let better :=
                    match best with
                    | none => true
                    | some prev => decide (margin < prev.2.2)
                  if better then some (index, off, margin) else best) acc = some f →
        ∃ sp, spaces[f.1]? = some sp ∧
          im.canBePlaced (sp.x + f.2.1.1) (sp.y + f.2.1.2) flip = true by
    exact hgen spaces.enum
      (fun e he => List.mem_enum_iff_getElem?.mp he) none (by simp) found heq
  intro l
  induction l with
  | nil =>
      intro _ acc hacc f hf
      exact hacc f hf
  | cons e rest ih =>
      intro hmem acc hacc f hf
      simp only [List.foldl_cons] at hf
      refine ih (fun e' he' => hmem e' (List.mem_cons_of_mem e he')) _ ?_ f hf
      intro f' hf'
      by_cases hfit : w > e.2.w ∨ hgt > e.2.h
      · rw [if_pos hfit] at hf'
        exact hacc f' hf'
      · rw [if_neg hfit] at hf'
        cases hcorner : [(0, 0), (e.2.w - w, 0), (0, e.2.h - hgt),
            (e.2.w - w, e.2.h - hgt)].find?
            (fun c => im.canBePlaced (e.2.x + c.1) (e.2.y + c.2) flip) with
        | none =>
            rw [hcorner] at hf'
            exact hacc f' hf'
        | some off =>
            rw [hcorner] at hf'
            simp only at hf'
            split at hf'
            · simp only [Option.some.injEq] at hf'
              subst hf'
              refine ⟨e.2, hmem e (List.mem_cons_self e rest), ?_⟩
              have hc := List.find?_some hcorner
              simpa using hc
            · exact hacc f' hf'

theorem getPackedSize_congr (a b : ImageWrapper) (f : Bool)
    (hb : a.bpp = b.bpp) (hw : a.innerWidth = b.innerWidth)
    (hh : a.innerHeight = b.innerHeight) (hp : a.padding = b.padding) :
    a.getPackedSize f = b.getPackedSize f := by
  simp [ImageWrapper.getPackedSize, hb, hw, hh, hp]

theorem tryFlips_sound (im : ImageWrapper) (page : Nat) (altSplit : Bool)
    (spaces : List FreeSpace) (flips : List Bool)
    (placed : ImageWrapper × List FreeSpace)
    (heq : tryFlips im page altSplit spaces flips = some placed) :
    placed.1.page = some page ∧ placed.1.data = im.data ∧
    placed.1.bpp = im.bpp ∧ placed.1.innerWidth = im.innerWidth ∧
    placed.1.innerHeight = im.innerHeight ∧ placed.1.padding = im.padding ∧
    ∃ xv yv, placed.1.x = some xv ∧ placed.1.y = some yv ∧
      im.canBePlaced xv yv placed.1.flip = true := by
  induction flips with
  | nil => simp [tryFlips] at heq
  | cons flip rest ih =>
      rw [tryFlips] at heq
      dsimp only at heq
      cases hscan : scanSpaces im flip (im.getPackedSize flip).1
          (im.getPackedSize flip).2 spaces with
      | none =>
          rw [hscan] at heq
          exact ih heq
      | some found =>
          rw [hscan] at heq
          simp only [Option.some.injEq] at heq
          subst heq
          obtain ⟨sp, hsp, hcb⟩ := scanSpaces_sound im flip _ _ spaces found hscan
          have hgd : spaces.getD found.1 ⟨0, 0, 0, 0⟩ = sp := by
            rw [List.getD_eq_getElem?_getD, hsp]
            rfl
          refine ⟨rfl, rfl, rfl, rfl, rfl, rfl,
            sp.x + found.2.1.1, sp.y + found.2.1.2, ?_, ?_, ?_⟩
          · show some ((spaces.getD found.1 ⟨0, 0, 0, 0⟩).x + found.2.1.1) = _
            rw [hgd]
          · show some ((spaces.getD found.1 ⟨0, 0, 0, 0⟩).y + found.2.1.2) = _
            rw [hgd]
          · exact hcb

theorem attemptPackStep_cases (h : List (List Nat) → Nat) (page : Nat)
    (altSplit : Bool) (st : PackState) (im : ImageWrapper) :
    (∃ prev, lookupAssoc st.hashes (h im.data) = some prev ∧
      attemptPackStep h page altSplit st im =
        { st with images := st.images ++ [dupPlaced im prev],
                  packed := st.packed + 1 }) ∨
    (lookupAssoc st.hashes (h im.data) = none ∧
      ((tryFlips (resetImage im) page altSplit st.spaces
          (resetImage im).flipModes = none ∧
        attemptPackStep h page altSplit st im =
          { st with images := st.images ++ [resetImage im] }) ∨
      (∃ placed, tryFlips (resetImage im) page altSplit st.spaces
          (resetImage im).flipModes = some placed ∧
        attemptPackStep h page altSplit st im =
          { images := st.images ++ [placed.1], spaces := placed.2,
            hashes := st.hashes ++ [(h im.data, placed.1)],
            area := st.area + (placed.1.getPackedSize placed.1.flip).1 *
              (placed.1.getPackedSize placed.1.flip).2,
            packed := st.packed + 1 }))) := by
  unfold attemptPackStep
  dsimp only
  cases hlk : lookupAssoc st.hashes (h im.data) with
  | some prev => exact Or.inl ⟨prev, rfl, rfl⟩
  | none =>
      refine Or.inr ⟨rfl, ?_⟩
      cases htf : tryFlips (resetImage im) page altSplit st.spaces
          (resetImage im).flipModes with
      | none => exact Or.inl ⟨rfl, rfl⟩
      | some placed => exact Or.inr ⟨placed, rfl, rfl⟩

theorem dupPlaced_legal (im prev : ImageWrapper)
    (hleg : placedLegal prev) (hpg : prev.page ≠ none)
    (hb : prev.bpp = im.bpp) (hw : prev.innerWidth = im.innerWidth)
    (hh : prev.innerHeight = im.innerHeight) (hp : prev.padding = im.padding) :
    placedLegal (dupPlaced im prev) := by
  obtain ⟨xv, yv, hx, hy, h1, h2⟩ := hleg hpg
  intro _
  have hsz : (dupPlaced im prev).getPackedSize prev.flip =
      prev.getPackedSize prev.flip := by
    apply getPackedSize_congr
    · simpa [dupPlaced] using hb.symm
    · simpa [dupPlaced] using hw.symm
    · simpa [dupPlaced] using hh.symm
    · simpa [dupPlaced] using hp.symm
  have hbpp : (dupPlaced im prev).bpp = prev.bpp := by simp [dupPlaced, hb]
  have hflip : (dupPlaced im prev).flip = prev.flip := rfl
  refine ⟨xv, yv, ?_, ?_, ?_, ?_⟩
  · simpa [dupPlaced] using hx
  · simpa [dupPlaced] using hy
  · rw [hflip, hsz, hbpp]
    exact h1
  · rw [hflip, hsz]
    exact h2

theorem placed_legal (im : ImageWrapper) (page : Nat) (altSplit : Bool)
    (spaces : List FreeSpace) (placed : ImageWrapper × List FreeSpace)
    (htf : tryFlips (resetImage im) page altSplit spaces
      (resetImage im).flipModes = some placed) :
    placedLegal placed.1 := by
  obtain ⟨hpg, hdata, hb, hw, hh, hp, xv, yv, hx, hy, hcb⟩ :=
    tryFlips_sound (resetImage im) page altSplit spaces
      (resetImage im).flipModes placed htf
  intro _
  refine ⟨xv, yv, hx, hy, ?_, ?_⟩
  · have hsz : placed.1.getPackedSize placed.1.flip =
        (resetImage im).getPackedSize placed.1.flip :=
      getPackedSize_congr _ _ _ hb hw hh hp
    rw [hsz, hb]
    unfold ImageWrapper.canBePlaced at hcb
    simp only [Bool.and_eq_true, decide_eq_true_eq] at hcb
    exact hcb.1
  · have hsz : placed.1.getPackedSize placed.1.flip =
        (resetImage im).getPackedSize placed.1.flip :=
      getPackedSize_congr _ _ _ hb hw hh hp
    rw [hsz]
    unfold ImageWrapper.canBePlaced at hcb
    simp only [Bool.and_eq_true, decide_eq_true_eq] at hcb
    exact hcb.2

theorem packLegalInv_step (h : List (List Nat) → Nat)
    (inputs : List ImageWrapper) (page : Nat) (altSplit : Bool)
    (st : PackState) (im : ImageWrapper) (him : im ∈ inputs)
    (hcoh : ∀ a ∈ inputs, ∀ b ∈ inputs, h a.data = h b.data → coreEq a b)
    (hinv : packLegalInv h inputs st) :
    packLegalInv h inputs (attemptPackStep h page altSplit st im) := by
  obtain ⟨himg, hmap⟩ := hinv
  rcases attemptPackStep_cases h page altSplit st im with
    ⟨prev, hlk, heq⟩ | ⟨hlk, ⟨htf, heq⟩ | ⟨placed, htf, heq⟩⟩
  · rw [heq]
    refine ⟨?_, hmap⟩
    intro a ha
    rcases List.mem_append.mp ha with ha | ha
    · exact himg a ha
    · have ha' : a = dupPlaced im prev := by simpa using ha
      subst ha'
      obtain ⟨p, hpmem, hpk, hpv⟩ := lookupAssoc_some_mem hlk
      obtain ⟨hleg, hpg, hkey, b, hbmem, hcore⟩ := hmap p hpmem
      rw [hpv] at hleg hpg hcore
      have hhip : h im.data = h prev.data := by
        rw [← hpk, hkey, hpv]
      obtain ⟨hdab, hbppb, hiwb, hihb, hpadb⟩ := hcore
      have hib : h im.data = h b.data := by rw [hhip, hdab]
      obtain ⟨hd2, hb2, hw2, hh2, hp2⟩ := hcoh im him b hbmem hib
      exact dupPlaced_legal im prev hleg hpg (by rw [hbppb, hb2])
        (by rw [hiwb, hw2]) (by rw [hihb, hh2]) (by rw [hpadb, hp2])
  · rw [heq]
    refine ⟨?_, hmap⟩
    intro a ha
    rcases List.mem_append.mp ha with ha | ha
    · exact himg a ha
    · have ha' : a = resetImage im := by simpa using ha
      subst ha'
      intro hpg
      exact absurd rfl hpg
  · rw [heq]
    obtain ⟨hpg, hdata, hb, hw, hh, hp, xv, yv, hx, hy, hcb⟩ :=
      tryFlips_sound (resetImage im) page altSplit st.spaces
        (resetImage im).flipModes placed htf
    constructor
    · intro a ha
      rcases List.mem_append.mp ha with ha | ha
      · exact himg a ha
      · have ha' : a = placed.1 := by simpa using ha
        subst ha'
        exact placed_legal im page altSplit st.spaces placed htf
    · intro p hpmem
      rcases List.mem_append.mp hpmem with hpm | hpm
      · exact hmap p hpm
      · have hp' : p = (h im.data, placed.1) := by simpa using hpm
        subst hp'
        refine ⟨placed_legal im page altSplit st.spaces placed htf, ?_, ?_, im, him, ?_⟩
        · simp [hpg]
        · show h im.data = h placed.1.data
          rw [hdata]
          rfl
        · exact ⟨hdata, hb, hw, hh, hp⟩

theorem packLegalInv_foldl (h : List (List Nat) → Nat)
    (inputs : List ImageWrapper) (page : Nat) (altSplit : Bool)
    (hcoh : ∀ a ∈ inputs, ∀ b ∈ inputs, h a.data = h b.data → coreEq a b) :
    ∀ (l : List ImageWrapper), (∀ a ∈ l, a ∈ inputs) →
    ∀ (st : PackState), packLegalInv h inputs st →
    packLegalInv h inputs (l.foldl (attemptPackStep h page altSplit) st) := by
  intro l
  induction l with
  | nil => intro _ st hst; exact hst
  | cons a rest ih =>
      intro hsub st hst
      rw [List.foldl_cons]
      exact ih (fun b hb => hsub b (List.mem_cons_of_mem a hb))
        (attemptPackStep h page altSplit st a)
        (packLegalInv_step h inputs page altSplit st a
          (hsub a (List.mem_cons_self a rest)) hcoh hst)

/-- **C2 counterexample**: the claim computes the page width as
`64 * (16 / bpp)`, the code as `64 * (bpp // 4)`.  A 16 bpp image of
packed width 100 is placed by `_attemptPacking` at `x = 0`, where the
claimed inequality `0 % 64 + 100 ≤ 64` fails. -/
theorem attemptPack_claim_counterexample :
    ((attemptPack (fun _ => 0) [egWide16] 128 256 0 false).images.map
      (fun im => (im.page, im.x, im.bpp, (im.getPackedSize im.flip).1))) =
        [(some 0, some 0, 16, 100)] ∧
      ¬ (0 % (64 * (16 / 16)) + 100 ≤ 64 * (16 / 16)) :=
  ⟨by decide, by decide⟩

/-- **C2** (corrected): for every image placed by `_attemptPacking`
(its `page` attribute set), the stored position and flip satisfy the
page-containment inequalities of `canBePlaced` with the page width
computed as in the code, `pageW = 64 * (bpp // 4)`:
`x % pageW + packedWidth ≤ pageW` and `y % 256 + packedHeight ≤ 256`.
The pixel-hash hypothesis rules out collisions of Python `hash` between
images that differ in the fields determining their footprint. -/
theorem attemptPack_placement_legal (h : List (List Nat) → Nat)
    (images : List ImageWrapper) (atlasWidth atlasHeight page : Nat)
    (altSplit : Bool)
    (hcoh : ∀ a ∈ images, ∀ b ∈ images, h a.data = h b.data → coreEq a b) :
    ∀ im ∈ (attemptPack h images atlasWidth atlasHeight page altSplit).images,
      placedLegal im := by
  intro im him
  have hinv := packLegalInv_foldl h images page altSplit hcoh images
    (fun a ha => ha) ⟨[], [⟨0, 0, atlasWidth, atlasHeight⟩], [], 0, 0⟩
    ⟨fun a ha => absurd ha (List.not_mem_nil a),
      fun p hp => absurd hp (List.not_mem_nil p)⟩
  exact hinv.1 im him

/-- **C2 witness**: a single 16 bpp image packed into a 128 × 256 atlas is
legally placed. -/
theorem attemptPack_placement_legal_witness :
    placedLegal
      (((attemptPack (fun _ => 0) [egWide16] 128 256 0 false).images).getD
        0 egWide16) :=
  attemptPack_placement_legal (fun _ => 0) [egWide16] 128 256 0 false
    (fun a ha b hb _ => by
      have ha' : a = egWide16 := by simpa using ha
      have hb' : b = egWide16 := by simpa using hb
      subst ha'
      subst hb'
      exact ⟨rfl, rfl, rfl, rfl, rfl⟩)
    _ (by decide)

theorem packDedupInv_step (h : List (List Nat) → Nat) (page : Nat)
    (altSplit : Bool) (st : PackState) (im : ImageWrapper)
    (hinv : packDedupInv h st) :
    packDedupInv h (attemptPackStep h page altSplit st im) := by
  obtain ⟨hkeys, hplaced⟩ := hinv
  rcases attemptPackStep_cases h page altSplit st im with
    ⟨prev, hlk, heq⟩ | ⟨hlk, ⟨htf, heq⟩ | ⟨placed, htf, heq⟩⟩
  · rw [heq]
    refine ⟨hkeys, ?_⟩
    intro oi hoi hpg
    rcases List.mem_append.mp hoi with hoi | hoi
    · exact hplaced oi hoi hpg
    · have hoi' : oi = dupPlaced im prev := by simpa using hoi
      subst hoi'
      refine ⟨prev, ?_, rfl, rfl, rfl, rfl⟩
      show lookupAssoc st.hashes (h (dupPlaced im prev).data) = some prev
      have hd : (dupPlaced im prev).data = im.data := rfl
      rw [hd]
      exact hlk
  · rw [heq]
    refine ⟨hkeys, ?_⟩
    intro oi hoi hpg
    rcases List.mem_append.mp hoi with hoi | hoi
    · exact hplaced oi hoi hpg
    · have hoi' : oi = resetImage im := by simpa using hoi
      subst hoi'
      exact absurd rfl hpg
  · rw [heq]
    obtain ⟨hpg', hdata, hb, hw, hh, hp, xv, yv, hx, hy, hcb⟩ :=
      tryFlips_sound (resetImage im) page altSplit st.spaces
        (resetImage im).flipModes placed htf
    have hpd : placed.1.data = im.data := hdata
    constructor
    · intro p hpmem
      rcases List.mem_append.mp hpmem with hpm | hpm
      · exact hkeys p hpm
      · have hp' : p = (h im.data, placed.1) := by simpa using hpm
        subst hp'
        exact ⟨by show h im.data = h placed.1.data; rw [hpd], by simp [hpg']⟩
    · intro oi hoi hpgoi
      rcases List.mem_append.mp hoi with hoi | hoi
      · obtain ⟨q, hq, hf1, hf2, hf3, hf4⟩ := hplaced oi hoi hpgoi
        refine ⟨q, ?_, hf1, hf2, hf3, hf4⟩
        rw [lookupAssoc_append_left (by rw [hq]; rfl)]
        exact hq
      · have hoi' : oi = placed.1 := by simpa using hoi
        subst hoi'
        refine ⟨placed.1, ?_, rfl, rfl, rfl, rfl⟩
        have hk : h placed.1.data = h im.data := by rw [hpd]
        rw [hk, lookupAssoc_append_singleton hlk]
        simp

theorem pairInv_append (st : PackState) (a : ImageWrapper)
    (hpair : packPairInv st)
    (hnew : ∀ oi ∈ st.images, oi.page ≠ none → oi.data = a.data →
      a.x = oi.x ∧ a.y = oi.y ∧ a.page = oi.page ∧ a.flip = oi.flip) :
    ∀ (i j : Nat), i < j → ∀ (oi oj : ImageWrapper),
      (st.images ++ [a])[i]? = some oi → (st.images ++ [a])[j]? = some oj →
      oi.data = oj.data → oi.page ≠ none →
      oj.x = oi.x ∧ oj.y = oi.y ∧ oj.page = oi.page ∧ oj.flip = oi.flip := by
  intro i j hij oi oj hoi hoj hdata hpg
  rcases Nat.lt_or_ge j st.images.length with hj | hj
  · have hi : i < st.images.length := Nat.lt_trans hij hj
    rw [List.getElem?_append_left hi] at hoi
    rw [List.getElem?_append_left hj] at hoj
    exact hpair i j hij oi oj hoi hoj hdata hpg
  · rw [List.getElem?_append_right hj] at hoj
    have hoj' : oj = a := by
      cases hk : j - st.images.length with
      | zero => rw [hk] at hoj; simpa using hoj.symm
      | succ m => rw [hk] at hoj; simp at hoj
    subst hoj'
    have hjlen : j = st.images.length := by
      cases hk : j - st.images.length with
      | zero => omega
      | succ m =>
          rw [hk] at hoj
          simp at hoj
    have hi : i < st.images.length := by omega
    rw [List.getElem?_append_left hi] at hoi
    have hmem : oi ∈ st.images := List.getElem?_mem hoi
    exact hnew oi hmem hpg hdata

theorem packPairInv_step (h : List (List Nat) → Nat) (page : Nat)
    (altSplit : Bool) (st : PackState) (im : ImageWrapper)
    (hdedup : packDedupInv h st) (hpair : packPairInv st) :
    packPairInv (attemptPackStep h page altSplit st im) := by
  obtain ⟨hkeys, hplaced⟩ := hdedup
  rcases attemptPackStep_cases h page altSplit st im with
    ⟨prev, hlk, heq⟩ | ⟨hlk, ⟨htf, heq⟩ | ⟨placed, htf, heq⟩⟩
  · rw [heq]
    apply pairInv_append st (dupPlaced im prev) hpair
    intro oi hoi hpg hdata
    obtain ⟨q, hq, hf1, hf2, hf3, hf4⟩ := hplaced oi hoi hpg
    have hqprev : q = prev := by
      have hk : h oi.data = h im.data := by
        rw [hdata]
        rfl
      rw [hk, hlk] at hq
      exact (Option.some.injEq _ _ ▸ hq).symm ▸ rfl
    subst hqprev
    exact ⟨hf1.symm, hf2.symm, hf3.symm, hf4.symm⟩
  · rw [heq]
    apply pairInv_append st (resetImage im) hpair
    intro oi hoi hpg hdata
    obtain ⟨q, hq, _⟩ := hplaced oi hoi hpg
    have hk : h oi.data = h im.data := by
      rw [hdata]
      rfl
    rw [hk, hlk] at hq
    exact absurd hq (by simp)
  · rw [heq]
    apply pairInv_append st placed.1 hpair
    intro oi hoi hpg hdata
    obtain ⟨hpg', hpdata, _⟩ :=
      tryFlips_sound (resetImage im) page altSplit st.spaces
        (resetImage im).flipModes placed htf
    obtain ⟨q, hq, _⟩ := hplaced oi hoi hpg
    have hpd : placed.1.data = im.data := hpdata
    have hk : h oi.data = h im.data := by rw [hdata, hpd]
    rw [hk, hlk] at hq
    exact absurd hq (by simp)

theorem packDedupPair_foldl (h : List (List Nat) → Nat) (page : Nat)
    (altSplit : Bool) :
    ∀ (l : List ImageWrapper) (st : PackState),
      packDedupInv h st → packPairInv st →
      packDedupInv h (l.foldl (attemptPackStep h page altSplit) st) ∧
      packPairInv (l.foldl (attemptPackStep h page altSplit) st) := by
  intro l
  induction l with
  | nil => intro st h1 h2; exact ⟨h1, h2⟩
  | cons a rest ih =>
      intro st h1 h2
      rw [List.foldl_cons]
      exact ih (attemptPackStep h page altSplit st a)
        (packDedupInv_step h page altSplit st a h1)
        (packPairInv_step h page altSplit st a h1 h2)

/-- **C9 counterexample**: two images with identical pixel buffers need not
end up with the same placement.  Here the image with uid 2 cannot be placed
when it is processed, but after a later image reshapes the free-space list
its duplicate (uid 4) is placed; the pair carries different `page`
attributes. -/
theorem attemptPack_dedup_counterexample :
    ((attemptPack (fun d => (d.headD []).headD 0) [egB1, egA, egB2, egA2]
        130 100 0 false).images.map
      (fun im => (im.uid, im.data, im.page, im.x, im.y))) =
      [(1, [[1]], some 0, some 0, some 0), (2, [[2]], none, none, none),
        (3, [[3]], some 0, some 30, some 0),
        (4, [[2]], some 0, some 64, some 0)] := by
  decide

/-- **C9** (corrected): if an image with a given pixel buffer **was placed**
(`page` set), then every later image with an identical pixel buffer inherits
exactly that placement (same `x`, `y`, `page`, `flip`), and processing an
image whose pixel hash is already in the deduplication map leaves the
free-space list and the used-area counter unchanged while still counting
the image as packed. -/
theorem attemptPack_dedup (h : List (List Nat) → Nat)
    (images : List ImageWrapper) (atlasWidth atlasHeight page : Nat)
    (altSplit : Bool) :
    (∀ (i j : Nat), i < j → ∀ (oi oj : ImageWrapper),
      (attemptPack h images atlasWidth atlasHeight page altSplit).images[i]? =
        some oi →
      (attemptPack h images atlasWidth atlasHeight page altSplit).images[j]? =
        some oj →
      oi.data = oj.data → oi.page ≠ none →
      oj.x = oi.x ∧ oj.y = oi.y ∧ oj.page = oi.page ∧ oj.flip = oi.flip) ∧
    (∀ (st : PackState) (im : ImageWrapper),
      (lookupAssoc st.hashes (h im.data)).isSome →
      (attemptPackStep h page altSplit st im).spaces = st.spaces ∧
      (attemptPackStep h page altSplit st im).area = st.area ∧
      (attemptPackStep h page altSplit st im).packed = st.packed + 1) := by
  constructor
  · have hfold := packDedupPair_foldl h page altSplit images
      ⟨[], [⟨0, 0, atlasWidth, atlasHeight⟩], [], 0, 0⟩
      ⟨fun p hp => absurd hp (List.not_mem_nil p),
        fun oi hoi _ => absurd hoi (List.not_mem_nil oi)⟩
      (fun i j _ oi _ hoi _ _ _ => by simp at hoi)
    exact hfold.2
  · intro st im hsome
    rcases attemptPackStep_cases h page altSplit st im with
      ⟨prev, hlk, heq⟩ | ⟨hlk, _⟩
    · rw [heq]
      exact ⟨rfl, rfl, rfl⟩
    · rw [hlk] at hsome
      simp at hsome

/-- **C9 witness**: with two identical images, the second inherits the
first one's placement, and the dedup step on a state whose hash map already
holds the pixel hash leaves the free-space list unchanged. -/
theorem attemptPack_dedup_witness :
    (((attemptPack (fun d => (d.headD []).headD 0) [egA, egA2] 130 100 0
          false).images.getD 1 egA).page =
        ((attemptPack (fun d => (d.headD []).headD 0) [egA, egA2] 130 100 0
          false).images.getD 0 egA).page) ∧
      (attemptPackStep (fun d => (d.headD []).headD 0) 0 false
          (attemptPack (fun d => (d.headD []).headD 0) [egA] 130 100 0 false)
          egA2).spaces =
        (attemptPack (fun d => (d.headD []).headD 0) [egA] 130 100 0
          false).spaces := by
  constructor
  · have h1 := (attemptPack_dedup (fun d => (d.headD []).headD 0) [egA, egA2]
        130 100 0 false).1 0 1 (by decide)
      ((attemptPack (fun d => (d.headD []).headD 0) [egA, egA2] 130 100 0
        false).images.getD 0 egA)
      ((attemptPack (fun d => (d.headD []).headD 0) [egA, egA2] 130 100 0
        false).images.getD 1 egA)
      (by decide) (by decide) (by decide) (by decide)
    exact h1.2.2.1
  · have h2 := (attemptPack_dedup (fun d => (d.headD []).headD 0) [egA, egA2]
        130 100 0 false).2
      (attemptPack (fun d => (d.headD []).headD 0) [egA] 130 100 0 false)
      egA2 (by decide)
    exact h2.1

/-! ## C1: the index hash table -/

theorem properChain_ne_nil {st : HashTable} {loc : TableLoc}
    {L : List TableLoc} (h : ProperChain st loc L) : L ≠ [] := by
  cases h <;> simp

theorem properChain_head {st : HashTable} {loc : TableLoc}
    {L : List TableLoc} (h : ProperChain st loc L) :
    ∃ rest, L = loc :: rest := by
  cases h with
  | last _ e he hz => exact ⟨[], rfl⟩
  | cons _ e rest he hnz hrec => exact ⟨rest, rfl⟩

theorem properChain_tableChain {st : HashTable} {loc : TableLoc}
    {L : List TableLoc} (h : ProperChain st loc L) :
    TableChain st (some loc) L := by
  induction h with
  | last loc e he hz =>
      refine TableChain.step loc e [] he ?_
      have hn : nextLoc st.buckets.length e = none := by simp [nextLoc, hz]
      rw [hn]
      exact TableChain.nil
  | cons loc e rest he hnz hrec ih =>
      refine TableChain.step loc e rest he ?_
      have hn : nextLoc st.buckets.length e =
          some (TableLoc.chn (e.next - st.buckets.length)) := by
        simp [nextLoc, hnz]
      rw [hn]
      exact ih

theorem walkLocs_eq_of_chain {st : HashTable} {o : Option TableLoc}
    {L : List TableLoc} (h : TableChain st o L) :
    ∀ fuel, L.length ≤ fuel → walkLocs st fuel o = L := by
  induction h with
  | nil =>
      intro fuel _
      cases fuel <;> rfl
  | stop loc he =>
      intro fuel _
      cases fuel with
      | zero => rfl
      | succ f => simp [walkLocs, he]
  | step loc e rest he hrec ih =>
      intro fuel hlen
      cases fuel with
      | zero => simp at hlen
      | succ f =>
          simp only [walkLocs, he]
          rw [ih f (by simpa using hlen)]

theorem findEnd_of_properChain {st : HashTable} {loc : TableLoc}
    {L : List TableLoc} (h : ProperChain st loc L) :
    ∀ fuel, L.length ≤ fuel + 1 →
      ∃ llast elast, L.getLast? = some llast ∧ findEnd st fuel loc = llast ∧
        entryAt st llast = some elast ∧ elast.next = 0 := by
  induction h with
  | last loc e he hz =>
      intro fuel _
      refine ⟨loc, e, rfl, ?_, he, hz⟩
      cases fuel with
      | zero => rfl
      | succ f => simp [findEnd, he, hz]
  | cons loc e rest he hnz hrec ih =>
      intro fuel hlen
      obtain ⟨r, rs, hr⟩ : ∃ r rs, rest = r :: rs := by
        cases rest with
        | nil => exact absurd rfl (properChain_ne_nil hrec)
        | cons r rs => exact ⟨r, rs, rfl⟩
      cases fuel with
      | zero =>
          subst hr
          simp at hlen
      | succ f =>
          obtain ⟨llast, elast, hl1, hl2, hl3, hl4⟩ :=
            ih f (by subst hr; simpa using hlen)
          refine ⟨llast, elast, ?_, ?_, hl3, hl4⟩
          · rw [hr] at hl1 ⊢
            rw [List.getLast?_cons_cons]
            exact hl1
          · simp only [findEnd, he, if_neg hnz]
            exact hl2

theorem chainExists_chn (st : HashTable) (hwf : linksWF st) :
    ∀ (m j : Nat), j < st.chained.length → st.chained.length ≤ j + m →
      ∃ js : List Nat,
        ProperChain st (TableLoc.chn j) ((j :: js).map TableLoc.chn) ∧
        (∀ x ∈ js, j < x ∧ x < st.chained.length) ∧
        (j :: js).Nodup ∧ (j :: js).length ≤ m := by
  intro m
  induction m with
  | zero =>
      intro j hj hm
      omega
  | succ m ih =>
      intro j hj hm
      obtain ⟨e, hje⟩ : ∃ e, st.chained[j]? = some e :=
        ⟨st.chained[j], List.getElem?_eq_getElem hj⟩
      have hent : entryAt st (TableLoc.chn j) = some e := hje
      rcases hwf.1 j e hje with hz | ⟨hlo, hhi⟩
      · exact ⟨[], ProperChain.last _ e hent hz, by simp, by simp, by simp⟩
      · have hnz : e.next ≠ 0 := by omega
        have hj1 : j < e.next - st.buckets.length := by omega
        have hj2 : e.next - st.buckets.length < st.chained.length := by omega
        have hm' : st.chained.length ≤ e.next - st.buckets.length + m := by omega
        obtain ⟨js', hpc, hbound, hnd, hlen⟩ := ih (e.next - st.buckets.length) hj2 hm'
        refine ⟨(e.next - st.buckets.length) :: js', ?_, ?_, ?_, ?_⟩
        · exact ProperChain.cons _ e _ hent hnz hpc
        · intro x hx
          rcases List.mem_cons.mp hx with rfl | hx
          · exact ⟨hj1, hj2⟩
          · obtain ⟨h1, h2⟩ := hbound x hx
            exact ⟨Nat.lt_trans hj1 h1, h2⟩
        · refine List.Nodup.cons ?_ hnd
          intro hmem
          rcases List.mem_cons.mp hmem with heq | hmem'
          · omega
          · obtain ⟨h1, _⟩ := hbound j hmem'
            omega
        · simp only [List.length_cons] at hlen ⊢
          omega

theorem chainExists_bkt (st : HashTable) (hwf : linksWF st)
    (hN : 0 < st.buckets.length) (i : Nat) (e0 : IndexEntry)
    (hocc : st.buckets.getD i none = some e0) :
    ∃ L, ProperChain st (TableLoc.bkt i) L ∧
      L.length ≤ st.chained.length + 1 ∧ L.Nodup ∧
      (∀ l ∈ L, l = TableLoc.bkt i ∨
        ∃ j, j < st.chained.length ∧ l = TableLoc.chn j) := by
  have hent : entryAt st (TableLoc.bkt i) = some e0 := hocc
  rcases hwf.2 i e0 hocc with hz | ⟨hlo, hhi⟩
  · exact ⟨[TableLoc.bkt i], ProperChain.last _ e0 hent hz, by simp, by simp,
      by simp⟩
  · have hnz : e0.next ≠ 0 := by omega
    have hj1 : e0.next - st.buckets.length < st.chained.length := by omega
    obtain ⟨js, hpc, hbound, hnd, hlen⟩ :=
      chainExists_chn st hwf st.chained.length (e0.next - st.buckets.length)
        hj1 (by omega)
    refine ⟨TableLoc.bkt i :: (((e0.next - st.buckets.length) :: js).map
      TableLoc.chn), ProperChain.cons _ e0 _ hent hnz hpc, ?_, ?_, ?_⟩
    · simp only [List.length_cons, List.length_map] at hlen ⊢
      omega
    · refine List.Nodup.cons ?_ ?_
      · intro hmem
        obtain ⟨x, _, hx⟩ := List.mem_map.mp hmem
        cases hx
      · refine List.Nodup.map ?_ hnd
        intro a b hab
        cases hab
        rfl
    · intro l hl
      rcases List.mem_cons.mp hl with rfl | hl
      · exact Or.inl rfl
      · obtain ⟨x, hxm, hx⟩ := List.mem_map.mp hl
        refine Or.inr ⟨x, ?_, hx.symm⟩
        rcases List.mem_cons.mp hxm with rfl | hxm
        · exact hj1
        · exact (hbound x hxm).2

theorem properChain_congr {st st' : HashTable}
    (hN : st'.buckets.length = st.buckets.length)
    {loc : TableLoc} {L : List TableLoc} (h : ProperChain st loc L)
    (hagree : ∀ l ∈ L, entryAt st' l = entryAt st l) :
    ProperChain st' loc L := by
  induction h with
  | last loc e he hz =>
      exact ProperChain.last loc e
        (by rw [hagree loc (List.mem_cons_self _ _), he]) hz
  | cons loc e rest he hnz hrec ih =>
      refine ProperChain.cons loc e rest
        (by rw [hagree loc (List.mem_cons_self _ _), he]) hnz ?_
      rw [hN]
      exact ih (fun l hl => hagree l (List.mem_cons_of_mem _ hl))

theorem properChain_extend {st st' : HashTable} {loc : TableLoc}
    {L : List TableLoc} (h : ProperChain st loc L)
    (llast : TableLoc) (v : Nat)
    (hN : st'.buckets.length = st.buckets.length)
    (hv0 : v ≠ 0) (enew : IndexEntry)
    (hnew : entryAt st' (TableLoc.chn (v - st'.buckets.length)) = some enew)
    (hennz : enew.next = 0) :
    L.Nodup → L.getLast? = some llast →
    (∀ l ∈ L, l ≠ llast → entryAt st' l = entryAt st l) →
    (∀ e, entryAt st llast = some e →
      entryAt st' llast = some { e with next := v }) →
    ProperChain st' loc (L ++ [TableLoc.chn (v - st'.buckets.length)]) := by
  induction h with
  | last loc e he hz =>
      intro _ hlast _ hlastag
      have hll : llast = loc := by simpa using hlast.symm
      refine ProperChain.cons loc { e with next := v } _ ?_
        (by simpa using hv0) ?_
      · rw [← hll]
        exact hlastag e (by rw [hll]; exact he)
      · exact ProperChain.last _ enew hnew hennz
  | cons loc e rest he hnz hrec ih =>
      intro hnd hlast hagree hlastag
      obtain ⟨r, rs, hr⟩ : ∃ r rs, rest = r :: rs := by
        cases rest with
        | nil => exact absurd rfl (properChain_ne_nil hrec)
        | cons r rs => exact ⟨r, rs, rfl⟩
      have hlast' : rest.getLast? = some llast := by
        rw [hr] at hlast ⊢
        rw [List.getLast?_cons_cons] at hlast
        exact hlast
      have hlmem : llast ∈ rest := by
        rw [hr]
        refine List.mem_of_mem_getLast? ?_
        rw [← hr, hlast']
        rfl
      have hlocne : loc ≠ llast := by
        intro hcontra
        subst hcontra
        exact (List.nodup_cons.mp hnd).1 hlmem
      refine ProperChain.cons loc e _
        (by rw [hagree loc (List.mem_cons_self _ _) hlocne, he]) hnz ?_
      nth_rewrite 1 [hN]
      exact ih (List.nodup_cons.mp hnd).2 hlast'
        (fun l hl hne => hagree l (List.mem_cons_of_mem _ hl) hne) hlastag

theorem setNextAt_buckets_length (st : HashTable) (loc : TableLoc) (n : Nat) :
    (setNextAt st loc n).buckets.length = st.buckets.length := by
  cases loc with
  | bkt i => simp [setNextAt]
  | chn j =>
      simp only [setNextAt]
      cases st.chained[j]? <;> simp

theorem setNextAt_chained_length (st : HashTable) (loc : TableLoc) (n : Nat) :
    (setNextAt st loc n).chained.length = st.chained.length := by
  cases loc with
  | bkt i => simp [setNextAt]
  | chn j =>
      simp only [setNextAt]
      cases st.chained[j]? <;> simp

theorem entryAt_setNextAt_ne (st : HashTable) (loc : TableLoc) (n : Nat)
    (l : TableLoc) (hne : l ≠ loc) :
    entryAt (setNextAt st loc n) l = entryAt st l := by
  cases loc with
  | bkt i =>
      cases l with
      | bkt i' =>
          have hii : i' ≠ i := fun hc => hne (by rw [hc])
          simp only [setNextAt, entryAt]
          rw [List.getD_eq_getElem?_getD, List.getElem?_set_ne (by omega),
            ← List.getD_eq_getElem?_getD]
      | chn j => simp [setNextAt, entryAt]
  | chn j =>
      simp only [setNextAt]
      cases hj : st.chained[j]? with
      | none => rfl
      | some e =>
          cases l with
          | bkt i' => simp [entryAt]
          | chn j' =>
              have hjj : j' ≠ j := fun hc => hne (by rw [hc])
              simp only [entryAt]
              rw [List.getElem?_set_ne (by omega)]

theorem entryAt_setNextAt_self (st : HashTable) (loc : TableLoc) (n : Nat)
    (e : IndexEntry) (he : entryAt st loc = some e) :
    entryAt (setNextAt st loc n) loc = some { e with next := n } := by
  cases loc with
  | bkt i =>
      simp only [entryAt] at he
      have hi : i < st.buckets.length := by
        by_contra hge
        rw [List.getD_eq_getElem?_getD, List.getElem?_eq_none (by omega)] at he
        simp at he
      simp only [setNextAt, entryAt, he]
      rw [List.getD_eq_getElem?_getD, List.getElem?_set_self hi]
      rfl
  | chn j =>
      simp only [entryAt] at he
      simp only [setNextAt, he, entryAt]
      have hj : j < st.chained.length := by
        by_contra hge
        rw [List.getElem?_eq_none (by omega)] at he
        cases he
      rw [List.getElem?_set_self hj]

theorem filterMap_map_congr {l : List α} {f g : α → Option β} {h : β → γ}
    (hc : ∀ a ∈ l, (f a).map h = (g a).map h) :
    (l.filterMap f).map h = (l.filterMap g).map h := by
  induction l with
  | nil => rfl
  | cons a l ih =>
      have ha := hc a (List.mem_cons_self a l)
      have ihl := ih (fun x hx => hc x (List.mem_cons_of_mem a hx))
      simp only [List.filterMap_cons]
      cases hfa : f a with
      | none =>
          rw [hfa] at ha
          cases hga : g a with
          | none => exact ihl
          | some b =>
              rw [hga] at ha
              simp at ha
      | some b =>
          rw [hfa] at ha
          cases hga : g a with
          | none =>
              rw [hga] at ha
              simp at ha
          | some b' =>
              rw [hga] at ha
              simp only [Option.map_some'] at ha
              simp only [List.map_cons, ihl]
              rw [Option.some.injEq] at ha
              rw [ha]

theorem filterMap_congr_on {l : List α} {f g : α → Option β}
    (hc : ∀ a ∈ l, f a = g a) : l.filterMap f = l.filterMap g := by
  induction l with
  | nil => rfl
  | cons a l ih =>
      simp only [List.filterMap_cons, hc a (List.mem_cons_self a l),
        ih (fun x hx => hc x (List.mem_cons_of_mem a hx))]

theorem chainLocs_of_properChain {st : HashTable} {i : Nat}
    {L : List TableLoc} (h : ProperChain st (TableLoc.bkt i) L)
    (hlen : L.length ≤ st.chained.length + 1) : chainLocs st i = L :=
  walkLocs_eq_of_chain (properChain_tableChain h) _ hlen

theorem chainLocs_empty {st : HashTable} {i : Nat}
    (h : entryAt st (TableLoc.bkt i) = none) : chainLocs st i = [] := by
  simp [chainLocs, walkLocs, h]

theorem entryAt_appendChained (stX : HashTable) (e : IndexEntry)
    (l : TableLoc) :
    entryAt { stX with chained := stX.chained ++ [e] } l =
      if l = TableLoc.chn stX.chained.length then some e
      else entryAt stX l := by
  cases l with
  | bkt i =>
      rw [if_neg (by simp)]
      rfl
  | chn j =>
      by_cases hj : j = stX.chained.length
      · subst hj
        rw [if_pos rfl]
        show (stX.chained ++ [e])[stX.chained.length]? = some e
        exact List.getElem?_concat_length _ _
      · rw [if_neg (by simp [hj])]
        show (stX.chained ++ [e])[j]? = stX.chained[j]?
        rcases Nat.lt_or_ge j stX.chained.length with h | h
        · rw [List.getElem?_append_left h]
        · rw [List.getElem?_append_right h]
          rw [List.getElem?_eq_none
            (show ([e] : List IndexEntry).length ≤ j - stX.chained.length by
              simp; omega)]
          rw [List.getElem?_eq_none (show stX.chained.length ≤ j by omega)]

theorem chainEntry_residue (st : HashTable) (processed : List IndexEntry)
    (i : Nat)
    (hfilter : (chainEntries st i).map IndexEntry.fields =
      (processed.filter
        (fun e => e.hash % st.buckets.length = i)).map IndexEntry.fields)
    (l : TableLoc) (hl : l ∈ chainLocs st i) (e : IndexEntry)
    (he : entryAt st l = some e) : e.hash % st.buckets.length = i := by
  have hmem : e ∈ chainEntries st i := List.mem_filterMap.mpr ⟨l, hl, he⟩
  have hmf : IndexEntry.fields e ∈ (chainEntries st i).map IndexEntry.fields :=
    List.mem_map_of_mem _ hmem
  rw [hfilter] at hmf
  obtain ⟨p, hp, hfe⟩ := List.mem_map.mp hmf
  have hpred := (List.mem_filter.mp hp).2
  have hh : p.hash = e.hash := congrArg Prod.fst hfe
  rw [← hh]
  exact of_decide_eq_true hpred

theorem insertTableEntry_cases (st : HashTable) (e : IndexEntry) :
    (st.buckets.getD (e.hash % st.buckets.length) none = none ∧
      insertTableEntry st e =
        { st with buckets :=
            st.buckets.set (e.hash % st.buckets.length) (some e) }) ∨
    (∃ e0, st.buckets.getD (e.hash % st.buckets.length) none = some e0 ∧
      insertTableEntry st e =
        { setNextAt st
            (findEnd st (st.chained.length + 1)
              (TableLoc.bkt (e.hash % st.buckets.length)))
            (st.buckets.length + st.chained.length) with
          chained :=
            (setNextAt st
              (findEnd st (st.chained.length + 1)
                (TableLoc.bkt (e.hash % st.buckets.length)))
              (st.buckets.length + st.chained.length)).chained ++ [e] }) := by
  unfold insertTableEntry
  dsimp only
  cases hocc : st.buckets.getD (e.hash % st.buckets.length) none with
  | none => exact Or.inl ⟨rfl, rfl⟩
  | some e0 => exact Or.inr ⟨e0, rfl, rfl⟩

theorem tableInv_insert_empty (processed : List IndexEntry)
    (st st₂ : HashTable) (e : IndexEntry) (i : Nat)
    (hnext : e.next = 0) (hN : 0 < st.buckets.length)
    (hi : i = e.hash % st.buckets.length)
    (hocc : entryAt st (TableLoc.bkt i) = none)
    (hb2 : st₂.buckets.length = st.buckets.length)
    (hc2 : st₂.chained.length = st.chained.length)
    (hAt : ∀ l, entryAt st₂ l =
      if l = TableLoc.bkt i then some e else entryAt st l)
    (hinv : tableInv processed st) :
    tableInv (processed ++ [e]) st₂ := by
  obtain ⟨⟨hwfc, hwfb⟩, hdata⟩ := hinv
  have hilt : i < st.buckets.length := by
    rw [hi]
    exact Nat.mod_lt _ hN
  refine ⟨⟨?_, ?_⟩, ?_⟩
  · intro j e' hje
    have hje' : entryAt st₂ (TableLoc.chn j) = some e' := hje
    rw [hAt, if_neg (by simp)] at hje'
    rw [hb2, hc2]
    exact hwfc j e' hje'
  · intro i' e' hie
    have hie' : entryAt st₂ (TableLoc.bkt i') = some e' := hie
    rw [hAt] at hie'
    by_cases hii : (TableLoc.bkt i' : TableLoc) = TableLoc.bkt i
    · rw [if_pos hii, Option.some.injEq] at hie'
      subst hie'
      exact Or.inl hnext
    · rw [if_neg hii] at hie'
      rw [hb2, hc2]
      exact hwfb i' e' hie'
  · intro i' hi'
    rw [hb2] at hi'
    have hpred : ∀ x : IndexEntry,
        (decide (x.hash % st₂.buckets.length = i')) =
          (decide (x.hash % st.buckets.length = i')) := by
      intro x
      rw [hb2]
    have hfil : ((processed ++ [e]).filter
        (fun x => x.hash % st₂.buckets.length = i')).map IndexEntry.fields =
        ((processed ++ [e]).filter
          (fun x => x.hash % st.buckets.length = i')).map IndexEntry.fields := by
      rw [List.filter_congr (fun x _ => hpred x)]
    rw [hfil]
    by_cases hii : i' = i
    · subst hii
      have hent2 : entryAt st₂ (TableLoc.bkt i') = some e := by
        rw [hAt, if_pos rfl]
      have hpc2 : ProperChain st₂ (TableLoc.bkt i') [TableLoc.bkt i'] :=
        ProperChain.last _ e hent2 hnext
      have hlocs2 : chainLocs st₂ i' = [TableLoc.bkt i'] :=
        chainLocs_of_properChain hpc2 (by simp)
      have hlocs1 : chainLocs st i' = [] := chainLocs_empty hocc
      have hold := hdata i' hilt
      rw [show chainEntries st i' = [] from by
        rw [chainEntries, hlocs1]; rfl] at hold
      rw [show chainEntries st₂ i' = [e] from by
        rw [chainEntries, hlocs2]
        simp [List.filterMap, hent2]]
      rw [List.filter_append, List.map_append]
      rw [← hold]
      simp only [List.map_nil, List.nil_append]
      rw [List.filter_cons]
      rw [if_pos (by rw [hi]; simp)]
      rfl
    · have hagree : entryAt st₂ (TableLoc.bkt i') = entryAt st (TableLoc.bkt i') := by
        rw [hAt, if_neg (by simp [hii])]
      have hfill : ((processed ++ [e]).filter
          (fun x => x.hash % st.buckets.length = i')).map IndexEntry.fields =
          (processed.filter
            (fun x => x.hash % st.buckets.length = i')).map IndexEntry.fields := by
        rw [List.filter_append, List.filter_cons]
        rw [if_neg (by rw [← hi]; simpa using fun hc => hii hc.symm)]
        simp
      rw [hfill]
      cases hocc' : entryAt st (TableLoc.bkt i') with
      | none =>
          have hlocs2 : chainLocs st₂ i' = [] :=
            chainLocs_empty (by rw [hagree, hocc'])
          have hlocs1 : chainLocs st i' = [] := chainLocs_empty hocc'
          have hold := hdata i' hi'
          rw [show chainEntries st i' = [] from by
            rw [chainEntries, hlocs1]; rfl] at hold
          rw [show chainEntries st₂ i' = [] from by
            rw [chainEntries, hlocs2]; rfl]
          exact hold
      | some e0' =>
          obtain ⟨L', hpc', hlen', hnd', helem'⟩ :=
            chainExists_bkt st ⟨hwfc, hwfb⟩ hN i' e0' hocc'
          have hag : ∀ l ∈ L', entryAt st₂ l = entryAt st l := by
            intro l hl
            rcases helem' l hl with rfl | ⟨j, hj, rfl⟩
            · exact hagree
            · rw [hAt, if_neg (by simp)]
          have hpc2 : ProperChain st₂ (TableLoc.bkt i') L' :=
            properChain_congr hb2 hpc' hag
          have hlocs2 : chainLocs st₂ i' = L' :=
            chainLocs_of_properChain hpc2 (by rw [hc2]; exact hlen')
          have hlocs1 : chainLocs st i' = L' :=
            chainLocs_of_properChain hpc' hlen'
          have hce : chainEntries st₂ i' = chainEntries st i' := by
            rw [chainEntries, chainEntries, hlocs2, hlocs1]
            exact filterMap_congr_on hag
          rw [hce]
          exact hdata i' hi'

theorem tableInv_insert_occupied (processed : List IndexEntry)
    (st st₂ : HashTable) (e : IndexEntry) (i : Nat) (llast : TableLoc)
    (elast : IndexEntry) (L : List TableLoc)
    (hnext : e.next = 0) (hN : 0 < st.buckets.length)
    (hi : i = e.hash % st.buckets.length)
    (hpc : ProperChain st (TableLoc.bkt i) L)
    (hlen : L.length ≤ st.chained.length + 1)
    (hnd : L.Nodup)
    (helem : ∀ l ∈ L, l = TableLoc.bkt i ∨
      ∃ j, j < st.chained.length ∧ l = TableLoc.chn j)
    (hl1 : L.getLast? = some llast)
    (hl3 : entryAt st llast = some elast)
    (hb2 : st₂.buckets.length = st.buckets.length)
    (hc2 : st₂.chained.length = st.chained.length + 1)
    (hAt : ∀ l, entryAt st₂ l =
      if l = TableLoc.chn st.chained.length then some e
      else if l = llast then
        some { elast with next := st.buckets.length + st.chained.length }
      else entryAt st l)
    (hinv : tableInv processed st) :
    tableInv (processed ++ [e]) st₂ := by
  obtain ⟨⟨hwfc, hwfb⟩, hdata⟩ := hinv
  have hilt : i < st.buckets.length := by
    rw [hi]
    exact Nat.mod_lt _ hN
  have hllmem : llast ∈ L := List.mem_of_mem_getLast? (by rw [hl1]; rfl)
  have hllne : llast ≠ TableLoc.chn st.chained.length := by
    rcases helem llast hllmem with rfl | ⟨j, hj, rfl⟩
    · simp
    · simp
      omega
  have hv0 : st.buckets.length + st.chained.length ≠ 0 := by omega
  have hllAt : entryAt st₂ llast =
      some { elast with next := st.buckets.length + st.chained.length } := by
    rw [hAt, if_neg hllne, if_pos rfl]
  have hCAt : entryAt st₂ (TableLoc.chn st.chained.length) = some e := by
    rw [hAt, if_pos rfl]
  have hagreeL : ∀ l ∈ L, l ≠ llast → entryAt st₂ l = entryAt st l := by
    intro l hl hne
    rcases helem l hl with rfl | ⟨j, hj, rfl⟩
    · rw [hAt, if_neg (by simp), if_neg hne]
    · rw [hAt, if_neg (by simp; omega), if_neg hne]
  have hvC : st.buckets.length + st.chained.length - st₂.buckets.length =
      st.chained.length := by
    rw [hb2]
    omega
  have hpc2 : ProperChain st₂ (TableLoc.bkt i)
      (L ++ [TableLoc.chn st.chained.length]) := by
    have hext := properChain_extend hpc llast
      (st.buckets.length + st.chained.length) hb2 hv0 e
      (by rw [hvC]; exact hCAt) hnext hnd hl1 hagreeL
      (fun e'' he'' => by
        rw [hllAt]
        rw [hl3, Option.some.injEq] at he''
        rw [he''])
    rw [hvC] at hext
    exact hext
  have hlocs1 : chainLocs st i = L := chainLocs_of_properChain hpc hlen
  have hlocs2 : chainLocs st₂ i = L ++ [TableLoc.chn st.chained.length] :=
    chainLocs_of_properChain hpc2 (by rw [hc2]; simp; omega)
  have hres : elast.hash % st.buckets.length = i :=
    chainEntry_residue st processed i (hdata i hilt) llast
      (by rw [hlocs1]; exact hllmem) elast hl3
  refine ⟨⟨?_, ?_⟩, ?_⟩
  · intro j e' hje
    have hje' : entryAt st₂ (TableLoc.chn j) = some e' := hje
    rw [hAt] at hje'
    rw [hb2, hc2]
    by_cases h1 : (TableLoc.chn j : TableLoc) = TableLoc.chn st.chained.length
    · rw [if_pos h1, Option.some.injEq] at hje'
      subst hje'
      exact Or.inl hnext
    · rw [if_neg h1] at hje'
      by_cases h2 : (TableLoc.chn j : TableLoc) = llast
      · rw [if_pos h2, Option.some.injEq] at hje'
        subst hje'
        right
        have hjlt : j < st.chained.length := by
          rcases helem llast hllmem with heq | ⟨j', hj', heq⟩
          · rw [← h2] at heq
            cases heq
          · rw [← h2] at heq
            cases heq
            omega
        constructor
        · show st.buckets.length + j < st.buckets.length + st.chained.length
          omega
        · show st.buckets.length + st.chained.length <
            st.buckets.length + (st.chained.length + 1)
          omega
      · rw [if_neg h2] at hje'
        rcases hwfc j e' hje' with hz | ⟨hb, hc⟩
        · exact Or.inl hz
        · exact Or.inr ⟨hb, by omega⟩
  · intro i' e' hie
    have hie' : entryAt st₂ (TableLoc.bkt i') = some e' := hie
    rw [hAt, if_neg (by simp)] at hie'
    rw [hb2, hc2]
    by_cases h2 : (TableLoc.bkt i' : TableLoc) = llast
    · rw [if_pos h2, Option.some.injEq] at hie'
      subst hie'
      right
      refine ⟨?_, ?_⟩
      · show st.buckets.length ≤ st.buckets.length + st.chained.length
        omega
      · show st.buckets.length + st.chained.length <
          st.buckets.length + (st.chained.length + 1)
        omega
    · rw [if_neg h2] at hie'
      rcases hwfb i' e' hie' with hz | ⟨hb, hc⟩
      · exact Or.inl hz
      · exact Or.inr ⟨hb, by omega⟩
  · intro i' hi'
    rw [hb2] at hi'
    have hfil : ((processed ++ [e]).filter
        (fun x => x.hash % st₂.buckets.length = i')).map IndexEntry.fields =
        ((processed ++ [e]).filter
          (fun x => x.hash % st.buckets.length = i')).map IndexEntry.fields := by
      rw [List.filter_congr (fun x _ => by rw [hb2])]
    rw [hfil]
    by_cases hii : i' = i
    · subst hii
      have hmapL : (L.filterMap (entryAt st₂)).map IndexEntry.fields =
          (L.filterMap (entryAt st)).map IndexEntry.fields := by
        refine filterMap_map_congr ?_
        intro l hl
        by_cases hne : l = llast
        · subst hne
          rw [hllAt, hl3]
          rfl
        · rw [hagreeL l hl hne]
      have hce2 : (chainEntries st₂ i').map IndexEntry.fields =
          (chainEntries st i').map IndexEntry.fields ++ [e.fields] := by
        rw [chainEntries, chainEntries, hlocs1, hlocs2,
          List.filterMap_append, List.map_append, hmapL]
        congr 1
        simp [List.filterMap, hCAt]
      rw [hce2, hdata i' hilt, List.filter_append, List.map_append]
      congr 1
      rw [List.filter_cons]
      rw [if_pos (by rw [← hi]; simp)]
      rfl
    · have hfill : ((processed ++ [e]).filter
          (fun x => x.hash % st.buckets.length = i')).map IndexEntry.fields =
          (processed.filter
            (fun x => x.hash % st.buckets.length = i')).map IndexEntry.fields := by
        rw [List.filter_append, List.filter_cons]
        rw [if_neg (by rw [← hi]; simpa using fun hc => hii hc.symm)]
        simp
      rw [hfill]
      have hbne : (TableLoc.bkt i' : TableLoc) ≠ llast := by
        intro hc
        rcases helem llast hllmem with heq | ⟨j', hj', heq⟩
        · rw [← hc] at heq
          cases heq
          exact hii rfl
        · rw [← hc] at heq
          cases heq
      have hagree : entryAt st₂ (TableLoc.bkt i') = entryAt st (TableLoc.bkt i') := by
        rw [hAt, if_neg (by simp), if_neg hbne]
      cases hocc' : entryAt st (TableLoc.bkt i') with
      | none =>
          have hlocs2' : chainLocs st₂ i' = [] :=
            chainLocs_empty (by rw [hagree, hocc'])
          have hlocs1' : chainLocs st i' = [] := chainLocs_empty hocc'
          have hold := hdata i' hi'
          rw [show chainEntries st i' = [] from by
            rw [chainEntries, hlocs1']; rfl] at hold
          rw [show chainEntries st₂ i' = [] from by
            rw [chainEntries, hlocs2']; rfl]
          exact hold
      | some e0' =>
          obtain ⟨L', hpc', hlen', hnd', helem'⟩ :=
            chainExists_bkt st ⟨hwfc, hwfb⟩ hN i' e0' hocc'
          have hlocs1' : chainLocs st i' = L' :=
            chainLocs_of_properChain hpc' hlen'
          have hag : ∀ l ∈ L', entryAt st₂ l = entryAt st l := by
            intro l hl
            have hlne : l ≠ llast := by
              intro hc
              subst hc
              have hres' : elast.hash % st.buckets.length = i' :=
                chainEntry_residue st processed i' (hdata i' hi') l
                  (by rw [hlocs1']; exact hl) elast hl3
              exact hii (hres'.symm.trans hres)
            rcases helem' l hl with rfl | ⟨j, hj, rfl⟩
            · rw [hAt, if_neg (by simp), if_neg hlne]
            · rw [hAt, if_neg (by simp; omega), if_neg hlne]
          have hpc2' : ProperChain st₂ (TableLoc.bkt i') L' :=
            properChain_congr hb2 hpc' hag
          have hlocs2' : chainLocs st₂ i' = L' :=
            chainLocs_of_properChain hpc2' (by rw [hc2]; omega)
          have hce : chainEntries st₂ i' = chainEntries st i' := by
            rw [chainEntries, chainEntries, hlocs2', hlocs1']
            exact filterMap_congr_on hag
          rw [hce]
          exact hdata i' hi'

theorem tableInv_step (processed : List IndexEntry) (st : HashTable)
    (e : IndexEntry) (hnext : e.next = 0) (hN : 0 < st.buckets.length)
    (hinv : tableInv processed st) :
    tableInv (processed ++ [e]) (insertTableEntry st e) ∧
    (insertTableEntry st e).buckets.length = st.buckets.length := by
  rcases insertTableEntry_cases st e with ⟨hocc, heq⟩ | ⟨e0, hocc, heq⟩
  · rw [heq]
    constructor
    · refine tableInv_insert_empty processed st _ e
        (e.hash % st.buckets.length) hnext hN rfl hocc ?_ rfl ?_ hinv
      · show (st.buckets.set (e.hash % st.buckets.length) (some e)).length =
          st.buckets.length
        simp
      · intro l
        cases l with
        | bkt i' =>
            by_cases hii : i' = e.hash % st.buckets.length
            · rw [if_pos (by rw [hii])]
              show (st.buckets.set (e.hash % st.buckets.length)
                (some e)).getD i' none = some e
              rw [hii, List.getD_eq_getElem?_getD,
                List.getElem?_set_self (Nat.mod_lt _ hN)]
              rfl
            · rw [if_neg (by simp [hii])]
              show (st.buckets.set (e.hash % st.buckets.length)
                (some e)).getD i' none = st.buckets.getD i' none
              rw [List.getD_eq_getElem?_getD,
                List.getElem?_set_ne (by omega),
                ← List.getD_eq_getElem?_getD]
        | chn j =>
            rw [if_neg (by simp)]
            rfl
    · show (st.buckets.set (e.hash % st.buckets.length) (some e)).length =
        st.buckets.length
      simp
  · rw [heq]
    obtain ⟨L, hpc, hlen, hnd, helem⟩ := chainExists_bkt st hinv.1 hN
      (e.hash % st.buckets.length) e0 hocc
    obtain ⟨llast, elast, hl1, hl2, hl3, hl4⟩ :=
      findEnd_of_properChain hpc (st.chained.length + 1) (by omega)
    rw [hl2]
    constructor
    · refine tableInv_insert_occupied processed st _ e
        (e.hash % st.buckets.length) llast elast L hnext hN rfl hpc hlen hnd
        helem hl1 hl3 ?_ ?_ ?_ hinv
      · exact setNextAt_buckets_length st llast _
      · show ((setNextAt st llast
            (st.buckets.length + st.chained.length)).chained ++ [e]).length =
          st.chained.length + 1
        simp [setNextAt_chained_length]
      · intro l
        rw [entryAt_appendChained, setNextAt_chained_length]
        by_cases h1 : l = TableLoc.chn st.chained.length
        · rw [if_pos h1, if_pos h1]
        · rw [if_neg h1, if_neg h1]
          by_cases h2 : l = llast
          · rw [if_pos h2, h2]
            exact entryAt_setNextAt_self st llast _ elast hl3
          · rw [if_neg h2]
            exact entryAt_setNextAt_ne st llast _ l h2
    · exact setNextAt_buckets_length st llast _

theorem tableInv_foldl :
    ∀ (l : List IndexEntry) (processed : List IndexEntry) (st : HashTable),
      (∀ x ∈ l, x.next = 0) → 0 < st.buckets.length → tableInv processed st →
      tableInv (processed ++ l) (l.foldl insertTableEntry st) ∧
      (l.foldl insertTableEntry st).buckets.length = st.buckets.length := by
  intro l
  induction l with
  | nil =>
      intro processed st _ hN hinv
      refine ⟨?_, rfl⟩
      simpa using hinv
  | cons a rest ih =>
      intro processed st hzero hN hinv
      rw [List.foldl_cons]
      obtain ⟨hstep, hblen⟩ := tableInv_step processed st a
        (hzero a (List.mem_cons_self a rest)) hN hinv
      obtain ⟨hrec, hrlen⟩ := ih (processed ++ [a]) (insertTableEntry st a)
        (fun x hx => hzero x (List.mem_cons_of_mem a hx)) (by omega) hstep
      refine ⟨?_, by omega⟩
      have happ : processed ++ a :: rest = (processed ++ [a]) ++ rest := by
        simp
      rw [happ]
      exact hrec

theorem replicate_getD_none (n i : Nat) :
    (List.replicate n (none : Option IndexEntry)).getD i none = none := by
  rw [List.getD_eq_getElem?_getD, List.getElem?_replicate]
  by_cases h : i < n
  · rw [if_pos h]
    rfl
  · rw [if_neg h]
    rfl

theorem tableInv_init (n : Nat) :
    tableInv [] ⟨List.replicate n none, []⟩ := by
  refine ⟨⟨?_, ?_⟩, ?_⟩
  · intro j e hje
    simp at hje
  · intro i e hie
    rw [show (⟨List.replicate n none, []⟩ : HashTable).buckets.getD i none =
      none from replicate_getD_none n i] at hie
    cases hie
  · intro i hi
    have hent : entryAt (⟨List.replicate n none, []⟩ : HashTable)
        (TableLoc.bkt i) = none := replicate_getD_none n i
    rw [show chainEntries (⟨List.replicate n none, []⟩ : HashTable) i = []
      from by rw [chainEntries, chainLocs_empty hent]; rfl]
    simp

theorem buildTable_inv (entries : List IndexEntry)
    (hzero : ∀ x ∈ entries, x.next = 0) :
    tableInv entries (buildTable entries) ∧
    (buildTable entries).buckets.length = numBucketsFor entries.length := by
  have hN : 0 < numBucketsFor entries.length := Nat.two_pow_pos _
  have hbase := tableInv_init (numBucketsFor entries.length)
  have hfold := tableInv_foldl entries []
    ⟨List.replicate (numBucketsFor entries.length) none, []⟩ hzero
    (by simpa using hN) hbase
  constructor
  · have := hfold.1
    simpa [buildTable] using this
  · have := hfold.2
    rw [show (buildTable entries) = entries.foldl insertTableEntry
      ⟨List.replicate (numBucketsFor entries.length) none, []⟩ from rfl]
    rw [this]
    simp

theorem indexAddAll_go :
    ∀ (inserts : List (List Nat × Nat × Nat × Nat))
      (acc entries : List IndexEntry),
      inserts.foldlM (fun entries ins =>
        indexAddEntry entries ins.1 ins.2.1 ins.2.2.1 ins.2.2.2) acc =
          Except.ok entries →
      entries = acc ++ inserts.map (fun ins =>
        ⟨hash32 ins.1, ins.2.1, ins.2.2.1, ins.2.2.2, 0⟩) ∧
      ((acc.map IndexEntry.hash).Nodup →
        (entries.map IndexEntry.hash).Nodup) := by
  intro inserts
  induction inserts with
  | nil =>
      intro acc entries h
      simp only [List.foldlM_nil] at h
      have hae : acc = entries := by
        cases h
        rfl
      subst hae
      exact ⟨by simp, fun hnd => hnd⟩
  | cons ins rest ih =>
      intro acc entries h
      rw [List.foldlM_cons] at h
      cases hstep : indexAddEntry acc ins.1 ins.2.1 ins.2.2.1 ins.2.2.2 with
      | error s =>
          rw [hstep] at h
          cases h
      | ok acc' =>
          rw [hstep] at h
          obtain ⟨he, hnd⟩ := ih acc' entries h
          rw [indexAddEntry] at hstep
          split at hstep
          · cases hstep
          · rename_i hany
            rw [Except.ok.injEq] at hstep
            subst hstep
            constructor
            · rw [he]
              simp
            · intro hndacc
              refine hnd ?_
              rw [List.map_append]
              refine List.Nodup.append hndacc (by simp) ?_
              intro a ha hb
              simp only [List.map_cons, List.map_nil, List.mem_singleton] at hb
              subst hb
              obtain ⟨x, hx, hxh⟩ := List.mem_map.mp ha
              rw [List.any_eq_true] at hany
              exact hany ⟨x, hx, by simp [hxh]⟩

theorem indexAddAll_spec (inserts : List (List Nat × Nat × Nat × Nat))
    (entries : List IndexEntry)
    (hok : indexAddAll inserts = Except.ok entries) :
    entries = inserts.map (fun ins =>
      ⟨hash32 ins.1, ins.2.1, ins.2.2.1, ins.2.2.2, 0⟩) ∧
    (entries.map IndexEntry.hash).Nodup := by
  obtain ⟨he, hnd⟩ := indexAddAll_go inserts [] entries hok
  exact ⟨by simpa using he, hnd (by simp)⟩

theorem find?_fields_congr {l1 l2 : List IndexEntry} (H : Nat)
    (hmap : l1.map IndexEntry.fields = l2.map IndexEntry.fields) :
    (l1.find? (fun e => e.hash = H)).map IndexEntry.fields =
      (l2.find? (fun e => e.hash = H)).map IndexEntry.fields := by
  induction l1 generalizing l2 with
  | nil =>
      have hl2 : l2 = [] := by
        cases l2 with
        | nil => rfl
        | cons b l2' => simp at hmap
      subst hl2
      rfl
  | cons a l1' ih =>
      cases l2 with
      | nil => simp at hmap
      | cons b l2' =>
          simp only [List.map_cons, List.cons.injEq] at hmap
          obtain ⟨hab, hrest⟩ := hmap
          have hh : a.hash = b.hash := congrArg Prod.fst hab
          by_cases hH : a.hash = H
          · rw [List.find?_cons_of_pos _ (by simp [hH]),
              List.find?_cons_of_pos _ (by simp [← hh, hH])]
            simp only [Option.map_some']
            rw [hab]
          · rw [List.find?_cons_of_neg _ (by simp [hH]),
              List.find?_cons_of_neg _ (by simp [← hh, hH])]
            exact ih hrest

theorem find?_hash_unique {l : List IndexEntry}
    (hnd : (l.map IndexEntry.hash).Nodup) {e : IndexEntry} (he : e ∈ l) :
    l.find? (fun x => x.hash = e.hash) = some e := by
  induction l with
  | nil => cases he
  | cons a l ih =>
      simp only [List.map_cons, List.nodup_cons] at hnd
      rcases List.mem_cons.mp he with rfl | he'
      · rw [List.find?_cons_of_pos _ (by simp)]
      · have hne : a.hash ≠ e.hash := by
          intro hc
          refine hnd.1 ?_
          rw [hc]
          exact List.mem_map_of_mem _ he'
        rw [List.find?_cons_of_neg _ (by simp [hne])]
        exact ih hnd.2 he'

theorem serializeExtEntry_length (g : Nat) (o : Option IndexEntry) :
    (serializeExtEntry g o).length = 16 := by
  cases o with
  | none => simp [serializeExtEntry]
  | some e => simp [serializeExtEntry, le16, le32]

theorem flatten_block16 :
    ∀ (blocks : List (List Nat)) (k : Nat) (b : List Nat),
      (∀ x ∈ blocks, x.length = 16) → blocks[k]? = some b →
      ((blocks.flatten).drop (16 * k)).take 16 = b := by
  intro blocks
  induction blocks with
  | nil =>
      intro k b _ hk
      simp at hk
  | cons x bs ih =>
      intro k b hall hk
      cases k with
      | zero =>
          simp only [List.getElem?_cons_zero, Option.some.injEq] at hk
          subst hk
          have hx : x.length = 16 := hall x (List.mem_cons_self x bs)
          rw [Nat.mul_zero, List.drop_zero, List.flatten_cons]
          rw [show (16 : Nat) = x.length from hx.symm]
          exact List.take_left x bs.flatten
      | succ k' =>
          simp only [List.getElem?_cons_succ] at hk
          have hx : x.length = 16 := hall x (List.mem_cons_self x bs)
          rw [List.flatten_cons]
          rw [show 16 * (k' + 1) = x.length + 16 * k' by rw [hx]; ring]
          rw [List.drop_append]
          exact ih k' b (fun y hy => hall y (List.mem_cons_of_mem x hy)) hk

theorem serializeIndex_slot (st : HashTable) (g : Nat) (loc : TableLoc)
    (e : IndexEntry) (he : entryAt st loc = some e) :
    ((serializeIndex st g).drop
      (4 + 16 * slotIndex st.buckets.length loc)).take 16 =
      serializeExtEntry g (some e) := by
  have hslot : (st.buckets ++ st.chained.map some)[slotIndex
      st.buckets.length loc]? = some (some e) := by
    cases loc with
    | bkt i =>
        have hi : st.buckets[i]? = some (some e) := by
          have hgd : (st.buckets[i]?).getD none = some e := by
            rw [← List.getD_eq_getElem?_getD]
            exact he
          cases hq : st.buckets[i]? with
          | none =>
              rw [hq] at hgd
              cases hgd
          | some o =>
              rw [hq] at hgd
              simp only [Option.getD_some] at hgd
              rw [hgd]
        have hlt : i < st.buckets.length := by
          by_contra hge
          rw [List.getElem?_eq_none (by omega)] at hi
          cases hi
        show (st.buckets ++ st.chained.map some)[i]? = some (some e)
        rw [List.getElem?_append_left hlt]
        exact hi
    | chn j =>
        show (st.buckets ++ st.chained.map some)[st.buckets.length + j]? =
          some (some e)
        rw [List.getElem?_append_right (by omega)]
        rw [show st.buckets.length + j - st.buckets.length = j by omega]
        rw [List.getElem?_map]
        rw [show st.chained[j]? = some e from he]
        rfl
  have hmapped : ((st.buckets ++ st.chained.map some).map
      (serializeExtEntry g))[slotIndex st.buckets.length loc]? =
      some (serializeExtEntry g (some e)) := by
    rw [List.getElem?_map, hslot]
    rfl
  have hpre : (le16 st.buckets.length ++ le16 st.chained.length).length = 4 := rfl
  rw [serializeIndex]
  rw [show 4 + 16 * slotIndex st.buckets.length loc =
    (le16 st.buckets.length ++ le16 st.chained.length).length +
      16 * slotIndex st.buckets.length loc from by rw [hpre]]
  rw [List.drop_append]
  exact flatten_block16 _ _ _
    (fun y hy => by
      obtain ⟨o, _, ho⟩ := List.mem_map.mp hy
      rw [← ho]
      exact serializeExtEntry_length g o)
    hmapped

/-- **C1**: for every name inserted into the index builder, after the hash
table is built, probing bucket `hash32 name % bucketCount` and following
the chain links (a link `v ≥ bucketCount` refers to chained entry
`v - bucketCount`, link 0 ends the chain — exactly `lookupEntry`) reaches
an entry whose hash equals `hash32 name` and whose offset, length and kind
are the registered values; moreover that entry sits at a slot of the
bucket's chain, and the serialized index stores its 16-byte extended
record at the slot's position. -/
theorem indexTable_roundtrip (inserts : List (List Nat × Nat × Nat × Nat))
    (entries : List IndexEntry)
    (hok : indexAddAll inserts = Except.ok entries)
    (name : List Nat) (offset length kind : Nat)
    (hmem : (name, offset, length, kind) ∈ inserts) (g : Nat) :
    ∃ eF loc,
      lookupEntry (buildTable entries) (hash32 name) = some eF ∧
      eF.hash = hash32 name ∧ eF.offset = offset ∧ eF.length = length ∧
      eF.kind = kind ∧
      loc ∈ chainLocs (buildTable entries)
        (hash32 name % (buildTable entries).buckets.length) ∧
      entryAt (buildTable entries) loc = some eF ∧
      ((serializeIndex (buildTable entries) g).drop
        (4 + 16 * slotIndex (buildTable entries).buckets.length loc)).take
          16 = serializeExtEntry g (some eF) := by
  obtain ⟨hent, hnd⟩ := indexAddAll_spec inserts entries hok
  have hzero : ∀ x ∈ entries, x.next = 0 := by
    intro x hx
    rw [hent] at hx
    obtain ⟨ins, _, hins⟩ := List.mem_map.mp hx
    rw [← hins]
  obtain ⟨⟨hwf, hdata⟩, hblen⟩ := buildTable_inv entries hzero
  have hN : 0 < (buildTable entries).buckets.length := by
    rw [hblen]
    exact Nat.two_pow_pos _
  have htmem : (⟨hash32 name, offset, length, kind, 0⟩ : IndexEntry) ∈
      entries := by
    rw [hent]
    exact List.mem_map_of_mem _ hmem
  have hilt : hash32 name % (buildTable entries).buckets.length <
      (buildTable entries).buckets.length := Nat.mod_lt _ hN
  have hfmap := hdata (hash32 name % (buildTable entries).buckets.length) hilt
  have htfil : (⟨hash32 name, offset, length, kind, 0⟩ : IndexEntry) ∈
      entries.filter (fun e => e.hash % (buildTable entries).buckets.length =
        hash32 name % (buildTable entries).buckets.length) := by
    rw [List.mem_filter]
    exact ⟨htmem, by simp⟩
  have hfnd : (entries.filter
      (fun e => e.hash % (buildTable entries).buckets.length =
        hash32 name % (buildTable entries).buckets.length)).find?
      (fun x => x.hash = hash32 name) =
      some ⟨hash32 name, offset, length, kind, 0⟩ := by
    have hsub : ((entries.filter
        (fun e => e.hash % (buildTable entries).buckets.length =
          hash32 name % (buildTable entries).buckets.length)).map
        IndexEntry.hash).Nodup :=
      List.Nodup.sublist (List.Sublist.map _ (List.filter_sublist _)) hnd
    exact find?_hash_unique hsub htfil
  have hlk : (lookupEntry (buildTable entries) (hash32 name)).map
      IndexEntry.fields = some (hash32 name, offset, length, kind) := by
    rw [lookupEntry]
    rw [find?_fields_congr (hash32 name) hfmap, hfnd]
    rfl
  obtain ⟨eF, heF, hfields⟩ := Option.map_eq_some'.mp hlk
  have heFmem : eF ∈ chainEntries (buildTable entries)
      (hash32 name % (buildTable entries).buckets.length) := by
    rw [lookupEntry] at heF
    exact List.mem_of_find?_eq_some heF
  rw [chainEntries] at heFmem
  obtain ⟨loc, hloc, hlocent⟩ := List.mem_filterMap.mp heFmem
  refine ⟨eF, loc, heF, ?_, ?_, ?_, ?_, hloc, hlocent, ?_⟩
  · exact congrArg Prod.fst hfields
  · exact congrArg (fun p => p.2.1) hfields
  · exact congrArg (fun p => p.2.2.1) hfields
  · exact congrArg (fun p => p.2.2.2) hfields
  · exact serializeIndex_slot (buildTable entries) g loc eF hlocent

/-- **C1 witness**: three names with hashes 1, 3 and 5 over four buckets
cause a chain in bucket 1; the registered data of the chained name `[5]`
is found by the runtime lookup. -/
theorem indexTable_roundtrip_witness :
    ∃ eF loc,
      lookupEntry (buildTable [⟨1, 10, 3, 0, 0⟩, ⟨3, 20, 4, 1, 0⟩,
        ⟨5, 30, 5, 2, 0⟩]) (hash32 [5]) = some eF ∧
      eF.hash = hash32 [5] ∧ eF.offset = 30 ∧ eF.length = 5 ∧
      eF.kind = 2 ∧
      loc ∈ chainLocs (buildTable [⟨1, 10, 3, 0, 0⟩, ⟨3, 20, 4, 1, 0⟩,
        ⟨5, 30, 5, 2, 0⟩])
        (hash32 [5] % (buildTable [⟨1, 10, 3, 0, 0⟩, ⟨3, 20, 4, 1, 0⟩,
          ⟨5, 30, 5, 2, 0⟩]).buckets.length) ∧
      entryAt (buildTable [⟨1, 10, 3, 0, 0⟩, ⟨3, 20, 4, 1, 0⟩,
        ⟨5, 30, 5, 2, 0⟩]) loc = some eF ∧
      ((serializeIndex (buildTable [⟨1, 10, 3, 0, 0⟩, ⟨3, 20, 4, 1, 0⟩,
        ⟨5, 30, 5, 2, 0⟩]) 0).drop
        (4 + 16 * slotIndex (buildTable [⟨1, 10, 3, 0, 0⟩,
          ⟨3, 20, 4, 1, 0⟩, ⟨5, 30, 5, 2, 0⟩]).buckets.length loc)).take
          16 = serializeExtEntry 0 (some eF) :=
  indexTable_roundtrip [([1], 10, 3, 0), ([3], 20, 4, 1), ([5], 30, 5, 2)]
    [⟨1, 10, 3, 0, 0⟩, ⟨3, 20, 4, 1, 0⟩, ⟨5, 30, 5, 2, 0⟩] rfl
    [5] 30 5 2 (by decide) 0

/-! ## C8: determinism across hash seeds -/

theorem lookupAssoc_remap {α β : Type} (h₁ h₂ : α → Nat)
    (hk : ∀ d₁ d₂, (h₁ d₁ = h₁ d₂) ↔ (h₂ d₁ = h₂ d₂))
    (base : List (α × β)) (d : α) :
    lookupAssoc (base.map (fun p => (h₁ p.1, p.2))) (h₁ d) =
      lookupAssoc (base.map (fun p => (h₂ p.1, p.2))) (h₂ d) := by
  induction base with
  | nil => rfl
  | cons p rest ih =>
      simp only [List.map_cons]
      unfold lookupAssoc
      by_cases hpd : h₁ p.1 = h₁ d
      · rw [List.find?_cons_of_pos _ (by simpa using hpd),
          List.find?_cons_of_pos _ (by simpa using (hk p.1 d).mp hpd)]
        rfl
      · rw [List.find?_cons_of_neg _ (by simpa using hpd),
          List.find?_cons_of_neg _
            (by simpa using fun hc => hpd ((hk p.1 d).mpr hc))]
        exact ih

theorem attemptPackStep_hkernel (h₁ h₂ : List (List Nat) → Nat)
    (hk : ∀ d₁ d₂, (h₁ d₁ = h₁ d₂) ↔ (h₂ d₁ = h₂ d₂))
    (page : Nat) (altSplit : Bool) (imgs : List ImageWrapper)
    (spaces : List FreeSpace) (base : List (List (List Nat) × ImageWrapper))
    (area packed : Nat) (im : ImageWrapper) :
    ∃ (imgs' : List ImageWrapper) (spaces' : List FreeSpace)
      (base' : List (List (List Nat) × ImageWrapper)) (area' packed' : Nat),
      attemptPackStep h₁ page altSplit
        ⟨imgs, spaces, base.map (fun p => (h₁ p.1, p.2)), area, packed⟩ im =
        ⟨imgs', spaces', base'.map (fun p => (h₁ p.1, p.2)), area', packed'⟩ ∧
      attemptPackStep h₂ page altSplit
        ⟨imgs, spaces, base.map (fun p => (h₂ p.1, p.2)), area, packed⟩ im =
        ⟨imgs', spaces', base'.map (fun p => (h₂ p.1, p.2)), area', packed'⟩ := by
  have hlk := lookupAssoc_remap h₁ h₂ hk base im.data
  unfold attemptPackStep
  dsimp only
  cases hres : lookupAssoc (base.map (fun p => (h₂ p.1, p.2))) (h₂ im.data) with
  | some prev =>
      rw [hres] at hlk
      rw [hlk]
      exact ⟨imgs ++ [dupPlaced im prev], spaces, base, area, packed + 1,
        rfl, rfl⟩
  | none =>
      rw [hres] at hlk
      rw [hlk]
      cases htf : tryFlips (resetImage im) page altSplit spaces
          (resetImage im).flipModes with
      | none =>
          exact ⟨imgs ++ [resetImage im], spaces,
            base, area, packed, rfl, rfl⟩
      | some placed =>
          refine ⟨imgs ++ [placed.1], placed.2,
            base ++ [(im.data, placed.1)],
            area + (placed.1.getPackedSize placed.1.flip).1 *
              (placed.1.getPackedSize placed.1.flip).2, packed + 1, ?_, ?_⟩
          · simp
          · simp

theorem attemptPack_fold_hkernel (h₁ h₂ : List (List Nat) → Nat)
    (hk : ∀ d₁ d₂, (h₁ d₁ = h₁ d₂) ↔ (h₂ d₁ = h₂ d₂))
    (page : Nat) (altSplit : Bool) :
    ∀ (l : List ImageWrapper) (imgs : List ImageWrapper)
      (spaces : List FreeSpace)
      (base : List (List (List Nat) × ImageWrapper)) (area packed : Nat),
      ∃ (imgs' : List ImageWrapper) (spaces' : List FreeSpace)
        (base' : List (List (List Nat) × ImageWrapper)) (area' packed' : Nat),
        l.foldl (attemptPackStep h₁ page altSplit)
          ⟨imgs, spaces, base.map (fun p => (h₁ p.1, p.2)), area, packed⟩ =
          ⟨imgs', spaces', base'.map (fun p => (h₁ p.1, p.2)), area',
            packed'⟩ ∧
        l.foldl (attemptPackStep h₂ page altSplit)
          ⟨imgs, spaces, base.map (fun p => (h₂ p.1, p.2)), area, packed⟩ =
          ⟨imgs', spaces', base'.map (fun p => (h₂ p.1, p.2)), area',
            packed'⟩ := by
  intro l
  induction l with
  | nil =>
      intro imgs spaces base area packed
      exact ⟨imgs, spaces, base, area, packed, rfl, rfl⟩
  | cons a rest ih =>
      intro imgs spaces base area packed
      obtain ⟨i1, s1, b1, a1, p1, hs1, hs2⟩ :=
        attemptPackStep_hkernel h₁ h₂ hk page altSplit imgs spaces base area
          packed a
      obtain ⟨i2, s2, b2, a2, p2, hr1, hr2⟩ := ih i1 s1 b1 a1 p1
      refine ⟨i2, s2, b2, a2, p2, ?_, ?_⟩
      · rw [List.foldl_cons, hs1]
        exact hr1
      · rw [List.foldl_cons, hs2]
        exact hr2

theorem attemptPack_hkernel (h₁ h₂ : List (List Nat) → Nat)
    (hk : ∀ d₁ d₂, (h₁ d₁ = h₁ d₂) ↔ (h₂ d₁ = h₂ d₂))
    (images : List ImageWrapper) (aw ah page : Nat) (altSplit : Bool) :
    (attemptPack h₁ images aw ah page altSplit).images =
      (attemptPack h₂ images aw ah page altSplit).images ∧
    (attemptPack h₁ images aw ah page altSplit).spaces =
      (attemptPack h₂ images aw ah page altSplit).spaces ∧
    (attemptPack h₁ images aw ah page altSplit).area =
      (attemptPack h₂ images aw ah page altSplit).area ∧
    (attemptPack h₁ images aw ah page altSplit).packed =
      (attemptPack h₂ images aw ah page altSplit).packed := by
  obtain ⟨i2, s2, b2, a2, p2, h1, h2⟩ :=
    attemptPack_fold_hkernel h₁ h₂ hk page altSplit images []
      [⟨0, 0, aw, ah⟩] [] 0 0
  have e1 : attemptPack h₁ images aw ah page altSplit =
      ⟨i2, s2, b2.map (fun p => (h₁ p.1, p.2)), a2, p2⟩ := h1
  have e2 : attemptPack h₂ images aw ah page altSplit =
      ⟨i2, s2, b2.map (fun p => (h₂ p.1, p.2)), a2, p2⟩ := h2
  rw [e1, e2]
  exact ⟨rfl, rfl, rfl, rfl⟩

theorem packPalettesStep_hkernel (hp₁ hp₂ : List Nat → Nat)
    (hk : ∀ p₁ p₂, (hp₁ p₁ = hp₁ p₂) ↔ (hp₂ p₁ = hp₂ p₂))
    (aw page : Nat) (preserveLSB : Bool) (imgs : List ImageWrapper)
    (base : List (List Nat × ImageWrapper)) (packed px : Nat) (py : Int)
    (stopped : Bool) (im : ImageWrapper) :
    ∃ (imgs' : List ImageWrapper) (base' : List (List Nat × ImageWrapper))
      (packed' px' : Nat) (py' : Int) (stopped' : Bool),
      packPalettesStep hp₁ aw page preserveLSB
        ⟨imgs, base.map (fun p => (hp₁ p.1, p.2)), packed, px, py, stopped⟩
        im =
        ⟨imgs', base'.map (fun p => (hp₁ p.1, p.2)), packed', px', py',
          stopped'⟩ ∧
      packPalettesStep hp₂ aw page preserveLSB
        ⟨imgs, base.map (fun p => (hp₂ p.1, p.2)), packed, px, py, stopped⟩
        im =
        ⟨imgs', base'.map (fun p => (hp₂ p.1, p.2)), packed', px', py',
          stopped'⟩ := by
  have hlk := lookupAssoc_remap hp₁ hp₂ hk base (im.maskedPalette preserveLSB)
  unfold packPalettesStep
  dsimp only
  cases stopped with
  | true => exact ⟨imgs ++ [im], base, packed, px, py, true, rfl, rfl⟩
  | false =>
      by_cases hw : 2 ^ im.bpp > aw
      · rw [if_pos hw, if_pos hw]
        exact ⟨imgs ++ [im], base, packed, px, py, false, rfl, rfl⟩
      · rw [if_neg hw, if_neg hw]
        cases hres : lookupAssoc (base.map (fun p => (hp₂ p.1, p.2)))
            (hp₂ (im.maskedPalette preserveLSB)) with
        | some prev =>
            rw [hres] at hlk
            rw [hlk]
            exact ⟨imgs ++ [paletteInherited im prev page], base, packed + 1,
              px, py, false, rfl, rfl⟩
        | none =>
            rw [hres] at hlk
            rw [hlk]
            refine ⟨imgs ++ [palettePlaced im page px py],
              base ++ [(im.maskedPalette preserveLSB,
                palettePlaced im page px py)],
              packed + 1, (px + 2 ^ im.bpp) % aw,
              py - ((px + 2 ^ im.bpp) / aw : Nat),
              decide (py - ((px + 2 ^ im.bpp) / aw : Nat) < 0), ?_, ?_⟩
            · simp
            · simp

theorem packPalettes_fold_hkernel (hp₁ hp₂ : List Nat → Nat)
    (hk : ∀ p₁ p₂, (hp₁ p₁ = hp₁ p₂) ↔ (hp₂ p₁ = hp₂ p₂))
    (aw page : Nat) (preserveLSB : Bool) :
    ∀ (l : List ImageWrapper) (imgs : List ImageWrapper)
      (base : List (List Nat × ImageWrapper)) (packed px : Nat) (py : Int)
      (stopped : Bool),
      ∃ (imgs' : List ImageWrapper) (base' : List (List Nat × ImageWrapper))
        (packed' px' : Nat) (py' : Int) (stopped' : Bool),
        l.foldl (packPalettesStep hp₁ aw page preserveLSB)
          ⟨imgs, base.map (fun p => (hp₁ p.1, p.2)), packed, px, py,
            stopped⟩ =
          ⟨imgs', base'.map (fun p => (hp₁ p.1, p.2)), packed', px', py',
            stopped'⟩ ∧
        l.foldl (packPalettesStep hp₂ aw page preserveLSB)
          ⟨imgs, base.map (fun p => (hp₂ p.1, p.2)), packed, px, py,
            stopped⟩ =
          ⟨imgs', base'.map (fun p => (hp₂ p.1, p.2)), packed', px', py',
            stopped'⟩ := by
  intro l
  induction l with
  | nil =>
      intro imgs base packed px py stopped
      exact ⟨imgs, base, packed, px, py, stopped, rfl, rfl⟩
  | cons a rest ih =>
      intro imgs base packed px py stopped
      obtain ⟨i1, b1, k1, x1, y1, s1, hs1, hs2⟩ :=
        packPalettesStep_hkernel hp₁ hp₂ hk aw page preserveLSB imgs base
          packed px py stopped a
      obtain ⟨i2, b2, k2, x2, y2, s2, hr1, hr2⟩ := ih i1 b1 k1 x1 y1 s1
      refine ⟨i2, b2, k2, x2, y2, s2, ?_, ?_⟩
      · rw [List.foldl_cons, hs1]
        exact hr1
      · rw [List.foldl_cons, hs2]
        exact hr2

theorem packPalettes_hkernel (hp₁ hp₂ : List Nat → Nat)
    (hk : ∀ p₁ p₂, (hp₁ p₁ = hp₁ p₂) ↔ (hp₂ p₁ = hp₂ p₂))
    (images : List ImageWrapper) (aw ah page : Nat) (preserveLSB : Bool) :
    packPalettes hp₁ images aw ah page preserveLSB =
      packPalettes hp₂ images aw ah page preserveLSB := by
  obtain ⟨i2, b2, k2, x2, y2, s2, h1, h2⟩ :=
    packPalettes_fold_hkernel hp₁ hp₂ hk aw page preserveLSB
      (sortWithBy (fun a b => decide (a.bpp > b.bpp)) images) [] [] 0 0
      ((ah : Int) - 1) false
  have e1 : packPalettesRun hp₁ images aw ah page preserveLSB =
      ⟨i2, b2.map (fun p => (hp₁ p.1, p.2)), k2, x2, y2, s2⟩ := h1
  have e2 : packPalettesRun hp₂ images aw ah page preserveLSB =
      ⟨i2, b2.map (fun p => (hp₂ p.1, p.2)), k2, x2, y2, s2⟩ := h2
  unfold packPalettes
  rw [e1, e2]

theorem shrinkLoop_hkernel (h₁ h₂ : List (List Nat) → Nat)
    (hk : ∀ d₁ d₂, (h₁ d₁ = h₁ d₂) ↔ (h₂ d₁ = h₂ d₂))
    (images : List ImageWrapper) (page : Nat) (splitModes : List Bool)
    (aw ah n ds : Nat) :
    ∀ (fuel step : Nat) (st : SearchState),
      shrinkLoop h₁ images page splitModes aw ah n ds fuel step st =
        shrinkLoop h₂ images page splitModes aw ah n ds fuel step st := by
  intro fuel
  induction fuel with
  | zero => intro step st; rfl
  | succ f ih =>
      intro step st
      have hpair : ∀ (w hgt : Nat) (alt : Bool),
          ((attemptPack h₁ images w hgt page alt).area,
            (attemptPack h₁ images w hgt page alt).packed) =
          ((attemptPack h₂ images w hgt page alt).area,
            (attemptPack h₂ images w hgt page alt).packed) := by
        intro w hgt alt
        obtain ⟨_, _, ha, hp⟩ := attemptPack_hkernel h₁ h₂ hk images w hgt
          page alt
        rw [ha, hp]
      simp only [shrinkLoop]
      have hPR : (splitModes.map
          (fun altSplit =>
            [((st.newWidth - step : Int), (st.newHeight - step : Int)),
              (st.newWidth - step, st.newHeight),
              (st.newWidth, st.newHeight - step),
              (st.newWidth, st.newHeight)].map
              (fun c =>
                let r := attemptPack h₁ images c.1.toNat c.2.toNat page
                  altSplit
                (r.area, r.packed)))).flatten =
          (splitModes.map
          (fun altSplit =>
            [((st.newWidth - step : Int), (st.newHeight - step : Int)),
              (st.newWidth - step, st.newHeight),
              (st.newWidth, st.newHeight - step),
              (st.newWidth, st.newHeight)].map
              (fun c =>
                let r := attemptPack h₂ images c.1.toNat c.2.toNat page
                  altSplit
                (r.area, r.packed)))).flatten := by
        congr 1
        refine List.map_congr_left ?_
        intro alt _
        refine List.map_congr_left ?_
        intro c _
        exact hpair c.1.toNat c.2.toNat alt
      rw [hPR]
      simp only [ih]

theorem packImagesOrders_hkernel (h₁ h₂ : List (List Nat) → Nat)
    (hk : ∀ d₁ d₂, (h₁ d₁ = h₁ d₂) ↔ (h₂ d₁ = h₂ d₂))
    (images : List ImageWrapper) (aw ah page ds : Nat)
    (splitModes : List Bool) (reverse : Bool) :
    ∀ (idxs : List Nat) (st : OrderLoopState),
      packImagesOrders h₁ images aw ah page ds splitModes reverse idxs st =
        packImagesOrders h₂ images aw ah page ds splitModes reverse idxs
          st := by
  intro idxs
  induction idxs with
  | nil => intro st; rfl
  | cons idx rest ih =>
      intro st
      simp only [packImagesOrders]
      rw [shrinkLoop_hkernel h₁ h₂ hk]
      simp only [ih]

theorem packImages_hkernel (h₁ h₂ : List (List Nat) → Nat)
    (hk : ∀ d₁ d₂, (h₁ d₁ = h₁ d₂) ↔ (h₂ d₁ = h₂ d₂))
    (images : List ImageWrapper) (aw ah page ds : Nat) (trySplits : Bool) :
    packImages h₁ images aw ah page ds trySplits =
      packImages h₂ images aw ah page ds trySplits := by
  simp only [packImages]
  rw [packImagesOrders_hkernel h₁ h₂ hk, packImagesOrders_hkernel h₁ h₂ hk]
  cases hargs : (packImagesOrders h₂ images aw ah page ds
      (if trySplits then [false, true] else [false]) false [0, 1, 2, 3, 4, 5]
      (packImagesOrders h₂ images aw ah page ds
        (if trySplits then [false, true] else [false]) true
        [0, 1, 2, 3, 4, 5] ⟨none, 0, 0, 3⟩)).highestArgs with
  | none => rfl
  | some args =>
      obtain ⟨hi, _, ha, hp⟩ := attemptPack_hkernel h₁ h₂ hk args.1
        args.2.1.toNat args.2.2.1.toNat args.2.2.2.1 args.2.2.2.2
      dsimp only
      rw [hi, ha, hp]

theorem buildAtlasesGo_hkernel (h₁ h₂ : List (List Nat) → Nat)
    (hp₁ hp₂ : List Nat → Nat)
    (hk : ∀ d₁ d₂, (h₁ d₁ = h₁ d₂) ↔ (h₂ d₁ = h₂ d₂))
    (hkp : ∀ p₁ p₂, (hp₁ p₁ = hp₁ p₂) ↔ (hp₂ p₁ = hp₂ p₂))
    (ds : Nat) (trySplits preservePalettes : Bool) :
    ∀ (fuel : Nat) (master imagesCur palettesCur : List ImageWrapper)
      (index : Nat),
      buildAtlasesGo h₁ hp₁ ds trySplits preservePalettes fuel master
        imagesCur palettesCur index =
      buildAtlasesGo h₂ hp₂ ds trySplits preservePalettes fuel master
        imagesCur palettesCur index := by
  intro fuel
  induction fuel with
  | zero => intro master imagesCur palettesCur index; rfl
  | succ f ih =>
      intro master imagesCur palettesCur index
      simp only [buildAtlasesGo]
      rw [packPalettes_hkernel hp₁ hp₂ hkp]
      rw [packImages_hkernel h₁ h₂ hk]
      simp only [ih]

theorem buildTexturePages_hkernel (h₁ h₂ : List (List Nat) → Nat)
    (hp₁ hp₂ : List Nat → Nat)
    (hk : ∀ d₁ d₂, (h₁ d₁ = h₁ d₂) ↔ (h₂ d₁ = h₂ d₂))
    (hkp : ∀ p₁ p₂, (hp₁ p₁ = hp₁ p₂) ↔ (hp₂ p₁ = hp₂ p₂))
    (images : List ImageWrapper) (ds : Nat)
    (trySplits preservePalettes : Bool) :
    buildTexturePages h₁ hp₁ images ds trySplits preservePalettes =
      buildTexturePages h₂ hp₂ images ds trySplits preservePalettes := by
  simp only [buildTexturePages, buildAtlases]
  rw [buildAtlasesGo_hkernel h₁ h₂ hp₁ hp₂ hk hkp]

theorem bundleRun_hkernel_gen (h₁ h₂ : List (List Nat) → Nat)
    (hp₁ hp₂ : List Nat → Nat)
    (hk : ∀ d₁ d₂, (h₁ d₁ = h₁ d₂) ↔ (h₂ d₁ = h₂ d₂))
    (hkp : ∀ p₁ p₂, (hp₁ p₁ = hp₁ p₂) ↔ (hp₂ p₁ = hp₂ p₂))
    (st : BundleState) (ds : Nat) (trySplits preservePalettes : Bool) :
    bundleGenerate h₁ hp₁ st ds trySplits preservePalettes =
      bundleGenerate h₂ hp₂ st ds trySplits preservePalettes := by
  simp only [bundleGenerate, buildVRAM]
  rw [buildTexturePages_hkernel h₁ h₂ hp₁ hp₂ hk hkp]

/-- **C8**: for a fixed sequence of add* calls and fixed packing options,
two executions of the bundle assembler produce byte-identical output.  The
only run-to-run variation in the program is the seeded builtin `hash` used
for the image- and palette-deduplication maps (modelled by the `h`/`hp`
parameters); whenever the two runs' hash functions have the same equality
kernel — which holds on all inputs that are free of seed-dependent hash
collisions between distinct byte strings — the generated bundle bytes are
equal. -/
theorem bundleRun_deterministic (h₁ h₂ : List (List Nat) → Nat)
    (hp₁ hp₂ : List Nat → Nat)
    (hk : ∀ d₁ d₂, (h₁ d₁ = h₁ d₂) ↔ (h₂ d₁ = h₂ d₂))
    (hkp : ∀ p₁ p₂, (hp₁ p₁ = hp₁ p₂) ↔ (hp₂ p₁ = hp₂ p₂))
    (calls : List AddCall) (discardStep : Nat)
    (trySplits preservePalettes : Bool) :
    bundleRun h₁ hp₁ calls discardStep trySplits preservePalettes =
      bundleRun h₂ hp₂ calls discardStep trySplits preservePalettes := by
  simp only [bundleRun]
  simp only [bundleRun_hkernel_gen h₁ h₂ hp₁ hp₂ hk hkp]

/-- **C8 witness**: a concrete one-entry build compared against itself
under two (equal) hash functions. -/
theorem bundleRun_deterministic_witness :
    bundleRun (fun d => (d.headD []).headD 0) (fun p => p.headD 0)
      [AddCall.addEntry [1] [1, 2, 3] 0] 1 false false =
    bundleRun (fun d => (d.headD []).headD 0) (fun p => p.headD 0)
      [AddCall.addEntry [1] [1, 2, 3] 0] 1 false false :=
  bundleRun_deterministic _ _ _ _ (fun _ _ => Iff.rfl)
    (fun _ _ => Iff.rfl) [AddCall.addEntry [1] [1, 2, 3] 0] 1 false false
